import Mathlib

/-!
# Rutvik79/roadmap: worker pool and rate limiters

A shallow embedding of the concurrency exercises of `week2-concurrency`:

* `GoRt`: the part of the Go run time the programs rely on: buffered channels,
  `close`, two-way `select`, `sync.WaitGroup`, run-time panics and 64-bit `int`.
* `ProdPool`: `workerpool-production-ready/main.go`.
* `RateLim`: `rate-limiter/main.go`.

Goroutines are embedded as program counters over a shared state; one scheduler
action runs one goroutine up to its next communication.  A `select` with two
ready clauses is resolved by the poll order the run time draws at random, which
the embedding takes as an explicit argument.  A send that a parked receiver
takes directly (the only way through an unbuffered channel) is a scheduler
action of its own.  Go `int` and `time.Duration` are 64-bit: sums and
differences wrap around, `Time.Sub` saturates.  Clock readings are passed in
as arguments where the code calls `time.Now()`.
-/

namespace GoRt

/-- Run-time panics raised by the modelled code. -/
inductive Panic where
  | sendOnClosedChannel
  | closeOfClosedChannel
  | makechanSizeOutOfRange
  | negativeWaitGroupCounter
  | integerDivideByZero
  | nonPositiveTickerInterval
  deriving DecidableEq, Repr

/-- Result of running a goroutine up to its next communication: it completes,
it parks because no clause is ready, or it panics. -/
inductive Outcome (α : Type) where
  | ok (a : α)
  | blocked
  | panic (p : Panic)
  deriving DecidableEq, Repr

/-- Sequencing of statements: a parked or panicking statement stops the rest. -/
def Outcome.bind {α β : Type} (x : Outcome α) (f : α → Outcome β) : Outcome β :=
  match x with
  | .ok a => f a
  | .blocked => .blocked
  | .panic p => .panic p

/-- A Go channel: the buffered elements (head is the oldest), the capacity given
to `make`, and whether `close` has been called. -/
structure Chan (α : Type) where
  buf : List α
  cap : Nat
  closed : Bool
  deriving DecidableEq, Repr

/-- The built-in `make(chan T, size)`; a negative size panics. -/
def Chan.make {α : Type} (size : Int) : Outcome (Chan α) :=
  if size < 0 then .panic .makechanSizeOutOfRange
  else .ok { buf := [], cap := size.toNat, closed := false }

/-- A send clause can proceed when the channel is closed (it then panics) or
the buffer has room. -/
def Chan.sendReady {α : Type} (c : Chan α) : Bool :=
  c.closed || decide (c.buf.length < c.cap)

/-- The statement `c <- a`, once it proceeds. -/
def Chan.send {α : Type} (c : Chan α) (a : α) : Outcome (Chan α) :=
  if c.closed then .panic .sendOnClosedChannel
  else if c.buf.length < c.cap then .ok { c with buf := c.buf ++ [a] }
  else .blocked

/-- A receive clause can proceed when an element is buffered or the channel is
closed. -/
def Chan.recvReady {α : Type} (c : Chan α) : Bool :=
  !c.buf.isEmpty || c.closed

/-- The expression `v, ok := <-c`: the oldest buffered element with `ok = true`;
on a closed and drained channel the zero value with `ok = false`, written
`none`; on an open empty channel the receiver parks. -/
def Chan.recv {α : Type} (c : Chan α) : Outcome (Option α × Chan α) :=
  match c.buf with
  | a :: rest => .ok (some a, { c with buf := rest })
  | [] => if c.closed then .ok (none, c) else .blocked

/-- The built-in `close(c)`; closing a closed channel panics. -/
def Chan.close {α : Type} (c : Chan α) : Outcome (Chan α) :=
  if c.closed then .panic .closeOfClosedChannel
  else .ok { c with closed := true }

/-- The order in which a two-clause `select` polls its clauses: the channel
operation written first, or the `<-ctx.Done()` clause. -/
inductive Poll where
  | commFirst
  | doneFirst
  deriving DecidableEq, Repr

/-- The clause a two-way `select` runs. -/
inductive Clause where
  | comm
  | done
  deriving DecidableEq, Repr

/-- The run time's `selectgo` for a communication clause and a
`<-ctx.Done()` clause: the first ready clause in poll order runs; with no
ready clause the goroutine parks. -/
def select2 (commReady doneReady : Bool) (poll : Poll) : Option Clause :=
  match poll with
  | .commFirst => if commReady then some .comm else if doneReady then some .done else none
  | .doneFirst => if doneReady then some .done else if commReady then some .comm else none

/-- Largest value of a 64-bit `int`, also `time.Duration`. -/
def maxInt64 : Int := 9223372036854775807

/-- Smallest value of a 64-bit `int`. -/
def minInt64 : Int := -9223372036854775808

/-- Whether a value is representable as a 64-bit `int`. -/
def isInt64 (x : Int) : Prop := minInt64 ≤ x ∧ x ≤ maxInt64

instance (x : Int) : Decidable (isInt64 x) := by
  unfold isInt64; infer_instance

/-- Two's complement wrap-around of 64-bit `int` arithmetic. -/
def wrap64 (x : Int) : Int := (x + 9223372036854775808) % 18446744073709551616 - 9223372036854775808

/-- The method `t.Sub(u)` on monotonic clock readings in nanoseconds: the
difference as a `time.Duration`, saturating at the largest and smallest
duration. -/
def timeSub (t u : Int) : Int :=
  if t - u > maxInt64 then maxInt64
  else if t - u < minInt64 then minInt64
  else t - u

end GoRt

namespace ProdPool

open GoRt

/-- The struct `Job`: a unit of work. -/
structure Job where
  ID : Int
  Data : String
  deriving DecidableEq, Repr

/-- The struct `Result`: the output of processing a job; `Error` is `nil`
when `none`. -/
structure Result where
  Job : Job
  Error : Option String
  Value : String
  deriving DecidableEq, Repr

/-- The struct `WorkerPool`.  `cancelled` is whether `cancel` has been called,
that is whether `ctx.Done()` is closed; `wg` is the counter of the
`sync.WaitGroup`. -/
structure WorkerPool where
  cancelled : Bool
  wg : Nat
  numWorkers : Int
  jobs : Chan Job
  results : Chan Result
  deriving DecidableEq, Repr

/-- The constructor `NewWorkerPool(numWorkers, jobQueueSize)`. -/
def NewWorkerPool (numWorkers jobQueueSize : Int) : Outcome WorkerPool :=
  (Chan.make jobQueueSize).bind fun jobs =>
  (Chan.make jobQueueSize).bind fun results =>
  .ok { cancelled := false, wg := 0, numWorkers := numWorkers, jobs := jobs, results := results }

/-- The method `ProcessJob`; the simulated work (a sleep) has no effect on the
result. -/
def ProcessJob (job : Job) : Result :=
  { Job := job, Value := "Processed: " ++ job.Data, Error := none }

/-- The shutting-down error of `Submit`. -/
def errShuttingDown : String := "Worker pool is shutting down"

/-- The method `Submit(job)`: a `select` between `wp.jobs <- job` and
`<-wp.ctx.Done()`.  The value is the pool afterwards and the returned error
(`none` is `nil`). -/
def Submit (wp : WorkerPool) (job : Job) (poll : Poll) : Outcome (WorkerPool × Option String) :=
  match select2 wp.jobs.sendReady wp.cancelled poll with
  | none => .blocked
  | some .comm => (wp.jobs.send job).bind fun jobs => .ok ({ wp with jobs := jobs }, none)
  | some .done => .ok (wp, some errShuttingDown)

/-- The call `wp.cancel()`: closes `ctx.Done()`; calling it again does nothing. -/
def cancel (wp : WorkerPool) : WorkerPool := { wp with cancelled := true }

/-- The statement `close(wp.jobs)`. -/
def closeJobs (wp : WorkerPool) : Outcome WorkerPool :=
  wp.jobs.close.bind fun jobs => .ok { wp with jobs := jobs }

/-- The statement `wp.wg.Wait()`: parks until the counter is zero. -/
def wgWait (wp : WorkerPool) : Outcome WorkerPool :=
  if wp.wg = 0 then .ok wp else .blocked

/-- The statement `close(wp.results)`. -/
def closeResults (wp : WorkerPool) : Outcome WorkerPool :=
  wp.results.close.bind fun results => .ok { wp with results := results }

/-- The call `wp.wg.Done()`: a counter below zero panics. -/
def wgDone (wp : WorkerPool) : Outcome WorkerPool :=
  if wp.wg = 0 then .panic .negativeWaitGroupCounter else .ok { wp with wg := wp.wg - 1 }

/-- The method `Stop()` run by one goroutine from its first statement to its
last: cancel, close the jobs channel, wait for the workers, close the results
channel. -/
def Stop (wp : WorkerPool) : Outcome WorkerPool :=
  (closeJobs (cancel wp)).bind fun wp1 =>
  (wgWait wp1).bind fun wp2 =>
  closeResults wp2

/-- Where a goroutine running `Stop()` stands: before the call, after each of
its four statements. -/
inductive StopPc where
  | notCalled
  | afterCancel
  | afterCloseJobs
  | afterWait
  | returned
  deriving DecidableEq, Repr

/-- One statement of `Stop()` from the given position. -/
def Stop.step (wp : WorkerPool) (pc : StopPc) : Outcome (WorkerPool × StopPc) :=
  match pc with
  | .notCalled => .ok (cancel wp, .afterCancel)
  | .afterCancel => (closeJobs wp).bind fun wp1 => .ok (wp1, .afterCloseJobs)
  | .afterCloseJobs => (wgWait wp).bind fun wp1 => .ok (wp1, .afterWait)
  | .afterWait => (closeResults wp).bind fun wp1 => .ok (wp1, .returned)
  | .returned => .blocked

/-- Where a goroutine running `Worker` stands: at the outer `select`, at the
inner `select` holding the result of `ProcessJob`, or returned (the deferred
`wg.Done()` has run). -/
inductive WorkerPc where
  | waiting
  | publishing (r : Result)
  | exited
  deriving DecidableEq, Repr

/-- What a step of a worker did, for the bookkeeping of the whole system. -/
inductive WorkerEvent where
  | dequeued (job : Job)
  | sawJobsClosed
  | sawCancelAtWait
  | published (r : Result)
  | discarded (r : Result)
  deriving DecidableEq, Repr

/-- One step of the loop of `Worker` from the given position.  At the outer
`select` the worker receives a job and processes it, or returns because the
jobs channel is closed and drained, or returns because the context is done; at
the inner `select` it sends the result or drops it because the context is
done. -/
def Worker.step (wp : WorkerPool) (pc : WorkerPc) (poll : Poll) :
    Outcome (WorkerPool × WorkerPc × WorkerEvent) :=
  match pc with
  | .waiting =>
    match select2 wp.jobs.recvReady wp.cancelled poll with
    | none => .blocked
    | some .comm =>
      wp.jobs.recv.bind fun got =>
        match got with
        | (some job, jobs) => .ok ({ wp with jobs := jobs }, .publishing (ProcessJob job), .dequeued job)
        | (none, _) => (wgDone wp).bind fun wp1 => .ok (wp1, .exited, .sawJobsClosed)
    | some .done => (wgDone wp).bind fun wp1 => .ok (wp1, .exited, .sawCancelAtWait)
  | .publishing r =>
    match select2 wp.results.sendReady wp.cancelled poll with
    | none => .blocked
    | some .comm =>
      (wp.results.send r).bind fun results => .ok ({ wp with results := results }, .waiting, .published r)
    | some .done => .ok (wp, .waiting, .discarded r)
  | .exited => .blocked

/-- The goroutines of a program using the pool. -/
inductive Thread where
  | submitter
  | worker (i : Nat)
  | stopper
  | consumer
  deriving DecidableEq, Repr

/-- A running program around one pool: the pool, the position of every worker
goroutine started by `Start`, the position of the goroutine calling `Stop`, and
the loop `for results := range pool.Results()` of the caller.  `accepted` lists
the jobs for which `Submit` returned `nil`, `delivered` the results the range
loop received, `discarded` the results dropped at the inner `select` of a
worker; `panicked` names the goroutine whose panic ended the program. -/
structure Sys where
  wp : WorkerPool
  workers : List WorkerPc
  stopPc : StopPc
  consumerDone : Bool
  accepted : List Job
  delivered : List Result
  discarded : List Result
  panicked : Option (Thread × Panic)
  deriving DecidableEq, Repr

/-- A program that holds a freshly constructed pool. -/
def boot (wp : WorkerPool) : Sys :=
  { wp := wp, workers := [], stopPc := .notCalled, consumerDone := false,
    accepted := [], delivered := [], discarded := [], panicked := none }

/-- The loop of `Start()`: each round does `wp.wg.Add(1)` and `go wp.Worker(workerId)`. -/
def Start.loop : Nat → Sys → Sys
  | 0, s => s
  | k + 1, s =>
    Start.loop k { s with wp := { s.wp with wg := s.wp.wg + 1 }, workers := s.workers ++ [.waiting] }

/-- The method `Start()`: the loop body runs once for every `workerId` from 1
to `numWorkers`, so not at all when `numWorkers` is below 1 (for `numWorkers`
below the largest `int`, where the loop counter cannot wrap around). -/
def Start (s : Sys) : Sys := Start.loop s.wp.numWorkers.toNat s

/-- Scheduler actions.  `submit` is a call of `Submit`, `worker i` a step of
worker `i`, `stop` the next statement of the one `Stop()` call, `consume` a
round of the range loop over `Results()`.  The two hand-over actions are the
rendezvous of the run time, where a send is taken by a goroutine already parked
in a receive on the empty channel: `submitHandoff` gives the job of a `Submit`
to worker `i` parked at its outer `select`, `publishHandoff` gives the result
of worker `i` to the parked range loop. -/
inductive Action where
  | submit (job : Job) (poll : Poll)
  | submitHandoff (job : Job) (i : Nat)
  | worker (i : Nat) (poll : Poll)
  | publishHandoff (i : Nat)
  | stop
  | consume
  deriving DecidableEq, Repr

/-- The results a worker step drops. -/
def WorkerEvent.dropped : WorkerEvent → List Result
  | .discarded r => [r]
  | _ => []

/-- One scheduler action.  An action whose goroutine is parked leaves the
state as it is; a panic ends the program, after which nothing runs. -/
def step (s : Sys) (a : Action) : Sys :=
  if s.panicked.isSome then s else
  match a with
  | .submit job poll =>
    match Submit s.wp job poll with
    | .ok (wp1, none) => { s with wp := wp1, accepted := s.accepted ++ [job] }
    | .ok (wp1, some _) => { s with wp := wp1 }
    | .blocked => s
    | .panic p => { s with panicked := some (.submitter, p) }
  | .submitHandoff job i =>
    if s.wp.jobs.closed = false ∧ s.wp.cancelled = false ∧ s.wp.jobs.buf = []
        ∧ s.workers[i]? = some .waiting then
      { s with workers := s.workers.set i (.publishing (ProcessJob job)),
               accepted := s.accepted ++ [job] }
    else s
  | .worker i poll =>
    match s.workers[i]? with
    | none => s
    | some pc =>
      match Worker.step s.wp pc poll with
      | .ok (wp1, pc1, ev) =>
        { s with wp := wp1, workers := s.workers.set i pc1,
                 discarded := s.discarded ++ ev.dropped }
      | .blocked => s
      | .panic p => { s with panicked := some (.worker i, p) }
  | .publishHandoff i =>
    match s.workers[i]? with
    | some (.publishing r) =>
      if s.wp.results.closed = false ∧ s.wp.results.buf = [] ∧ s.consumerDone = false then
        { s with workers := s.workers.set i .waiting, delivered := s.delivered ++ [r] }
      else s
    | _ => s
  | .stop =>
    match Stop.step s.wp s.stopPc with
    | .ok (wp1, pc1) => { s with wp := wp1, stopPc := pc1 }
    | .blocked => s
    | .panic p => { s with panicked := some (.stopper, p) }
  | .consume =>
    if s.consumerDone then s else
    match s.wp.results.recv with
    | .ok (some r, results) =>
      { s with wp := { s.wp with results := results }, delivered := s.delivered ++ [r] }
    | .ok (none, _) => { s with consumerDone := true }
    | .blocked => s
    | .panic p => { s with panicked := some (.consumer, p) }

/-- A schedule run from a state. -/
def exec (s : Sys) (trace : List Action) : Sys := trace.foldl step s

/-- Number of worker goroutines that have not returned. -/
def live (ws : List WorkerPc) : Nat := (ws.filter fun w => decide (w ≠ .exited)).length

/-- The results held by workers at their inner `select`. -/
def inflight (ws : List WorkerPc) : List Result :=
  ws.filterMap fun w => match w with
    | .publishing r => some r
    | _ => none

end ProdPool

namespace RateLim

open GoRt

/-- The struct `RateLimiter`.  `interval` is the period of the ticker in
nanoseconds, `tickerStopped` whether `ticker.Stop()` has run, `cancelled`
whether `ctx.Done()` is closed, `wg` the counter of the `sync.WaitGroup`. -/
structure RateLimiter where
  rate : Int
  interval : Int
  tickerStopped : Bool
  tokens : Chan Unit
  cancelled : Bool
  wg : Nat
  deriving DecidableEq, Repr

/-- The constant `time.Second` in nanoseconds. -/
def second : Int := 1000000000

/-- The constant `time.Millisecond` in nanoseconds. -/
def millisecond : Int := 1000000

/-- The call `time.NewTicker(d)`: a non-positive period panics. -/
def NewTicker (d : Int) : Outcome Int :=
  if d ≤ 0 then .panic .nonPositiveTickerInterval else .ok d

/-- The pre-fill loop of `NewRateLimiter`: one `rl.tokens <- struct{}{}` per
round. -/
def NewRateLimiter.fill : Nat → Chan Unit → Outcome (Chan Unit)
  | 0, c => .ok c
  | k + 1, c => (c.send ()).bind (NewRateLimiter.fill k)

/-- The constructor `NewRateLimiter(requestPerSecond)`: computes the ticker
period (integer division, a zero divisor panics), creates the ticker and the
token channel, pre-fills the channel and starts the refill goroutine. -/
def NewRateLimiter (requestPerSecond : Int) : Outcome RateLimiter :=
  if requestPerSecond = 0 then .panic .integerDivideByZero else
  (NewTicker (wrap64 (Int.tdiv second requestPerSecond))).bind fun interval =>
  (Chan.make requestPerSecond).bind fun tokens =>
  (NewRateLimiter.fill requestPerSecond.toNat tokens).bind fun filled =>
  .ok { rate := requestPerSecond, interval := interval, tickerStopped := false,
        tokens := filled, cancelled := false, wg := 1 }

/-- The method `TryAllow()`: a `select` with a receive from `rl.tokens` and a
`default` clause. -/
def TryAllow (rl : RateLimiter) : Outcome (RateLimiter × Bool) :=
  if rl.tokens.recvReady then
    rl.tokens.recv.bind fun got => .ok ({ rl with tokens := got.2 }, true)
  else .ok (rl, false)

/-- Back-to-back calls of `TryAllow()` with nothing running in between: the
limiter afterwards and the returned values in call order. -/
def tryAllowTimes : Nat → RateLimiter → Outcome (RateLimiter × List Bool)
  | 0, rl => .ok (rl, [])
  | k + 1, rl =>
    (TryAllow rl).bind fun first =>
    (tryAllowTimes k first.1).bind fun rest => .ok (rest.1, first.2 :: rest.2)

/-- The struct `TockenBucket`; `rate` is a `time.Duration` in nanoseconds and
`lastRefill` a reading of the monotonic clock in nanoseconds.  The mutex makes
every method call atomic. -/
structure TockenBucket where
  capacity : Int
  tokens : Int
  rate : Int
  lastRefill : Int
  deriving DecidableEq, Repr

/-- The constructor `NewTockenBucket(capacity, refillRate)` called when the
clock reads `now`. -/
def NewTockenBucket (capacity refillRate now : Int) : TockenBucket :=
  { capacity := capacity, tokens := capacity, rate := refillRate, lastRefill := now }

/-- The refill part of `Allow`, for `tokensToAdd` computed from the clock. -/
def TockenBucket.refill (tb : TockenBucket) (tokensToAdd now : Int) : TockenBucket :=
  if tokensToAdd > 0 then
    let added := wrap64 (tb.tokens + tokensToAdd)
    { tb with tokens := if added > tb.capacity then tb.capacity else added, lastRefill := now }
  else tb

/-- The method `Allow(n)` called when the clock reads `now`. -/
def TockenBucket.Allow (tb : TockenBucket) (n now : Int) : Outcome (TockenBucket × Bool) :=
  let elapsed := timeSub now tb.lastRefill
  if tb.rate = 0 then .panic .integerDivideByZero else
  let tokensToAdd := wrap64 (Int.tdiv elapsed tb.rate)
  let tb1 := tb.refill tokensToAdd now
  if tb1.tokens ≥ n then .ok ({ tb1 with tokens := wrap64 (tb1.tokens - n) }, true)
  else .ok (tb1, false)

/-- A sequence of calls `Allow(n)`, each given as the pair of `n` and the clock
reading at the call: the bucket after every call, in call order, with the
returned value. -/
def TockenBucket.allowAll : TockenBucket → List (Int × Int) → Outcome (List (TockenBucket × Bool))
  | _, [] => .ok []
  | tb, (n, now) :: rest =>
    (tb.Allow n now).bind fun first =>
    (TockenBucket.allowAll first.1 rest).bind fun more => .ok (first :: more)

end RateLim

namespace RateLim

open GoRt

/-- The inner `select` of `refillTokens`, run when a tick has been received:
send one token when the bucket has room, otherwise take the `default` clause
and skip the tick. -/
def refillTick (rl : RateLimiter) : Outcome RateLimiter :=
  if rl.tokens.sendReady then
    (rl.tokens.send ()).bind fun tokens => .ok { rl with tokens := tokens }
  else .ok rl

/-- Where the goroutine running `refillTokens` stands: in its loop, or returned
(the deferred `wg.Done()` has run). -/
inductive RefillPc where
  | looping
  | exited
  deriving DecidableEq, Repr

/-- The call `rl.wg.Done()`. -/
def wgDone (rl : RateLimiter) : Outcome RateLimiter :=
  if rl.wg = 0 then .panic .negativeWaitGroupCounter else .ok { rl with wg := rl.wg - 1 }

/-- One round of the loop of `refillTokens`: a `select` between a tick from
`rl.ticker.C` (`tickReady` says whether one is buffered there) and
`<-rl.ctx.Done()`. -/
def refillTokens.step (rl : RateLimiter) (tickReady : Bool) (poll : Poll) :
    Outcome (RateLimiter × RefillPc) :=
  match select2 tickReady rl.cancelled poll with
  | none => .blocked
  | some .comm => (refillTick rl).bind fun rl1 => .ok (rl1, .looping)
  | some .done => (wgDone rl).bind fun rl1 => .ok (rl1, .exited)

/-- The method `Allow()`: a `select` between a receive from `rl.tokens` and
`<-rl.ctx.Done()`. -/
def Allow (rl : RateLimiter) (poll : Poll) : Outcome (RateLimiter × Bool) :=
  match select2 rl.tokens.recvReady rl.cancelled poll with
  | none => .blocked
  | some .comm => rl.tokens.recv.bind fun got => .ok ({ rl with tokens := got.2 }, true)
  | some .done => .ok (rl, false)

/-- Where a goroutine running `Stop()` stands: before the call and after each
of its four statements. -/
inductive StopPc where
  | notCalled
  | afterTickerStop
  | afterCancel
  | afterWait
  | returned
  deriving DecidableEq, Repr

/-- One statement of `Stop()` from the given position: `rl.ticker.Stop()`,
`rl.cancel()`, `rl.wg.Wait()`, `close(rl.tokens)`. -/
def Stop.step (rl : RateLimiter) (pc : StopPc) : Outcome (RateLimiter × StopPc) :=
  match pc with
  | .notCalled => .ok ({ rl with tickerStopped := true }, .afterTickerStop)
  | .afterTickerStop => .ok ({ rl with cancelled := true }, .afterCancel)
  | .afterCancel => if rl.wg = 0 then .ok (rl, .afterWait) else .blocked
  | .afterWait => rl.tokens.close.bind fun tokens => .ok ({ rl with tokens := tokens }, .returned)
  | .returned => .blocked

/-- A program around one limiter: the limiter, the refill goroutine started by
`NewRateLimiter`, whether a tick waits in the one-slot channel `ticker.C`, and
the goroutine calling `Stop()`. -/
structure Sys where
  rl : RateLimiter
  refill : RefillPc
  tickPending : Bool
  stopPc : StopPc
  panicked : Option Panic
  deriving DecidableEq, Repr

/-- The program right after `NewRateLimiter` has returned the limiter. -/
def boot (rl : RateLimiter) : Sys :=
  { rl := rl, refill := .looping, tickPending := false, stopPc := .notCalled, panicked := none }

/-- Scheduler actions: the timer of the ticker fires, the refill goroutine runs
one round, a caller runs `Allow()` or `TryAllow()`, the `Stop()` call runs its
next statement. -/
inductive Action where
  | timerFires
  | refill (poll : Poll)
  | allow (poll : Poll)
  | tryAllow
  | stop
  deriving DecidableEq, Repr

/-- One scheduler action, with the value a call of `Allow()` or `TryAllow()`
returned, if the action is one that returned.  A parked goroutine leaves the
state as it is; a panic ends the program.  A stopped ticker sends no tick; a
tick that finds `ticker.C` full is lost. -/
def step (s : Sys) (a : Action) : Sys × Option Bool :=
  if s.panicked.isSome then (s, none) else
  match a with
  | .timerFires =>
    if s.rl.tickerStopped then (s, none) else ({ s with tickPending := true }, none)
  | .refill poll =>
    match s.refill with
    | .exited => (s, none)
    | .looping =>
      match refillTokens.step s.rl s.tickPending poll with
      | .ok (rl1, .looping) => ({ s with rl := rl1, tickPending := false }, none)
      | .ok (rl1, .exited) => ({ s with rl := rl1, refill := .exited }, none)
      | .blocked => (s, none)
      | .panic p => ({ s with panicked := some p }, none)
  | .allow poll =>
    match Allow s.rl poll with
    | .ok (rl1, b) => ({ s with rl := rl1 }, some b)
    | .blocked => (s, none)
    | .panic p => ({ s with panicked := some p }, none)
  | .tryAllow =>
    match TryAllow s.rl with
    | .ok (rl1, b) => ({ s with rl := rl1 }, some b)
    | .blocked => (s, none)
    | .panic p => ({ s with panicked := some p }, none)
  | .stop =>
    match Stop.step s.rl s.stopPc with
    | .ok (rl1, pc1) => ({ s with rl := rl1, stopPc := pc1 }, none)
    | .blocked => (s, none)
    | .panic p => ({ s with panicked := some p }, none)

/-- A schedule run from a state: the state afterwards. -/
def exec (s : Sys) (trace : List Action) : Sys := trace.foldl (fun t a => (step t a).1) s

/-- The number of tokens in the bucket. -/
def RateLimiter.count (rl : RateLimiter) : Nat := rl.tokens.buf.length

end RateLim

namespace WebScrapper

open GoRt

/-- The struct `ScrapperResult`; `Duration` is in nanoseconds, `Error` is `nil`
when `none`. -/
structure ScrapperResult where
  URL : String
  StatusCode : Int
  BodyLength : Int
  Duration : Int
  Error : Option String
  deriving DecidableEq, Repr

/-- The struct `Scrapper`.  `cancelled` is whether `cancel` has been called,
`wg` the counter of the `sync.WaitGroup`, `timeout` the timeout of the HTTP
client, `rps` the rate and burst given to `rate.NewLimiter`. -/
structure Scrapper where
  numWorkers : Int
  urls : Chan String
  results : Chan ScrapperResult
  cancelled : Bool
  wg : Nat
  timeout : Int
  rps : Int
  deriving DecidableEq, Repr

/-- The constructor `NewScrapper(numWorkers, timeout, rps)`. -/
def NewScrapper (numWorkers timeout rps : Int) : Scrapper :=
  { numWorkers := numWorkers,
    urls := { buf := [], cap := 1000, closed := false },
    results := { buf := [], cap := 100, closed := false },
    cancelled := false, wg := 0, timeout := timeout, rps := rps }

/-- What the network answers to `sc.client.Get(url)` followed by
`io.ReadAll(resp.Body)`: the request fails, reading the body fails, or a status
code and a body of some length arrive. -/
inductive FetchOutcome where
  | getFailed (err : String)
  | readFailed (err : String)
  | fetched (statusCode bodyLength : Int)
  deriving DecidableEq, Repr

/-- What lies outside the program during one call of `ScrapeURL`: the value
`sc.limiter.Wait(sc.ctx)` returns (`none` is `nil`; the limiter of
`golang.org/x/time/rate` returns an error when the context is done), the answer
of the network, and `time.Since(start)` when the duration is recorded. -/
structure World where
  waitErr : Option String
  fetch : FetchOutcome
  elapsed : Int
  deriving DecidableEq, Repr

/-- The method `ScrapeURL(url)`: the result, and the GET requests sent.  The
statement `sc.limiter.Wait(sc.ctx)` drops the value it gets. -/
def ScrapeURL (w : World) (url : String) : ScrapperResult × List String :=
  let result : ScrapperResult :=
    { URL := url, StatusCode := 0, BodyLength := 0, Duration := 0, Error := none }
  let _ := w.waitErr
  match w.fetch with
  | .getFailed err => ({ result with Duration := w.elapsed, Error := some err }, [url])
  | .readFailed err => ({ result with Duration := w.elapsed, Error := some err }, [url])
  | .fetched statusCode bodyLength =>
    ({ result with StatusCode := statusCode, BodyLength := bodyLength, Duration := w.elapsed },
     [url])

/-- The shutting-down error of `Submit`. -/
def errShuttingDown : String := "Scrapper Shutting down"

/-- The method `Submit(url)`: a `select` between `sc.urls <- url` and
`<-sc.ctx.Done()`. -/
def Submit (sc : Scrapper) (url : String) (poll : Poll) : Outcome (Scrapper × Option String) :=
  match select2 sc.urls.sendReady sc.cancelled poll with
  | none => .blocked
  | some .comm => (sc.urls.send url).bind fun urls => .ok ({ sc with urls := urls }, none)
  | some .done => .ok (sc, some errShuttingDown)

/-- The statement `close(sc.urls)`. -/
def closeUrls (sc : Scrapper) : Outcome Scrapper :=
  sc.urls.close.bind fun urls => .ok { sc with urls := urls }

/-- The statement `sc.wg.Wait()`. -/
def wgWait (sc : Scrapper) : Outcome Scrapper :=
  if sc.wg = 0 then .ok sc else .blocked

/-- The statement `close(sc.results)`. -/
def closeResults (sc : Scrapper) : Outcome Scrapper :=
  sc.results.close.bind fun results => .ok { sc with results := results }

/-- The call `sc.cancel()`. -/
def cancel (sc : Scrapper) : Scrapper := { sc with cancelled := true }

/-- The call `sc.wg.Done()`. -/
def wgDone (sc : Scrapper) : Outcome Scrapper :=
  if sc.wg = 0 then .panic .negativeWaitGroupCounter else .ok { sc with wg := sc.wg - 1 }

/-- The method `Stop()` run by one goroutine from its first statement to its
last: close the URL channel, wait for the workers, close the results channel,
cancel the context. -/
def Stop (sc : Scrapper) : Outcome Scrapper :=
  (closeUrls sc).bind fun sc1 =>
  (wgWait sc1).bind fun sc2 =>
  (closeResults sc2).bind fun sc3 =>
  .ok (cancel sc3)

/-- Where a goroutine running `Stop()` stands: before the call and after each
of its four statements. -/
inductive StopPc where
  | notCalled
  | afterCloseUrls
  | afterWait
  | afterCloseResults
  | returned
  deriving DecidableEq, Repr

/-- One statement of `Stop()` from the given position. -/
def Stop.step (sc : Scrapper) (pc : StopPc) : Outcome (Scrapper × StopPc) :=
  match pc with
  | .notCalled => (closeUrls sc).bind fun sc1 => .ok (sc1, .afterCloseUrls)
  | .afterCloseUrls => (wgWait sc).bind fun sc1 => .ok (sc1, .afterWait)
  | .afterWait => (closeResults sc).bind fun sc1 => .ok (sc1, .afterCloseResults)
  | .afterCloseResults => .ok (cancel sc, .returned)
  | .returned => .blocked

/-- Where a goroutine running `Worker` stands: at the outer `select`, at the
inner `select` holding the result of `ScrapeURL`, or returned. -/
inductive WorkerPc where
  | waiting
  | publishing (r : ScrapperResult)
  | exited
  deriving DecidableEq, Repr

/-- One step of the loop of `Worker`, with the GET requests it sent.  At the
outer `select` the worker receives a URL and scrapes it, or returns on the
closed and drained URL channel, or returns on the done context; at the inner
`select` it sends the result and goes on, or returns on the done context. -/
def Worker.step (sc : Scrapper) (pc : WorkerPc) (poll : Poll) (w : World) :
    Outcome (Scrapper × WorkerPc × List String) :=
  match pc with
  | .waiting =>
    match select2 sc.urls.recvReady sc.cancelled poll with
    | none => .blocked
    | some .comm =>
      sc.urls.recv.bind fun got =>
        match got with
        | (some url, urls) =>
          .ok ({ sc with urls := urls }, .publishing (ScrapeURL w url).1, (ScrapeURL w url).2)
        | (none, _) => (wgDone sc).bind fun sc1 => .ok (sc1, .exited, [])
    | some .done => (wgDone sc).bind fun sc1 => .ok (sc1, .exited, [])
  | .publishing r =>
    match select2 sc.results.sendReady sc.cancelled poll with
    | none => .blocked
    | some .comm =>
      (sc.results.send r).bind fun results => .ok ({ sc with results := results }, .waiting, [])
    | some .done => (wgDone sc).bind fun sc1 => .ok (sc1, .exited, [])
  | .exited => .blocked

/-- The goroutines of a program using the scrapper. -/
inductive Thread where
  | submitter
  | worker (i : Nat)
  | stopper
  | consumer
  deriving DecidableEq, Repr

/-- A running program around one scrapper: the scrapper, the position of every
worker started by `Start`, the position of the goroutine calling `Stop`, the
GET requests sent so far, the results the range loop over `Results()` has
received and whether that loop has ended, and the goroutine whose panic ended
the program. -/
structure Sys where
  sc : Scrapper
  workers : List WorkerPc
  stopPc : StopPc
  requests : List String
  delivered : List ScrapperResult
  consumerDone : Bool
  panicked : Option (Thread × Panic)
  deriving DecidableEq, Repr

/-- A program that holds a freshly constructed scrapper. -/
def boot (sc : Scrapper) : Sys :=
  { sc := sc, workers := [], stopPc := .notCalled, requests := [], delivered := [],
    consumerDone := false, panicked := none }

/-- The loop of `Start()`: each round does `sc.wg.Add(1)` and `go
sc.Worker(i)`. -/
def Start.loop : Nat → Sys → Sys
  | 0, s => s
  | k + 1, s =>
    Start.loop k { s with sc := { s.sc with wg := s.sc.wg + 1 }, workers := s.workers ++ [.waiting] }

/-- The method `Start()`: `for i := range sc.numWorkers` runs its body
`numWorkers` times, and not at all when `numWorkers` is below 1. -/
def Start (s : Sys) : Sys := Start.loop s.sc.numWorkers.toNat s

/-- Scheduler actions: a call of `Submit`, a step of worker `i` in a given
world, the next statement of the one `Stop()` call, a round of the range loop
over `Results()`.  Both channels are buffered, so a send handed to a parked
receiver is the send followed by the receive. -/
inductive Action where
  | submit (url : String) (poll : Poll)
  | worker (i : Nat) (poll : Poll) (w : World)
  | stop
  | consume
  deriving DecidableEq, Repr

/-- One scheduler action.  A parked goroutine leaves the state as it is; a
panic ends the program. -/
def step (s : Sys) (a : Action) : Sys :=
  if s.panicked.isSome then s else
  match a with
  | .submit url poll =>
    match Submit s.sc url poll with
    | .ok (sc1, _) => { s with sc := sc1 }
    | .blocked => s
    | .panic p => { s with panicked := some (.submitter, p) }
  | .worker i poll w =>
    match s.workers[i]? with
    | none => s
    | some pc =>
      match Worker.step s.sc pc poll w with
      | .ok (sc1, pc1, sent) =>
        { s with sc := sc1, workers := s.workers.set i pc1, requests := s.requests ++ sent }
      | .blocked => s
      | .panic p => { s with panicked := some (.worker i, p) }
  | .stop =>
    match Stop.step s.sc s.stopPc with
    | .ok (sc1, pc1) => { s with sc := sc1, stopPc := pc1 }
    | .blocked => s
    | .panic p => { s with panicked := some (.stopper, p) }
  | .consume =>
    if s.consumerDone then s else
    match s.sc.results.recv with
    | .ok (some r, results) =>
      { s with sc := { s.sc with results := results }, delivered := s.delivered ++ [r] }
    | .ok (none, _) => { s with consumerDone := true }
    | .blocked => s
    | .panic p => { s with panicked := some (.consumer, p) }

/-- A schedule run from a state. -/
def exec (s : Sys) (trace : List Action) : Sys := trace.foldl step s

/-- The state of a program that started the scrapper with `Start()` and then
ran the schedule. -/
def run (sc : Scrapper) (trace : List Action) : Sys := exec (Start (boot sc)) trace

/-- Number of worker goroutines that have not returned. -/
def live (ws : List WorkerPc) : Nat := (ws.filter fun w => decide (w ≠ .exited)).length

end WebScrapper

namespace GoRt

/-- Result of a call that returns a value or an error, or panics. -/
inductive Res (α : Type) where
  | ok (a : α)
  | err (e : String)
  | panic (msg : String)
  deriving DecidableEq, Repr

/-- The bytes of a Go string. -/
def goBytes (s : String) : List UInt8 := s.toUTF8.data.toList

/-- The function `strings.Split(s, sep)` for a separator of one character: the
pieces between the occurrences of the separator, in order. -/
def splitChars (sep : Char) : List Char → List (List Char)
  | [] => [[]]
  | c :: rest =>
    if c = sep then [] :: splitChars sep rest
    else
      match splitChars sep rest with
      | [] => [[c]]
      | piece :: more => (c :: piece) :: more

/-- The call `strings.Split(s, " ")`. -/
def stringsSplitSpace (s : String) : List String :=
  (splitChars ' ' s.data).map String.mk

end GoRt

namespace Auth

open GoRt

/-- The function `GetJWTSecret`, given the value of the environment variable
`JWT_SECRET`. -/
def GetJWTSecret (envSecret : String) : Res String :=
  if envSecret = "" then .panic "JWT_SECRET environement variable not set" else .ok envSecret

/-- The struct `Claims`: `UserID`, `Email` and the registered claims the code
sets, `ExpiresAt` and `IssuedAt`, as Unix times in nanoseconds (`none` is
`nil`); the other registered claims stay unset. -/
structure Claims where
  UserID : Int
  Email : String
  ExpiresAt : Option Int
  IssuedAt : Option Int
  deriving DecidableEq, Repr

/-- The part of `github.com/golang-jwt/jwt/v5` the code calls, taken as given:
`signedString claims key` is `jwt.NewWithClaims(jwt.SigningMethodHS256,
claims).SignedString(key)`; `malformed token` is the error with which
`jwt.ParseWithClaims` rejects a token before it asks for the key, if it does;
`verify token key now` is what `jwt.ParseWithClaims` returns once it has the
key, at clock reading `now`: the claims and `token.Valid`, or an error. -/
structure JwtLib where
  signedString : Claims → String → Except String String
  malformed : String → Option String
  verify : String → String → Int → Except String (Claims × Bool)

/-- The constant `time.Hour` in nanoseconds. -/
def hour : Int := 3600000000000

/-- The call `jwt.NewNumericDate(t)`: the time truncated to the second. -/
def NewNumericDate (t : Int) : Int := t - t % 1000000000

/-- The function `GenerateToken(userID, email)`; `nowExp` and `nowIat` are the
two readings of `time.Now()`, in call order. -/
def GenerateToken (lib : JwtLib) (envSecret : String) (userID : Int) (email : String)
    (nowExp nowIat : Int) : Res String :=
  let claims : Claims :=
    { UserID := userID, Email := email,
      ExpiresAt := some (NewNumericDate (nowExp + 24 * hour)),
      IssuedAt := some (NewNumericDate nowIat) }
  match GetJWTSecret envSecret with
  | .ok key =>
    match lib.signedString claims key with
    | .ok token => .ok token
    | .error e => .err e
  | .err e => .err e
  | .panic msg => .panic msg

/-- The function `ValidateToken(tokenString)` called at clock reading `now`. -/
def ValidateToken (lib : JwtLib) (envSecret : String) (tokenString : String) (now : Int) :
    Res Claims :=
  match lib.malformed tokenString with
  | some e => .err e
  | none =>
    match GetJWTSecret envSecret with
    | .ok key =>
      match lib.verify tokenString key now with
      | .error e => .err e
      | .ok (claims, valid) => if valid then .ok claims else .err "invalid token"
    | .err e => .err e
    | .panic msg => .panic msg

end Auth

namespace Middleware

open GoRt

/-- A value stored in the request context with `c.Set`. -/
inductive CtxValue where
  | int (n : Int)
  | str (s : String)
  deriving DecidableEq, Repr

/-- What the handler returned by `AuthRequired()` does with a request: it
stores keys and calls `c.Next()`, or it writes a JSON error with a status and
calls `c.Abort()`, or it panics. -/
inductive Verdict where
  | next (keys : List (String × CtxValue))
  | aborted (status : Nat) (error : String)
  | panicked (msg : String)
  deriving DecidableEq, Repr

/-- The handler returned by `AuthRequired()`, for a request whose
`Authorization` header is `authHeader` (empty when the header is missing),
handled at clock reading `now`. -/
def AuthRequired (lib : Auth.JwtLib) (envSecret : String) (now : Int) (authHeader : String) :
    Verdict :=
  if authHeader = "" then .aborted 401 "Authorization header required"
  else
    match stringsSplitSpace authHeader with
    | [scheme, tokenString] =>
      if scheme ≠ "Bearer" then .aborted 401 "Invalid authorization header format"
      else
        match Auth.ValidateToken lib envSecret tokenString now with
        | .err _ => .aborted 401 "Invalid or expired token"
        | .panic msg => .panicked msg
        | .ok claims => .next [("userID", .int claims.UserID), ("email", .str claims.Email)]
    | _ => .aborted 401 "Invalid authorization header format"

end Middleware

namespace Models

open GoRt

/-- Modelled from the spec: the struct `models.User`, whose declaration is not
among the sources; its fields are the ones the handlers and their tests read
and write. -/
structure User where
  ID : Int
  Name : String
  Email : String
  Password : String
  Age : Int
  deriving DecidableEq, Repr

/-- The struct `RegisterRequest`. -/
structure RegisterRequest where
  Name : String
  Email : String
  Password : String
  Age : Int
  deriving DecidableEq, Repr

/-- The struct `PaginationParams`. -/
structure PaginationParams where
  Page : Int
  PageSize : Int
  deriving DecidableEq, Repr

/-- The struct `UserFilter`. -/
structure UserFilter where
  MinAge : Int
  MaxAge : Int
  Search : String
  SortBy : String
  Order : String
  deriving DecidableEq, Repr

/-- The method `GetOffset`. -/
def PaginationParams.GetOffset (p : PaginationParams) : Int :=
  wrap64 (wrap64 (p.Page - 1) * p.PageSize)

/-- The struct `PaginatedResponse`, with the data it carries in `GetAllUsers`,
a slice of users. -/
structure PaginatedResponse where
  Data : List User
  Page : Int
  PageSize : Int
  TotalItems : Int
  TotalPages : Int
  deriving DecidableEq, Repr

/-- The function `NewPaginatedResponse`; the division panics on a zero
`pageSize`. -/
def NewPaginatedResponse (data : List User) (page pageSize totalItems : Int) :
    Res PaginatedResponse :=
  if pageSize = 0 then .panic "runtime error: integer divide by zero"
  else
    let totalPages := wrap64 (Int.tdiv (wrap64 (wrap64 (totalItems + pageSize) - 1)) pageSize)
    .ok { Data := data, Page := page, PageSize := pageSize, TotalItems := totalItems,
          TotalPages := totalPages }

/-- A JSON value in a response body, as far as the handlers build one. -/
inductive Json where
  | num (n : Int)
  | str (s : String)
  | user (u : User)
  | users (us : List User)
  deriving DecidableEq, Repr

/-- The JSON object `encoding/json` writes for a `PaginatedResponse`, by its
struct tags. -/
def PaginatedResponse.json (p : PaginatedResponse) : List (String × Json) :=
  [("data", .users p.Data), ("page", .num p.Page), ("page_size", .num p.PageSize),
   ("total_items", .num p.TotalItems), ("total_pages", .num p.TotalPages)]

end Models

namespace Handlers

open GoRt Models

/-- What a handler does with a request: it answers with a status and a JSON
object, or it panics. -/
inductive Reply where
  | answered (status : Nat) (body : List (String × Json))
  | panicked (msg : String)
  deriving DecidableEq, Repr

/-- The struct `AuthHandler`: the map `users` from email to user, as the list
of its entries, and `nextID`.  The mutex makes `Register` atomic. -/
structure AuthHandler where
  users : List (String × User)
  nextID : Int
  deriving DecidableEq, Repr

/-- The constructor `NewAuthHandler()`. -/
def NewAuthHandler : AuthHandler := { users := [], nextID := 1 }

/-- The map assignment `m[k] = v`: the entry of `k` is replaced where it
stands, a new key gets a new entry. -/
def mapSet {κ ν : Type} [DecidableEq κ] (m : List (κ × ν)) (k : κ) (v : ν) : List (κ × ν) :=
  if (m.lookup k).isSome then m.map fun e => if e.1 = k then (k, v) else e
  else m ++ [(k, v)]

/-- The method `Register`.  `bound` is what `c.ShouldBindJSON(&req)` gives: the
request that passed the binding rules, or the error; `hashPassword` is
`auth.HashPassword`, whose source is not among the files; `nowExp` and `nowIat`
are the clock readings of `GenerateToken`. -/
def AuthHandler.Register (h : AuthHandler) (lib : Auth.JwtLib) (envSecret : String)
    (hashPassword : String → Except String String) (nowExp nowIat : Int)
    (bound : Except String RegisterRequest) : AuthHandler × Reply :=
  match bound with
  | .error e => (h, .answered 400 [("error", .str e)])
  | .ok req =>
    if (h.users.lookup req.Email).isSome then
      (h, .answered 409 [("error", .str "User already exists")])
    else
      match hashPassword req.Password with
      | .error _ => (h, .answered 500 [("error", .str "Failed to hash password")])
      | .ok hashedPassword =>
        let user : User :=
          { ID := h.nextID, Name := req.Name, Email := req.Email, Password := hashedPassword,
            Age := req.Age }
        let h1 : AuthHandler :=
          { users := mapSet h.users user.Email user, nextID := wrap64 (h.nextID + 1) }
        match Auth.GenerateToken lib envSecret user.ID user.Email nowExp nowIat with
        | .err e =>
          (h1, .answered 500 [("error", .str "Failed to generate token"), ("message", .str e)])
        | .panic msg => (h1, .panicked msg)
        | .ok token => (h1, .answered 201 [("token", .str token), ("user", .user user)])

/-- The struct `UserHandler`: the map `users` from ID to user, as the list of
its entries, and `nextID`. -/
structure UserHandler where
  users : List (Int × User)
  nextID : Int
  deriving DecidableEq, Repr

/-- The constructor `NewUserHandler()`. -/
def NewUserHandler : UserHandler := { users := [], nextID := 1 }

/-- The loop of `strContains`, at index `i` with `remaining` rounds to go. -/
def strContains.loop (s substr : List UInt8) (i : Nat) : Nat → Bool
  | 0 => false
  | remaining + 1 =>
    if (s.drop i).take substr.length = substr then true
    else strContains.loop s substr (i + 1) remaining

/-- The function `strContains(s, substr)`: the loop runs for `i` from 0 while
`i < len(s) - len(substr)`. -/
def strContains (s substr : List UInt8) : Bool :=
  strContains.loop s substr 0 (s.length - substr.length)

/-- The search helper `contains(str, substr)`. -/
def contains (str substr : List UInt8) : Bool :=
  decide (str.length ≥ substr.length) &&
    (decide (str = substr) || decide (substr.length = 0) || strContains str substr)

/-- The comparison `sortUsers` hands to `sort.Slice`. -/
def sortLess (sortBy order : String) (a b : User) : Bool :=
  let less : Bool :=
    if sortBy = "name" then decide (a.Name < b.Name)
    else if sortBy = "email" then decide (a.Email < b.Email)
    else if sortBy = "age" then decide (a.Age < b.Age)
    else false
  if order = "desc" then !less else less

/-- Whether the loop of `GetAllUsers` keeps a user under the filter. -/
def keepUser (filter : UserFilter) (user : User) : Bool :=
  if filter.Search ≠ "" ∧ !contains (goBytes user.Name) (goBytes filter.Search)
      ∧ !contains (goBytes user.Email) (goBytes filter.Search) then false
  else if filter.MinAge > 0 ∧ user.Age < filter.MinAge then false
  else if filter.MaxAge > 0 ∧ user.Age > filter.MaxAge then false
  else true

/-- The slice expression `s[lo:hi]` for `hi` within the length; bounds out of
range panic. -/
def sliceOf {α : Type} (s : List α) (lo hi : Int) : Res (List α) :=
  if 0 ≤ lo ∧ lo ≤ hi ∧ hi ≤ s.length then .ok ((s.take hi.toNat).drop lo.toNat)
  else .panic "runtime error: slice bounds out of range"

/-- The method `GetAllUsers`.  `boundPagination` and `boundFilter` are what the
two calls of `c.ShouldBindQuery` give (a request without query parameters binds
to the zero values); `visit` puts the entries of the map in the order in which
the `range` loop visits them, which the language leaves open; `sortSlice` is
`sort.Slice` with its comparison. -/
def UserHandler.GetAllUsers (h : UserHandler)
    (visit : List (Int × User) → List (Int × User))
    (sortSlice : (User → User → Bool) → List User → List User)
    (boundPagination : Except String PaginationParams)
    (boundFilter : Except String UserFilter) : Reply :=
  match boundPagination with
  | .error e =>
    .answered 400 [("error", .str "Invalid pagination parameters"), ("details", .str e)]
  | .ok bound =>
    let page := if bound.Page = 0 then 1 else bound.Page
    let pageSize := if bound.PageSize = 0 then 10 else bound.PageSize
    let pagination : PaginationParams := { Page := page, PageSize := pageSize }
    match boundFilter with
    | .error e => .answered 400 [("error", .str e)]
    | .ok filter =>
      let kept := ((visit h.users).map Prod.snd).filter (keepUser filter)
      let usersList := if filter.SortBy ≠ "" then
          sortSlice (sortLess filter.SortBy filter.Order) kept else kept
      let totalItems : Int := usersList.length
      let offset := pagination.GetOffset
      let stop := wrap64 (offset + pagination.PageSize)
      let offset := if offset > totalItems then totalItems else offset
      let stop := if stop > totalItems then totalItems else stop
      match sliceOf usersList offset stop with
      | .panic msg => .panicked msg
      | .err e => .panicked e
      | .ok paginatedUsers =>
        match NewPaginatedResponse paginatedUsers pagination.Page pagination.PageSize
            totalItems with
        | .panic msg => .panicked msg
        | .err e => .panicked e
        | .ok paginatedResponse => .answered 200 paginatedResponse.json

end Handlers

namespace Tasks

open GoRt

/-- The struct `Task`. -/
structure Task where
  ID : Int
  Title : String
  Completed : Bool
  deriving DecidableEq, Repr

/-- What `tasks.json` is to the program: missing, unreadable with an error of
`os.ReadFile`, or readable, in which case `json.Unmarshal` gives a task list
and possibly an error. -/
inductive FileState where
  | missing
  | unreadable (err : String)
  | holds (tasks : List Task) (decodeErr : Option String)
  deriving DecidableEq, Repr

/-- The disk: the file `tasks.json`, and what the next `os.WriteFile` does when
it fails: the error it returns and the state it leaves the file in (`none`
when the write succeeds). -/
structure Disk where
  file : FileState
  writeFault : Option (String × FileState)
  deriving DecidableEq, Repr

/-- The function `LoadTasks`: the tasks and the error (`none` is `nil`). -/
def LoadTasks (d : Disk) : List Task × Option String :=
  match d.file with
  | .missing => ([], none)
  | .unreadable err => ([], some err)
  | .holds tasks decodeErr => (tasks, decodeErr)

/-- The function `SaveTasks`; marshalling a task list does not fail. -/
def SaveTasks (d : Disk) (tasks : List Task) : Disk × Option String :=
  match d.writeFault with
  | none => ({ d with file := .holds tasks none }, none)
  | some (err, left) => ({ d with file := left }, some err)

/-- The loop of `CompletedTask`: the list with the first task of the given ID
marked completed, or `none` when the loop ends without a match. -/
def CompletedTask.mark (id : Int) : List Task → Option (List Task)
  | [] => none
  | t :: rest =>
    if t.ID = id then some ({ t with Completed := true } :: rest)
    else (CompletedTask.mark id rest).map fun done => t :: done

/-- The function `CompletedTask(id)`. -/
def CompletedTask (d : Disk) (id : Int) : Disk × Option String :=
  match LoadTasks d with
  | (_, some err) => (d, some err)
  | (tasks, none) =>
    match CompletedTask.mark id tasks with
    | some marked => SaveTasks d marked
    | none => (d, some ("task with ID " ++ toString id ++ " not found"))

end Tasks

namespace Handlers

open GoRt Models

/-- The map deletion `delete(m, k)`. -/
def mapDelete {κ ν : Type} [DecidableEq κ] (m : List (κ × ν)) (k : κ) : List (κ × ν) :=
  m.filter fun e => decide (e.1 ≠ k)

/-- What `CreateUser`, `UpdateUser` and `DeleteUser` answer: `c.JSON(status,
user)` with a user, or `c.JSON(status, gin.H{...})` with an object. -/
inductive UserReply where
  | user (status : Nat) (u : User)
  | object (status : Nat) (fields : List (String × Json))
  deriving DecidableEq, Repr

/-- The method `CreateUser`.  `bound` is what `c.ShouldBindJSON(&user)` gives:
the user of the body, or the error. -/
def UserHandler.CreateUser (h : UserHandler) (bound : Except String User) :
    UserHandler × UserReply :=
  match bound with
  | .error e => (h, .object 400 [("error", .str e)])
  | .ok body =>
    let user : User := { body with ID := h.nextID }
    ({ users := mapSet h.users user.ID user, nextID := wrap64 (h.nextID + 1) }, .user 201 user)

/-- The method `UpdateUser`.  `id` is what `strconv.Atoi(c.Param("id"))` gives,
`none` for its error; `bound` is what `c.ShouldBindJSON(&user)` gives. -/
def UserHandler.UpdateUser (h : UserHandler) (id : Option Int) (bound : Except String User) :
    UserHandler × UserReply :=
  match id with
  | none => (h, .object 400 [("error", .str "Invalid id format")])
  | some id =>
    if (h.users.lookup id).isNone then (h, .object 404 [("error", .str "User not found")])
    else
      match bound with
      | .error e => (h, .object 400 [("error", .str e)])
      | .ok body =>
        let user : User := { body with ID := id }
        ({ h with users := mapSet h.users id user }, .user 200 user)

/-- The method `DeleteUser`.  `id` is what `strconv.Atoi(c.Param("id"))` gives,
`none` for its error. -/
def UserHandler.DeleteUser (h : UserHandler) (id : Option Int) : UserHandler × UserReply :=
  match id with
  | none => (h, .object 400 [("error", .str "Invalid user ID")])
  | some id =>
    if (h.users.lookup id).isNone then (h, .object 404 [("error", .str "User Not Found")])
    else
      ({ h with users := mapDelete h.users id },
       .object 200 [("message", .str "User deleted successfully")])

end Handlers

namespace Middleware

open GoRt

/-- The struct `visitor`; `lastSeen` is a reading of the monotonic clock in
nanoseconds. -/
structure visitor where
  lastSeen : Int
  count : Int
  deriving DecidableEq, Repr

/-- The struct `RateLimiter` of the middleware: the map `visitors` from IP to
visitor, as the list of its entries, `limit`, and `window` in nanoseconds.  The
mutex makes the handler and every sweep of the cleanup atomic. -/
structure RateLimiter where
  visitors : List (String × visitor)
  limit : Int
  window : Int
  deriving DecidableEq, Repr

/-- The constructor `NewRateLimiter(limit, window)`; the goroutine it starts is
`cleanupVisitors`, whose sweeps are `RateLimiter.sweep`. -/
def NewRateLimiter (limit window : Int) : RateLimiter :=
  { visitors := [], limit := limit, window := window }

/-- One sweep of `cleanupVisitors`, between `rl.mu.Lock()` and
`rl.mu.Unlock()`; `reading ip` is the clock reading of `time.Since` for the
visitor of `ip`. -/
def RateLimiter.sweep (rl : RateLimiter) (reading : String → Int) : RateLimiter :=
  { rl with visitors := rl.visitors.filter fun e =>
      !decide (timeSub (reading e.1) e.2.lastSeen > rl.window) }

/-- The handler returned by `Middleware()`, for a request whose `c.ClientIP()`
is `ip`; `t1` and `t2` are the first and the second reading of the clock in
the handler (`time.Now()` in case 1; `time.Since` and then `time.Now()` in the
other cases). -/
def RateLimiter.Middleware (rl : RateLimiter) (ip : String) (t1 t2 : Int) :
    RateLimiter × Verdict :=
  match rl.visitors.lookup ip with
  | none =>
    ({ rl with visitors := Handlers.mapSet rl.visitors ip { lastSeen := t1, count := 1 } },
     .next [])
  | some v =>
    if timeSub t1 v.lastSeen > rl.window then
      ({ rl with visitors := Handlers.mapSet rl.visitors ip { lastSeen := t2, count := 1 } },
       .next [])
    else if v.count ≥ rl.limit then (rl, .aborted 429 "Rate Limit exceeded")
    else
      ({ rl with visitors :=
          Handlers.mapSet rl.visitors ip { lastSeen := t2, count := wrap64 (v.count + 1) } },
       .next [])

end Middleware

namespace Tasks

open GoRt

/-- The function `AddTask(title)`. -/
def AddTask (d : Disk) (title : String) : Disk × Option String :=
  match LoadTasks d with
  | (_, some err) => (d, some err)
  | (tasks, none) =>
    let newID : Int :=
      match tasks.getLast? with
      | some last => wrap64 (last.ID + 1)
      | none => 1
    SaveTasks d (tasks ++ [{ ID := newID, Title := title, Completed := false }])

/-- The loop of `DeleteTask`: the list without the first task of the given ID,
or `none` when the loop ends without a match. -/
def DeleteTask.remove (id : Int) : List Task → Option (List Task)
  | [] => none
  | t :: rest =>
    if t.ID = id then some rest
    else (DeleteTask.remove id rest).map fun kept => t :: kept

/-- The function `DeleteTask(id)`. -/
def DeleteTask (d : Disk) (id : Int) : Disk × Option String :=
  match LoadTasks d with
  | (_, some err) => (d, some err)
  | (tasks, none) =>
    match DeleteTask.remove id tasks with
    | some kept => SaveTasks d kept
    | none => (d, some ("task with ID " ++ toString id ++ " not found"))

end Tasks

namespace Trees

open GoRt

/-- An element of the slice `[]interface{}`: `nil`, an `int`, or a value of
another type. -/
inductive Value where
  | nil
  | int (n : Int)
  | other
  deriving DecidableEq, Repr

/-- The struct `TreeNode`; a pointer `*TreeNode` is the address of the node in
the heap, `none` for `nil`. -/
structure TreeNode where
  Val : Int
  Left : Option Nat
  Right : Option Nat
  deriving DecidableEq, Repr

/-- The nodes allocated so far; the address of a node is its index. -/
abbrev Heap := List TreeNode

/-- The statements for one child in the loop of `BuildTree`: when
`i < len(values)` and `values[i] != nil`, a node is allocated for `values[i]`,
stored in the left or right field of `node` and appended to the queue.  The
type assertion panics on a value that is not an `int`. -/
def BuildTree.child (values : List Value) (i : Nat) (heap : Heap) (queue : List Nat)
    (node : Nat) (left : Bool) : Res (Heap × List Nat) :=
  match values.get? i with
  | none => .ok (heap, queue)
  | some .nil => .ok (heap, queue)
  | some .other => .panic "interface conversion: interface {} is not int"
  | some (.int n) =>
    let addr := heap.length
    let heap1 := heap ++ [{ Val := n, Left := none, Right := none }]
    let heap2 := heap1.modify
      (fun nd => if left then { nd with Left := some addr } else { nd with Right := some addr })
      node
    .ok (heap2, queue ++ [addr])

/-- The loop of `BuildTree` with a bound on the number of rounds: `none` when
the bound is reached before the loop ends. -/
def BuildTree.loop (values : List Value) : Nat → Heap → List Nat → Nat → Option (Res Heap)
  | _, heap, [], _ => some (.ok heap)
  | fuel, heap, node :: queue, i =>
    if ¬ i < values.length then some (.ok heap)
    else
      match fuel with
      | 0 => none
      | fuel + 1 =>
        match BuildTree.child values i heap queue node true with
        | .panic msg => some (.panic msg)
        | .err e => some (.err e)
        | .ok (heap1, queue1) =>
          match BuildTree.child values (i + 1) heap1 queue1 node false with
          | .panic msg => some (.panic msg)
          | .err e => some (.err e)
          | .ok (heap2, queue2) => BuildTree.loop values fuel heap2 queue2 (i + 1 + 1)

/-- The function `BuildTree(values)`: the heap and the pointer to the root.
The loop is given `len(values)` rounds. -/
def BuildTree (values : List Value) : Option (Res (Heap × Option Nat)) :=
  match values with
  | [] => some (.ok ([], none))
  | .nil :: _ => some (.ok ([], none))
  | .other :: _ => some (.panic "interface conversion: interface {} is not int")
  | .int n :: _ =>
    match BuildTree.loop values values.length [{ Val := n, Left := none, Right := none }] [0] 1
      with
    | none => none
    | some (.panic msg) => some (.panic msg)
    | some (.err e) => some (.err e)
    | some (.ok heap) => some (.ok (heap, some 0))

end Trees

/-! ## Specification vocabulary for the worker pool -/

namespace ProdPool

open GoRt

/-- The result a worker holds at its position: one when it stands at the inner
`select`, none otherwise. -/
def WorkerPc.held : WorkerPc → List Result
  | .publishing r => [r]
  | _ => []

/-- Whether a worker at the position still counts in the wait group. -/
def WorkerPc.alive : WorkerPc → Nat
  | .exited => 0
  | _ => 1

/-- The flags of the pool that go with each position of the `Stop()` call. -/
def StopFlags : StopPc → WorkerPool → Prop
  | .notCalled, wp => wp.cancelled = false ∧ wp.jobs.closed = false ∧ wp.results.closed = false
  | .afterCancel, wp => wp.cancelled = true ∧ wp.jobs.closed = false ∧ wp.results.closed = false
  | .afterCloseJobs, wp => wp.cancelled = true ∧ wp.jobs.closed = true ∧ wp.results.closed = false
  | .afterWait, wp =>
    wp.cancelled = true ∧ wp.jobs.closed = true ∧ wp.results.closed = false ∧ wp.wg = 0
  | .returned, wp =>
    wp.cancelled = true ∧ wp.jobs.closed = true ∧ wp.results.closed = true ∧ wp.wg = 0

/-- The invariant of a started pool with one `Stop()` call: the wait group
counts the workers that have not returned, the flags follow the position of
`Stop()`, only `Submit` can have panicked, every accepted job is accounted for
exactly once, nothing is dropped before cancellation, and the range loop ends
only on the closed and drained results channel. -/
structure Inv (s : Sys) : Prop where
  wg_live : s.wp.wg = live s.workers
  flags : StopFlags s.stopPc s.wp
  panics : s.panicked = none ∨ s.panicked = some (.submitter, .sendOnClosedChannel)
  conserve : ((s.accepted.map ProcessJob : List Result) : Multiset Result) =
    ((s.wp.jobs.buf.map ProcessJob : List Result) : Multiset Result)
      + (inflight s.workers : Multiset Result)
      + (s.wp.results.buf : Multiset Result) + (s.delivered : Multiset Result)
      + (s.discarded : Multiset Result)
  no_drop : s.wp.cancelled = false → s.discarded = []
  drained : s.consumerDone = true → s.wp.results.closed = true ∧ s.wp.results.buf = []

/-- The state of a program that started the pool with `Start()` and then ran
the schedule. -/
def run (wp : WorkerPool) (trace : List Action) : Sys := exec (Start (boot wp)) trace

/-- The first job of `main`. -/
def job1 : Job := { ID := 1, Data := "Task-1" }

/-- The second job of `main`. -/
def job2 : Job := { ID := 2, Data := "Task-2" }

/-- The pool of `main`: `NewWorkerPool(3, 10)`. -/
def pool3x10 : WorkerPool :=
  { cancelled := false, wg := 0, numWorkers := 3,
    jobs := { buf := [], cap := 10, closed := false },
    results := { buf := [], cap := 10, closed := false } }

/-- A schedule in which `Stop()` runs to its end on an idle pool of three
workers. -/
def shutdown3 : List Action :=
  [.stop, .worker 0 .doneFirst, .worker 1 .commFirst, .stop, .worker 2 .commFirst, .stop, .stop]

/-- The pool `NewWorkerPool(1, 1)`. -/
def pool1x1 : WorkerPool :=
  { cancelled := false, wg := 0, numWorkers := 1,
    jobs := { buf := [], cap := 1, closed := false },
    results := { buf := [], cap := 1, closed := false } }

/-- A schedule in which one job is accepted, `Stop()` fires the cancellation
while the job waits in the queue, the worker takes the cancellation clause,
`Stop()` runs to its end and the range loop sees the closed channel. -/
def lostJob : List Action :=
  [.submit job1 .commFirst, .stop, .worker 0 .doneFirst, .stop, .stop, .stop, .consume]

/-- A schedule in which one job is accepted, processed, published and received
before `Stop()` runs to its end. -/
def servedJob : List Action :=
  [.submit job1 .commFirst, .worker 0 .commFirst, .worker 0 .commFirst, .consume,
   .stop, .worker 0 .doneFirst, .stop, .stop, .stop, .consume]

/-- The state of a program that ran the schedule `before` on the pool, then
called `Start()`, then ran the schedule `after`. -/
def runAfter (wp : WorkerPool) (before after : List Action) : Sys :=
  exec (Start (exec (boot wp) before)) after

/-- What the next statement of `Stop()` does to a program according to C3, by
the position of the call: fire the cancellation, then close the jobs channel,
then wait until no worker is left (the call stays parked while one is), then
close the results channel; nothing after that. -/
def stopEffect (s : Sys) : Sys :=
  match s.stopPc with
  | .notCalled => { s with wp := { s.wp with cancelled := true }, stopPc := .afterCancel }
  | .afterCancel =>
    { s with wp := { s.wp with jobs := { s.wp.jobs with closed := true } },
             stopPc := .afterCloseJobs }
  | .afterCloseJobs => if live s.workers = 0 then { s with stopPc := .afterWait } else s
  | .afterWait =>
    { s with wp := { s.wp with results := { s.wp.results with closed := true } },
             stopPc := .returned }
  | .returned => s

/-- A schedule without workers: one job is queued and `Stop()` runs to its
end. -/
def queuedThenStopped : List Action :=
  [.submit job1 .commFirst, .stop, .stop, .stop, .stop]

/-- A schedule of three workers: the queued job is taken, published and
received, then `Stop()` runs to its end while the workers return. -/
def serveThenShutdown : List Action :=
  [.worker 0 .commFirst, .worker 0 .commFirst, .consume, .stop, .worker 0 .doneFirst,
   .worker 1 .commFirst, .stop, .worker 2 .commFirst, .stop, .stop]

end ProdPool

/-! ## Specification vocabulary for the rate limiters -/

namespace RateLim

open GoRt

/-- The number `k` of C8: the floor of the time since the last refill over the
refill period (for a positive period, `/` on the integers is the floor). -/
def specTokensToAdd (tb : TockenBucket) (now : Int) : Int :=
  (now - tb.lastRefill) / tb.rate

/-- The number `r` of C8: the token count after the refill, computed on the
integers. -/
def specRefilled (tb : TockenBucket) (now : Int) : Int :=
  if specTokensToAdd tb now > 0 then min tb.capacity (tb.tokens + specTokensToAdd tb now)
  else tb.tokens

/-- The bucket of `example4`, `NewTockenBucket(10, 100*time.Millisecond)`,
created when the clock reads 0. -/
def bucket4 : TockenBucket := NewTockenBucket 10 (100 * millisecond) 0

/-- A bucket of the largest capacity with a refill period of one nanosecond,
created when the clock reads 0. -/
def bucketMax : TockenBucket := NewTockenBucket maxInt64 1 0

end RateLim

namespace RateLim

open GoRt

/-- The limiter of `example3`, `NewRateLimiter(3)`. -/
def limiter3 : RateLimiter :=
  { rate := 3, interval := 333333333, tickerStopped := false,
    tokens := { buf := [(), (), ()], cap := 3, closed := false }, cancelled := false, wg := 1 }

/-- A schedule in which three calls of `TryAllow()` empty the bucket and then
`Stop()` runs to its end, the refill goroutine returning on the cancelled
context. -/
def drainThenStop : List Action :=
  [.tryAllow, .tryAllow, .tryAllow, .stop, .stop, .refill .doneFirst, .stop, .stop]

end RateLim

namespace WebScrapper

open GoRt

/-- Whether a worker at the position still counts in the wait group. -/
def WorkerPc.alive : WorkerPc → Nat
  | .exited => 0
  | _ => 1

/-- The flags of the scrapper that go with each position of the `Stop()`
call. -/
def StopFlags : StopPc → Scrapper → Prop
  | .notCalled, sc => sc.urls.closed = false ∧ sc.results.closed = false ∧ sc.cancelled = false
  | .afterCloseUrls, sc =>
    sc.urls.closed = true ∧ sc.results.closed = false ∧ sc.cancelled = false
  | .afterWait, sc =>
    sc.urls.closed = true ∧ sc.results.closed = false ∧ sc.cancelled = false ∧ sc.wg = 0
  | .afterCloseResults, sc =>
    sc.urls.closed = true ∧ sc.results.closed = true ∧ sc.cancelled = false ∧ sc.wg = 0
  | .returned, sc =>
    sc.urls.closed = true ∧ sc.results.closed = true ∧ sc.cancelled = true ∧ sc.wg = 0

/-- The invariant of a started scrapper with one `Stop()` call: the wait group
counts the workers that have not returned, the flags follow the position of
`Stop()`, and only `Submit` can have panicked. -/
structure Inv (s : Sys) : Prop where
  wg_live : s.sc.wg = live s.workers
  flags : StopFlags s.stopPc s.sc
  panics : s.panicked = none ∨ s.panicked = some (.submitter, .sendOnClosedChannel)

/-- The scrapper `NewScrapper(1, 60*time.Second, 1)`. -/
def scrapper1 : Scrapper := NewScrapper 1 60000000000 1

/-- The scrapper of `main`, `NewScrapper(50, 60*time.Second, 50)`. -/
def scrapper50 : Scrapper := NewScrapper 50 60000000000 50

/-- The first URL of `main`. -/
def url0 : String := "https://httpbin.org/delay/0"

/-- A world in which the limiter reports the cancelled context and the network
answers 200 with a body of five bytes after one millisecond. -/
def cancelledWait : World :=
  { waitErr := some "context canceled", fetch := .fetched 200 5, elapsed := 1000000 }

/-- A world in which the limiter grants a token and the network answers 200
with a body of five bytes after one millisecond. -/
def granted : World := { waitErr := none, fetch := .fetched 200 5, elapsed := 1000000 }

/-- A schedule of one worker: a URL is submitted, scraped, published and
received, then `Stop()` runs to its end. -/
def scrapeThenStop : List Action :=
  [.submit url0 .commFirst, .worker 0 .commFirst granted, .worker 0 .commFirst granted,
   .consume, .stop, .worker 0 .commFirst granted, .stop, .stop, .stop, .consume]

/-- A program in which `Stop()` ran to its end on `NewScrapper(1, 60s, 1)` with
one URL queued and no worker started, and `Start()` was called afterwards. -/
def stoppedThenStarted : Sys :=
  Start (exec (boot scrapper1) [.submit url0 .commFirst, .stop, .stop, .stop, .stop])

end WebScrapper

namespace Auth

open GoRt

/-- The claims that `jwt/v5` writes into a token without loss: `UserID` is a
64-bit `int`, and the two dates are whole seconds, the precision at which the
library writes `exp` and `iat` (what `jwt.NewNumericDate` returns). -/
def Claims.lossless (c : Claims) : Prop :=
  isInt64 c.UserID ∧
  (∀ e, c.ExpiresAt = some e → e % 1000000000 = 0) ∧
  (∀ i, c.IssuedAt = some i → i % 1000000000 = 0)

/-- The contract of `github.com/golang-jwt/jwt/v5` the round trip relies on:
signing with a non-empty HMAC key succeeds; and a token signed with a key from
claims whose dates are whole seconds is well formed and is parsed, with the same
key and at a clock reading before the expiry of the claims, as a valid token
with those claims.  Nothing is asked for claims with dates of a finer
precision, which the library truncates, for another key, or for a clock
reading at or after the expiry. -/
def JwtLib.Lawful (lib : JwtLib) : Prop :=
  (∀ c key, key ≠ "" → ∃ t, lib.signedString c key = .ok t) ∧
  (∀ c key t, c.lossless → lib.signedString c key = .ok t →
    lib.malformed t = none ∧
    ∀ now, (∀ e, c.ExpiresAt = some e → now < e) → lib.verify t key now = .ok (c, true))

/-- The data a token of the sample library carries, as a number; as `jwt/v5`
does, the library writes the dates in seconds and drops the rest. -/
def sampleCode (c : Claims) (key : String) : Nat :=
  Encodable.encode
    (c.UserID, c.Email.data.map Char.toNat, c.ExpiresAt.map (· / 1000000000),
      c.IssuedAt.map (· / 1000000000), key.data.map Char.toNat)

/-- The claims and key a number stands for in the sample library. -/
def sampleDecode (n : Nat) : Option (Claims × String) :=
  (Encodable.decode n : Option (Int × List Nat × Option Int × Option Int × List Nat)).map
    fun d =>
      ({ UserID := d.1, Email := String.mk (d.2.1.map Char.ofNat),
         ExpiresAt := d.2.2.1.map (· * 1000000000),
         IssuedAt := d.2.2.2.1.map (· * 1000000000) },
       String.mk (d.2.2.2.2.map Char.ofNat))

/-- A sample library that keeps the contract: a token is a run of `x` whose
length encodes the claims, with the dates in seconds, and the key; it is
accepted with the key it was signed with, before its expiry. -/
def sampleLib : JwtLib where
  signedString c key := .ok (String.mk (List.replicate (sampleCode c key) 'x'))
  malformed t := if (sampleDecode t.length).isSome then none else some "token is malformed"
  verify t key now :=
    match sampleDecode t.length with
    | none => .error "token is malformed"
    | some (c, signedWith) =>
      if signedWith ≠ key then .error "signature is invalid"
      else
        match c.ExpiresAt with
        | some e => if now < e then .ok (c, true) else .error "token is expired"
        | none => .ok (c, true)

/-- Claims with an expiry that is not a whole second. -/
def halfSecondClaims : Claims :=
  { UserID := 1, Email := "a@b.c", ExpiresAt := some 1500000000, IssuedAt := none }

/-- A library that knows one token, `header.payload.signature`, signed for the
user 1 with the email `test@example.com`; every other string is malformed. -/
def oneTokenLib : JwtLib where
  signedString _ _ := .ok "header.payload.signature"
  malformed t := if t = "header.payload.signature" then none else some "token is malformed"
  verify t _ _ :=
    if t = "header.payload.signature" then
      .ok ({ UserID := 1, Email := "test@example.com", ExpiresAt := none, IssuedAt := none }, true)
    else .error "token is malformed"

end Auth

/-! ## Vocabulary for the claims on the handlers and the task list -/

namespace Handlers

open GoRt Models

/-- A hashing function that succeeds on every password. -/
def sampleHash (password : String) : Except String String := .ok ("hashed:" ++ password)

/-- The request of the test case `successful registration`. -/
def aliceRequest : RegisterRequest :=
  { Name := "Alice", Email := "alice@example.com", Password := "password123", Age := 25 }

/-- The request of the test case `duplicate email`. -/
def bobRequest : RegisterRequest :=
  { Name := "Bob", Email := "alice@example.com", Password := "password123", Age := 30 }

/-- The user `Register` builds from `aliceRequest` on a new handler with
`sampleHash`. -/
def aliceUser : User :=
  { ID := 1, Name := "Alice", Email := "alice@example.com", Password := "hashed:password123",
    Age := 25 }

/-- The handler of `TestUserHandler_GetAllUser` after its three calls of
`CreateUser`: Alice, Bob and Charlie under the IDs 1, 2 and 3. -/
def threeUsers : UserHandler :=
  { users :=
      [(1, { ID := 1, Name := "Alice", Email := "alice@example.com", Password := "", Age := 25 }),
       (2, { ID := 2, Name := "Bob", Email := "bob@example.com", Password := "", Age := 30 }),
       (3, { ID := 3, Name := "Charlie", Email := "charlie@example.com", Password := "",
             Age := 35 })],
    nextID := 4 }

/-- What `ShouldBindQuery` gives for a request without query parameters: the
zero value of `PaginationParams`. -/
def noPagination : PaginationParams := { Page := 0, PageSize := 0 }

/-- What `ShouldBindQuery` gives for a request without query parameters: the
zero value of `UserFilter`. -/
def noFilter : UserFilter := { MinAge := 0, MaxAge := 0, Search := "", SortBy := "", Order := "" }

end Handlers

namespace Tasks

/-- A task list in which the ID 2 occurs twice. -/
def sampleTasks : List Task :=
  [{ ID := 1, Title := "a", Completed := false }, { ID := 2, Title := "b", Completed := false },
   { ID := 2, Title := "c", Completed := false }]

/-- A disk whose file holds `sampleTasks` and whose writes succeed. -/
def sampleDisk : Disk := { file := .holds sampleTasks none, writeFault := none }

end Tasks

namespace Auth

/-- A library whose signing fails; it knows no token. -/
def noSignLib : JwtLib where
  signedString _ _ := .error "key is of invalid type"
  malformed _ := some "token is malformed"
  verify _ _ _ := .error "token is malformed"

end Auth

namespace Handlers

open GoRt Models

/-- The page 2^63 - 1 with 100 users to the page, as bound from the query
`page=9223372036854775807&page_size=100`. -/
def hugePage : PaginationParams := { Page := 9223372036854775807, PageSize := 100 }

/-- The filter bound from the query `search=com`. -/
def searchCom : UserFilter := { MinAge := 0, MaxAge := 0, Search := "com", SortBy := "", Order := "" }

/-- The user Alice of the tests. -/
def alice : User :=
  { ID := 1, Name := "Alice", Email := "alice@example.com", Password := "", Age := 25 }

end Handlers

namespace Middleware

open GoRt

/-- What happens to the rate limiter: a request passes the handler, or the
cleanup goroutine makes a sweep. -/
inductive LimAction where
  | request (ip : String) (t1 t2 : Int)
  | sweep (reading : String → Int)

/-- The rate limiter after an action. -/
def RateLimiter.step (rl : RateLimiter) : LimAction → RateLimiter
  | .request ip t1 t2 => (rl.Middleware ip t1 t2).1
  | .sweep reading => rl.sweep reading

/-- The rate limiter after a sequence of actions. -/
def RateLimiter.run (rl : RateLimiter) : List LimAction → RateLimiter
  | [] => rl
  | a :: rest => RateLimiter.run (rl.step a) rest

/-- What the requests of one IP in a sequence of actions are answered, in
order. -/
def RateLimiter.verdicts (rl : RateLimiter) (ip : String) : List LimAction → List Verdict
  | [] => []
  | .request ip1 t1 t2 :: rest =>
    if ip1 = ip then
      (rl.Middleware ip1 t1 t2).2 :: RateLimiter.verdicts (rl.Middleware ip1 t1 t2).1 ip rest
    else RateLimiter.verdicts (rl.Middleware ip1 t1 t2).1 ip rest
  | .sweep reading :: rest => RateLimiter.verdicts (rl.sweep reading) ip rest

/-- The number of requests of one IP in a sequence of actions. -/
def requestsOf (ip : String) : List LimAction → Nat
  | [] => 0
  | .request ip1 _ _ :: rest => if ip1 = ip then requestsOf ip rest + 1 else requestsOf ip rest
  | .sweep _ :: rest => requestsOf ip rest

/-- Whether the clock reading `t` is no later than `window` after the time the
handler recorded at the previous allowed request of the IP, if there was
one. -/
def withinWindow (rl : RateLimiter) (ip : String) (t : Int) : Prop :=
  match rl.visitors.lookup ip with
  | some v => t - v.lastSeen ≤ rl.window
  | none => True

instance (rl : RateLimiter) (ip : String) (t : Int) : Decidable (withinWindow rl ip t) := by
  unfold withinWindow
  cases rl.visitors.lookup ip <;> infer_instance

/-- The sequences of actions of C25 for one IP, from the clock reading `prev`
on: the clock readings do not decrease, and every request of the IP, and every
sweep that a request of the IP follows, reads the clock no later than `window`
after the previous allowed request of the IP. -/
def Timely (ip : String) : RateLimiter → Int → List LimAction → Prop
  | _, _, [] => True
  | rl, prev, .request ip1 t1 t2 :: rest =>
    prev ≤ t1 ∧ t1 ≤ t2 ∧ (ip1 = ip → withinWindow rl ip t1) ∧
      Timely ip (rl.Middleware ip1 t1 t2).1 t2 rest
  | rl, prev, .sweep reading :: rest =>
    prev ≤ reading ip ∧ (requestsOf ip rest ≠ 0 → withinWindow rl ip (reading ip)) ∧
      Timely ip (rl.sweep reading) (reading ip) rest

instance Timely.decidable (ip : String) :
    (trace : List LimAction) → (rl : RateLimiter) → (prev : Int) →
      Decidable (Timely ip rl prev trace)
  | [], _, _ => isTrue trivial
  | .request ip1 t1 t2 :: rest, rl, prev =>
    have := Timely.decidable ip rest (rl.Middleware ip1 t1 t2).1 t2
    inferInstanceAs (Decidable (prev ≤ t1 ∧ t1 ≤ t2 ∧ (ip1 = ip → withinWindow rl ip t1) ∧
      Timely ip (rl.Middleware ip1 t1 t2).1 t2 rest))
  | .sweep reading :: rest, rl, prev =>
    have := Timely.decidable ip rest (rl.sweep reading) (reading ip)
    inferInstanceAs (Decidable (prev ≤ reading ip ∧
      (requestsOf ip rest ≠ 0 → withinWindow rl ip (reading ip)) ∧
      Timely ip (rl.sweep reading) (reading ip) rest))

/-- What the request number `j` of an IP, counted from 0, is answered under
the limit. -/
def expected (limit : Int) (j : Nat) : Verdict :=
  if (j : Int) < limit then .next [] else .aborted 429 "Rate Limit exceeded"

/-- The state of the limiter for an IP that has made `k` requests, all within
the window: no visitor before the first request, afterwards a visitor whose
count is the smaller of `k` and the limit and whose `lastSeen` is not later than
the clock. -/
def LimInv (limit window : Int) (ip : String) (rl : RateLimiter) (prev : Int) (k : Nat) :
    Prop :=
  rl.limit = limit ∧ rl.window = window ∧
  (k = 0 → rl.visitors.lookup ip = none) ∧
  (0 < k → ∃ v, rl.visitors.lookup ip = some v ∧ v.count = min (k : Int) limit ∧
    v.lastSeen ≤ prev)

/-- The constant `time.Minute` in nanoseconds. -/
def minute : Int := 60000000000

/-- Three requests of one IP within a minute, with a request of another IP and
a sweep in between. -/
def threeRequests : List LimAction :=
  [.request "10.0.0.1" 0 1, .request "10.0.0.2" 2 3, .request "10.0.0.1" 4 5,
   .sweep (fun _ => 6), .request "10.0.0.1" 7 8]

/-- The actions of `threeRequests`, followed by a sweep two minutes later. -/
def threeRequestsSwept : List LimAction := threeRequests ++ [.sweep (fun _ => 2 * minute)]

end Middleware

namespace RateLim

open GoRt

/-- The bucket of `example4` after ten calls `Allow(1)` made when the clock
still reads 0: no token is left. -/
def emptied4 : TockenBucket :=
  { capacity := 10, tokens := 0, rate := 100 * millisecond, lastRefill := 0 }

end RateLim

namespace Tasks

open GoRt

/-- Whether the IDs of a task list are strictly increasing. -/
def Increasing (tasks : List Task) : Prop := tasks.Pairwise fun a b => a.ID < b.ID

instance (tasks : List Task) : Decidable (Increasing tasks) := by
  unfold Increasing; infer_instance

/-- A disk whose list has the smallest and the largest ID an `int` can hold. -/
def extremeDisk : Disk :=
  { file := .holds [{ ID := minInt64, Title := "a", Completed := false },
                    { ID := maxInt64, Title := "b", Completed := false }] none,
    writeFault := none }

/-- A task list with the IDs 1, 2 and 4. -/
def gapTasks : List Task :=
  [{ ID := 1, Title := "a", Completed := false }, { ID := 2, Title := "b", Completed := false },
   { ID := 4, Title := "c", Completed := false }]

/-- A disk whose file holds `gapTasks` and whose writes succeed. -/
def gapDisk : Disk := { file := .holds gapTasks none, writeFault := none }

end Tasks

namespace Trees

open GoRt

/-- The breadth-first traversal of the nodes reachable from the addresses in
the queue, left before right, for at most the given number of nodes. -/
def levelOrder.go (heap : Heap) : Nat → List Nat → List Int
  | 0, _ => []
  | _ + 1, [] => []
  | fuel + 1, a :: queue =>
    match heap.get? a with
    | none => levelOrder.go heap fuel queue
    | some node =>
      node.Val :: levelOrder.go heap fuel (queue ++ node.Left.toList ++ node.Right.toList)

/-- The level-order traversal of the tree under `root`: the values of its
nodes, level by level, left before right. -/
def levelOrder (heap : Heap) (root : Option Nat) : List Int :=
  levelOrder.go heap heap.length root.toList

/-- The address of the node built from position `c` of a list of length `n`,
when the position exists. -/
def childAt (n c : Nat) : Option Nat := if c < n then some c else none

/-- The node of C29 for position `a` of a list of ints: its value is the entry
at `a`, its children are the nodes of the positions `2a+1` and `2a+2`. -/
def nodeAt (vs : List Int) (a : Nat) : TreeNode :=
  { Val := vs.getD a 0, Left := childAt vs.length (2 * a + 1),
    Right := childAt vs.length (2 * a + 2) }

/-- A node for position `a` that has no children yet. -/
def bareAt (vs : List Int) (a : Nat) : TreeNode :=
  { Val := vs.getD a 0, Left := none, Right := none }

/-- The heap of C29 for a list of ints: the node of position `a` at the
address `a`. -/
def treeOf (vs : List Int) : Heap := (List.range vs.length).map (nodeAt vs)

/-- The heap at the start of round `j` of the loop: the nodes before `j` have
their children, the nodes from `j` on, which are in the queue, have none. -/
def heapAt (vs : List Int) (j : Nat) : Heap :=
  (List.range j).map (nodeAt vs) ++
    (List.range' j (min vs.length (2 * j + 1) - j)).map (bareAt vs)

end Trees

namespace Handlers

open GoRt Models

/-- A request to one of the three handlers that change the users. -/
inductive UserAction where
  | create (bound : Except String User)
  | update (id : Option Int) (bound : Except String User)
  | delete (id : Option Int)

/-- The handler call of a request. -/
def UserHandler.handle (h : UserHandler) : UserAction → UserHandler × UserReply
  | .create bound => h.CreateUser bound
  | .update id bound => h.UpdateUser id bound
  | .delete id => h.DeleteUser id

/-- The handler after a sequence of requests. -/
def UserHandler.run (h : UserHandler) : List UserAction → UserHandler
  | [] => h
  | a :: rest => UserHandler.run (h.handle a).1 rest

/-- The IDs of the users that the calls of `CreateUser` in a sequence of
requests returned, in call order. -/
def UserHandler.createdIDs (h : UserHandler) : List UserAction → List Int
  | [] => []
  | a :: rest =>
    match a, (h.handle a).2 with
    | .create _, .user 201 u => u.ID :: UserHandler.createdIDs (h.handle a).1 rest
    | _, _ => UserHandler.createdIDs (h.handle a).1 rest

/-- The invariant of the users map: every user sits under its own ID, and the
stored IDs and `nextID` are within the bounds. -/
def UserHandler.Inv (h : UserHandler) (bound : Int) : Prop :=
  1 ≤ h.nextID ∧ h.nextID ≤ bound ∧
  ∀ k u, (k, u) ∈ h.users → u.ID = k ∧ 1 ≤ k ∧ k < h.nextID

/-- The body of the test user Bob, carrying the ID 99. -/
def bobBody : User :=
  { ID := 99, Name := "Bob", Email := "bob@example.com", Password := "", Age := 30 }

/-- Alice is created, Bob is created, Alice is deleted, Bob is updated, and a
third user is created. -/
def sampleRequests : List UserAction :=
  [.create (.ok alice), .create (.ok bobBody), .delete (some 1), .update (some 2) (.ok alice),
   .create (.ok bobBody)]

end Handlers

/-! ## Lemmas on the worker pool -/

namespace ProdPool

open GoRt

theorem inflight_cons (w : WorkerPc) (ws : List WorkerPc) :
    inflight (w :: ws) = w.held ++ inflight ws := by
  cases w <;> simp [inflight, WorkerPc.held]

theorem live_cons (w : WorkerPc) (ws : List WorkerPc) :
    live (w :: ws) = w.alive + live ws := by
  cases w <;> simp [live, WorkerPc.alive, List.filter_cons] <;> omega

theorem inflight_set (ws : List WorkerPc) (i : Nat) (pc pc' : WorkerPc)
    (h : ws[i]? = some pc) :
    ((pc.held : Multiset Result) + (inflight (ws.set i pc') : Multiset Result))
      = (pc'.held : Multiset Result) + (inflight ws : Multiset Result) := by
  induction ws generalizing i with
  | nil => simp at h
  | cons w ws ih =>
    cases i with
    | zero =>
      simp at h
      subst h
      simp only [List.set_cons_zero, inflight_cons, ← Multiset.coe_add]
      rw [← add_assoc, ← add_assoc, add_comm (w.held : Multiset Result)]
    | succ j =>
      simp at h
      have := ih j h
      simp only [List.set_cons_succ, inflight_cons, ← Multiset.coe_add]
      rw [← add_assoc, add_comm (pc.held : Multiset Result), add_assoc, this,
        ← add_assoc, ← add_assoc, add_comm (w.held : Multiset Result)]

theorem live_set (ws : List WorkerPc) (i : Nat) (pc pc' : WorkerPc)
    (h : ws[i]? = some pc) :
    pc.alive + live (ws.set i pc') = pc'.alive + live ws := by
  induction ws generalizing i with
  | nil => simp at h
  | cons w ws ih =>
    cases i with
    | zero =>
      simp at h
      subst h
      simp only [List.set_cons_zero, live_cons]
      omega
    | succ j =>
      simp at h
      have := ih j h
      simp only [List.set_cons_succ, live_cons]
      omega

theorem live_pos (ws : List WorkerPc) (i : Nat) (pc : WorkerPc)
    (h : ws[i]? = some pc) (hpc : pc ≠ .exited) : 0 < live ws := by
  have := live_set ws i pc .exited h
  have h1 : pc.alive = 1 := by cases pc <;> simp_all [WorkerPc.alive]
  simp [WorkerPc.alive] at this
  omega

theorem all_exited_of_live_zero (ws : List WorkerPc) (h : live ws = 0) :
    ∀ w ∈ ws, w = .exited := by
  intro w hw
  by_contra hne
  obtain ⟨i, hi⟩ := List.mem_iff_getElem?.mp hw
  have := live_pos ws i w hi hne
  omega


theorem Submit_ok_nil (wp wp1 : WorkerPool) (job : Job) (poll : Poll)
    (h : Submit wp job poll = .ok (wp1, none)) :
    wp.jobs.closed = false ∧ wp.jobs.buf.length < wp.jobs.cap ∧
      wp1 = { wp with jobs := { wp.jobs with buf := wp.jobs.buf ++ [job] } } := by
  by_cases hlen : wp.jobs.buf.length < wp.jobs.cap <;>
  cases hc : wp.jobs.closed <;> cases hx : wp.cancelled <;> cases poll <;>
  simp [Submit, select2, Chan.sendReady, Chan.send, Outcome.bind, errShuttingDown, hlen, hc, hx] at h <;>
  simp [← h, hlen, hc, hx]

theorem Submit_ok_err (wp wp1 : WorkerPool) (job : Job) (poll : Poll) (e : String)
    (h : Submit wp job poll = .ok (wp1, some e)) :
    wp1 = wp ∧ wp.cancelled = true ∧ e = errShuttingDown := by
  by_cases hlen : wp.jobs.buf.length < wp.jobs.cap <;>
  cases hc : wp.jobs.closed <;> cases hx : wp.cancelled <;> cases poll <;>
  simp [Submit, select2, Chan.sendReady, Chan.send, Outcome.bind, hlen, hc, hx] at h <;>
  simp [← h, hlen, hc, hx]

theorem Submit_panic (wp : WorkerPool) (job : Job) (poll : Poll) (p : Panic)
    (h : Submit wp job poll = .panic p) :
    p = .sendOnClosedChannel ∧ wp.jobs.closed = true := by
  by_cases hlen : wp.jobs.buf.length < wp.jobs.cap <;>
  cases hc : wp.jobs.closed <;> cases hx : wp.cancelled <;> cases poll <;>
  simp [Submit, select2, Chan.sendReady, Chan.send, Outcome.bind, hlen, hc, hx] at h <;>
  simp [← h, hlen, hc, hx]

/-- What a completed step of a worker did, by position and clause. -/
theorem Worker_step_ok (wp wp1 : WorkerPool) (pc pc1 : WorkerPc) (poll : Poll)
    (ev : WorkerEvent) (h : Worker.step wp pc poll = .ok (wp1, pc1, ev)) :
    (∃ job rest, pc = .waiting ∧ wp.jobs.buf = job :: rest ∧
        wp1 = { wp with jobs := { wp.jobs with buf := rest } } ∧
        pc1 = .publishing (ProcessJob job) ∧ ev = .dequeued job) ∨
    (pc = .waiting ∧ wp.jobs.buf = [] ∧ wp.jobs.closed = true ∧ 0 < wp.wg ∧
        wp1 = { wp with wg := wp.wg - 1 } ∧ pc1 = .exited ∧ ev = .sawJobsClosed) ∨
    (pc = .waiting ∧ wp.cancelled = true ∧ 0 < wp.wg ∧
        wp1 = { wp with wg := wp.wg - 1 } ∧ pc1 = .exited ∧ ev = .sawCancelAtWait) ∨
    (∃ r, pc = .publishing r ∧ wp.results.closed = false ∧
        wp1 = { wp with results := { wp.results with buf := wp.results.buf ++ [r] } } ∧
        pc1 = .waiting ∧ ev = .published r) ∨
    (∃ r, pc = .publishing r ∧ wp.cancelled = true ∧ wp1 = wp ∧ pc1 = .waiting ∧
        ev = .discarded r) := by
  cases pc with
  | waiting =>
    by_cases hwg : wp.wg = 0 <;>
    cases hbuf : wp.jobs.buf <;>
    cases hc : wp.jobs.closed <;> cases hx : wp.cancelled <;> cases poll <;>
    simp [Worker.step, select2, Chan.recvReady, Chan.recv, Outcome.bind, wgDone,
      hwg, hbuf, hc, hx] at h <;>
    obtain ⟨rfl, rfl, rfl⟩ := h <;>
    simp [hwg, hbuf, hc, hx] <;>
    first | omega | exact ⟨_, _, ⟨rfl, rfl⟩, rfl, rfl, rfl⟩
  | publishing r =>
    by_cases hlen : wp.results.buf.length < wp.results.cap <;>
    cases hc : wp.results.closed <;> cases hx : wp.cancelled <;> cases poll <;>
    simp [Worker.step, select2, Chan.sendReady, Chan.send, Outcome.bind, hlen, hc, hx] at h <;>
    obtain ⟨rfl, rfl, rfl⟩ := h <;>
    simp [hlen, hc, hx]
  | exited => simp [Worker.step] at h

/-- A worker step panics only on a wait group counter already at zero or on a
send to the closed results channel. -/
theorem Worker_step_panic (wp : WorkerPool) (pc : WorkerPc) (poll : Poll) (p : Panic)
    (h : Worker.step wp pc poll = .panic p) :
    (pc = .waiting ∧ wp.wg = 0) ∨ (∃ r, pc = .publishing r ∧ wp.results.closed = true) := by
  cases pc with
  | waiting =>
    by_cases hwg : wp.wg = 0 <;>
    cases hbuf : wp.jobs.buf <;>
    cases hc : wp.jobs.closed <;> cases hx : wp.cancelled <;> cases poll <;>
    simp [Worker.step, select2, Chan.recvReady, Chan.recv, Outcome.bind, wgDone,
      hwg, hbuf, hc, hx] at h <;>
    simp [hwg]
  | publishing r =>
    by_cases hlen : wp.results.buf.length < wp.results.cap <;>
    cases hc : wp.results.closed <;> cases hx : wp.cancelled <;> cases poll <;>
    simp [Worker.step, select2, Chan.sendReady, Chan.send, Outcome.bind, hlen, hc, hx] at h <;>
    simp
  | exited => simp [Worker.step] at h


theorem StopFlags_results_closed (pc : StopPc) (wp : WorkerPool) (h : StopFlags pc wp)
    (hc : wp.results.closed = true) : pc = .returned ∧ wp.wg = 0 := by
  cases pc <;> simp_all [StopFlags]

theorem Start_loop_spec (k : Nat) (s : Sys) :
    Start.loop k s = { s with wp := { s.wp with wg := s.wp.wg + k },
                              workers := s.workers ++ List.replicate k .waiting } := by
  induction k generalizing s with
  | zero => simp [Start.loop]
  | succ k ih =>
    simp only [Start.loop, ih]
    simp [List.replicate_succ, Nat.add_assoc, Nat.add_comm 1 k]

theorem live_replicate_waiting (k : Nat) : live (List.replicate k WorkerPc.waiting) = k := by
  induction k with
  | zero => simp [live]
  | succ k ih => simp [List.replicate_succ, live_cons, ih, WorkerPc.alive]; omega

theorem inflight_replicate_waiting (k : Nat) :
    inflight (List.replicate k WorkerPc.waiting) = [] := by
  induction k with
  | zero => simp [inflight]
  | succ k ih => simp [List.replicate_succ, inflight_cons, ih, WorkerPc.held]

theorem NewWorkerPool_ok (n q : Int) (wp : WorkerPool) (h : NewWorkerPool n q = .ok wp) :
    0 ≤ q ∧ wp = { cancelled := false, wg := 0, numWorkers := n,
                   jobs := { buf := [], cap := q.toNat, closed := false },
                   results := { buf := [], cap := q.toNat, closed := false } } := by
  by_cases hq : q < 0
  · simp [NewWorkerPool, Chan.make, Outcome.bind, hq] at h
  · simp [NewWorkerPool, Chan.make, Outcome.bind, hq] at h
    exact ⟨by omega, h.symm⟩

theorem inv_started (n q : Int) (wp : WorkerPool) (h : NewWorkerPool n q = .ok wp) :
    Inv (Start (boot wp)) := by
  obtain ⟨_, rfl⟩ := NewWorkerPool_ok n q wp h
  simp only [Start, Start_loop_spec, boot]
  constructor <;> simp [StopFlags, live_replicate_waiting, inflight_replicate_waiting]


theorem StopFlags_jobs_buf (pc : StopPc) (wp : WorkerPool) (buf : List Job)
    (h : StopFlags pc wp) : StopFlags pc { wp with jobs := { wp.jobs with buf := buf } } := by
  cases pc <;> simpa [StopFlags] using h

theorem StopFlags_results_buf (pc : StopPc) (wp : WorkerPool) (buf : List Result)
    (h : StopFlags pc wp) :
    StopFlags pc { wp with results := { wp.results with buf := buf } } := by
  cases pc <;> simpa [StopFlags] using h

theorem StopFlags_wg_pred (pc : StopPc) (wp : WorkerPool) (h : StopFlags pc wp)
    (hwg : 0 < wp.wg) : StopFlags pc { wp with wg := wp.wg - 1 } := by
  cases pc <;> simp [StopFlags] at h ⊢ <;> first | exact h | omega

theorem inv_step (s : Sys) (a : Action) (h : Inv s) : Inv (step s a) := by
  unfold step
  split
  · exact h
  · cases a with
    | submit job poll =>
      simp only
      cases hS : Submit s.wp job poll with
      | ok r =>
        obtain ⟨wp1, e⟩ := r
        cases e with
        | none =>
          obtain ⟨hc, hlen, rfl⟩ := Submit_ok_nil _ _ _ _ hS
          refine ⟨h.wg_live, StopFlags_jobs_buf _ _ _ h.flags, h.panics, ?_, h.no_drop, h.drained⟩
          have hcons := h.conserve
          simp only [List.map_append, ← Multiset.coe_add] at hcons ⊢
          rw [hcons]
          abel
        | some e =>
          obtain ⟨rfl, _, _⟩ := Submit_ok_err _ _ _ _ _ hS
          exact h
      | blocked => exact h
      | panic p =>
        obtain ⟨rfl, _⟩ := Submit_panic _ _ _ _ hS
        exact ⟨h.wg_live, h.flags, Or.inr rfl, h.conserve, h.no_drop, h.drained⟩
    | submitHandoff job i =>
      simp only
      split
      · rename_i hcond
        obtain ⟨hcl, hx, hbuf, hw⟩ := hcond
        have hl := live_set s.workers i .waiting (.publishing (ProcessJob job)) hw
        have hi := inflight_set s.workers i .waiting (.publishing (ProcessJob job)) hw
        simp only [WorkerPc.alive] at hl
        simp only [WorkerPc.held, Multiset.coe_nil, zero_add] at hi
        refine ⟨?_, h.flags, h.panics, ?_, h.no_drop, h.drained⟩
        · have := h.wg_live
          simp only
          omega
        · have hcons := h.conserve
          simp only [List.map_append, ← Multiset.coe_add] at hcons ⊢
          rw [hcons, hi]
          simp only [List.map_cons, List.map_nil]
          abel
      · exact h
    | worker i poll =>
      simp only
      cases hw : s.workers[i]? with
      | none => exact h
      | some pc =>
        simp only
        cases hS : Worker.step s.wp pc poll with
        | ok r =>
          obtain ⟨wp1, pc1, ev⟩ := r
          simp only
          rcases Worker_step_ok _ _ _ _ _ _ hS with
            ⟨job, rest, rfl, hbuf, rfl, rfl, rfl⟩ | ⟨rfl, hbuf, hcl, hwg, rfl, rfl, rfl⟩ |
            ⟨rfl, hx, hwg, rfl, rfl, rfl⟩ | ⟨r, rfl, hcl, rfl, rfl, rfl⟩ |
            ⟨r, rfl, hx, rfl, rfl, rfl⟩
          · -- a job is dequeued and processed
            have hl := live_set s.workers i .waiting (.publishing (ProcessJob job)) hw
            have hi := inflight_set s.workers i .waiting (.publishing (ProcessJob job)) hw
            simp only [WorkerPc.alive] at hl
            simp only [WorkerPc.held, Multiset.coe_nil, zero_add] at hi
            refine ⟨?_, StopFlags_jobs_buf _ _ _ h.flags, h.panics, ?_, ?_, h.drained⟩
            · have := h.wg_live
              simp only
              omega
            · have hcons := h.conserve
              simp only [hbuf, List.map_cons, WorkerEvent.dropped, List.append_nil,
                ← Multiset.coe_add] at hcons ⊢
              rw [hcons, hi]
              simp only [← Multiset.singleton_add, ← Multiset.cons_coe]
              abel
            · simpa [WorkerEvent.dropped] using h.no_drop
          · -- the worker returns on the closed jobs channel
            have hl := live_set s.workers i .waiting .exited hw
            have hi := inflight_set s.workers i .waiting .exited hw
            simp only [WorkerPc.alive] at hl
            simp only [WorkerPc.held, Multiset.coe_nil, zero_add] at hi
            refine ⟨?_, StopFlags_wg_pred _ _ h.flags hwg, h.panics, ?_, ?_, h.drained⟩
            · have := h.wg_live
              simp only
              omega
            · simpa [WorkerEvent.dropped, hi] using h.conserve
            · simpa [WorkerEvent.dropped] using h.no_drop
          · -- the worker returns on the cancelled context
            have hl := live_set s.workers i .waiting .exited hw
            have hi := inflight_set s.workers i .waiting .exited hw
            simp only [WorkerPc.alive] at hl
            simp only [WorkerPc.held, Multiset.coe_nil, zero_add] at hi
            refine ⟨?_, StopFlags_wg_pred _ _ h.flags hwg, h.panics, ?_, ?_, h.drained⟩
            · have := h.wg_live
              simp only
              omega
            · simpa [WorkerEvent.dropped, hi] using h.conserve
            · simpa [WorkerEvent.dropped] using h.no_drop
          · -- the result is sent
            have hl := live_set s.workers i (.publishing r) .waiting hw
            have hi := inflight_set s.workers i (.publishing r) .waiting hw
            simp only [WorkerPc.alive] at hl
            simp only [WorkerPc.held, Multiset.coe_nil, zero_add] at hi
            refine ⟨?_, StopFlags_results_buf _ _ _ h.flags, h.panics, ?_, ?_, ?_⟩
            · have := h.wg_live
              simp only
              omega
            · have hcons := h.conserve
              simp only [WorkerEvent.dropped, List.append_nil, ← Multiset.coe_add] at hcons ⊢
              rw [hcons, ← hi]
              abel
            · simpa [WorkerEvent.dropped] using h.no_drop
            · intro hd
              have := (h.drained hd).1
              simp [hcl] at this
          · -- the result is dropped
            have hl := live_set s.workers i (.publishing r) .waiting hw
            have hi := inflight_set s.workers i (.publishing r) .waiting hw
            simp only [WorkerPc.alive] at hl
            simp only [WorkerPc.held, Multiset.coe_nil, zero_add] at hi
            refine ⟨?_, h.flags, h.panics, ?_, ?_, h.drained⟩
            · have := h.wg_live
              simp only
              omega
            · have hcons := h.conserve
              simp only [WorkerEvent.dropped, ← Multiset.coe_add] at hcons ⊢
              rw [hcons, ← hi]
              abel
            · intro hx'
              simp [hx] at hx'
        | blocked => exact h
        | panic p =>
          exfalso
          rcases Worker_step_panic _ _ _ _ hS with ⟨rfl, hwg⟩ | ⟨r, rfl, hcl⟩
          · have := live_pos s.workers i .waiting hw (by simp)
            have := h.wg_live
            omega
          · have := live_pos s.workers i (.publishing r) hw (by simp)
            have := (StopFlags_results_closed _ _ h.flags hcl).2
            have := h.wg_live
            omega
    | publishHandoff i =>
      simp only
      split
      · rename_i r hw
        split
        · rename_i hcond
          have hl := live_set s.workers i (.publishing r) .waiting hw
          have hi := inflight_set s.workers i (.publishing r) .waiting hw
          simp only [WorkerPc.alive] at hl
          simp only [WorkerPc.held, Multiset.coe_nil, zero_add] at hi
          refine ⟨?_, h.flags, h.panics, ?_, h.no_drop, h.drained⟩
          · have := h.wg_live
            simp only
            omega
          · have hcons := h.conserve
            simp only [← Multiset.coe_add] at hcons ⊢
            rw [hcons, ← hi]
            abel
        · exact h
      · exact h
    | stop =>
      simp only
      have hf := h.flags
      cases hpc : s.stopPc with
      | notCalled =>
        simp only [hpc, StopFlags] at hf
        simp only [Stop.step, cancel]
        refine ⟨h.wg_live, ?_, h.panics, h.conserve, ?_, h.drained⟩
        · simp [StopFlags, hf]
        · intro hx
          simp at hx
      | afterCancel =>
        simp only [hpc, StopFlags] at hf
        simp only [Stop.step, closeJobs, Chan.close, hf.2.1, Outcome.bind, Bool.false_eq_true,
          if_false]
        refine ⟨h.wg_live, ?_, h.panics, h.conserve, ?_, h.drained⟩
        · simp [StopFlags, hf]
        · intro hx
          simp [hf] at hx
      | afterCloseJobs =>
        simp only [hpc, StopFlags] at hf
        simp only [Stop.step, wgWait]
        by_cases hwg : s.wp.wg = 0
        · simp only [hwg, if_true, Outcome.bind]
          refine ⟨h.wg_live, ?_, h.panics, h.conserve, h.no_drop, h.drained⟩
          simp [StopFlags, hf, hwg]
        · simp only [hwg, if_false, Outcome.bind]
          exact h
      | afterWait =>
        simp only [hpc, StopFlags] at hf
        simp only [Stop.step, closeResults, Chan.close, hf.2.2.1, Outcome.bind, Bool.false_eq_true,
          if_false]
        refine ⟨h.wg_live, ?_, h.panics, h.conserve, ?_, ?_⟩
        · simp [StopFlags, hf]
        · intro hx
          simp [hf] at hx
        · intro hd
          have := (h.drained hd).1
          simp [hf] at this
      | returned =>
        simp only [Stop.step]
        exact h
    | consume =>
      simp only
      split
      · exact h
      · rename_i hnd
        cases hbuf : s.wp.results.buf with
        | nil =>
          cases hcl : s.wp.results.closed with
          | false =>
            simp only [Chan.recv, hbuf, hcl]
            exact h
          | true =>
            simp only [Chan.recv, hbuf, hcl, if_true]
            exact ⟨h.wg_live, h.flags, h.panics, h.conserve, h.no_drop, fun _ => ⟨hcl, hbuf⟩⟩
        | cons r rest =>
          simp only [Chan.recv, hbuf]
          refine ⟨h.wg_live, StopFlags_results_buf _ _ _ h.flags, h.panics, ?_, h.no_drop, ?_⟩
          · have hcons := h.conserve
            simp only [hbuf, ← Multiset.coe_add] at hcons ⊢
            rw [hcons]
            simp only [← Multiset.singleton_add, ← Multiset.cons_coe]
            abel
          · intro hd
            exact absurd hd hnd

theorem inv_exec (s : Sys) (trace : List Action) (h : Inv s) : Inv (exec s trace) := by
  induction trace generalizing s with
  | nil => exact h
  | cons a rest ih => exact ih (step s a) (inv_step s a h)


/-- The sequential `Stop()` is its four statements run one after the other. -/
theorem Stop_eq_steps (wp : WorkerPool) :
    Stop wp =
      (Stop.step wp .notCalled).bind fun a =>
      (Stop.step a.1 a.2).bind fun b =>
      (Stop.step b.1 b.2).bind fun c =>
      (Stop.step c.1 c.2).bind fun d => .ok d.1 := by
  simp only [Stop, Stop.step, Outcome.bind]
  cases closeJobs (cancel wp) with
  | ok w1 =>
    simp only
    cases wgWait w1 with
    | ok w2 =>
      simp only
      cases closeResults w2 <;> rfl
    | blocked => rfl
    | panic p => rfl
  | blocked => rfl
  | panic p => rfl

theorem live_append (a b : List WorkerPc) : live (a ++ b) = live a + live b := by
  simp [live, List.filter_append]

theorem inflight_append (a b : List WorkerPc) : inflight (a ++ b) = inflight a ++ inflight b := by
  simp [inflight, List.filterMap_append]

theorem inv_boot (n q : Int) (wp : WorkerPool) (h : NewWorkerPool n q = .ok wp) :
    Inv (boot wp) := by
  obtain ⟨_, rfl⟩ := NewWorkerPool_ok n q wp h
  constructor <;> simp [boot, StopFlags, live, inflight]

theorem inv_Start (s : Sys) (h : Inv s) (hpc : s.stopPc = .notCalled) : Inv (Start s) := by
  have hf := h.flags
  rw [hpc] at hf
  simp only [Start, Start_loop_spec]
  constructor
  · simp only [live_append, live_replicate_waiting, h.wg_live]
  · simp only [hpc]
    exact hf
  · exact h.panics
  · simp only [inflight_append, inflight_replicate_waiting, List.append_nil]
    exact h.conserve
  · exact h.no_drop
  · exact h.drained

theorem inv_runAfter (n q : Int) (wp : WorkerPool) (before after : List Action)
    (h : NewWorkerPool n q = .ok wp) (hbefore : (exec (boot wp) before).stopPc = .notCalled) :
    Inv (runAfter wp before after) :=
  inv_exec _ after (inv_Start _ (inv_exec _ before (inv_boot n q wp h)) hbefore)

theorem step_stop_eq (s : Sys) (h : Inv s) (hp : s.panicked = none) :
    step s .stop = stopEffect s := by
  have hf := h.flags
  have hwg := h.wg_live
  unfold step stopEffect
  simp only [hp, Option.isSome_none, Bool.false_eq_true, if_false]
  cases hpc : s.stopPc with
  | notCalled => simp [Stop.step, cancel]
  | afterCancel =>
    rw [hpc] at hf
    simp [Stop.step, closeJobs, Chan.close, Outcome.bind, hf.2.1]
  | afterCloseJobs =>
    by_cases hl : live s.workers = 0
    · simp [Stop.step, wgWait, Outcome.bind, hwg, hl]
    · simp [Stop.step, wgWait, Outcome.bind, hwg, hl]
  | afterWait =>
    rw [hpc] at hf
    simp [Stop.step, closeResults, Chan.close, Outcome.bind, hf.2.2.1]
  | returned => simp [Stop.step]

end ProdPool

/-! ## Lemmas on the rate limiters -/

namespace RateLim

open GoRt

theorem wrap64_of_isInt64 (x : Int) (h : isInt64 x) : wrap64 x = x := by
  unfold isInt64 minInt64 maxInt64 at h
  unfold wrap64
  omega

theorem timeSub_le (t u : Int) (h : u ≤ t) :
    0 ≤ timeSub t u ∧ timeSub t u ≤ t - u ∧ timeSub t u ≤ maxInt64 := by
  unfold timeSub minInt64 maxInt64
  split
  · omega
  · split <;> omega

theorem timeSub_of_isInt64 (t u : Int) (h : isInt64 (t - u)) : timeSub t u = t - u := by
  unfold isInt64 at h
  unfold timeSub
  split
  · omega
  · split <;> omega

/-- Truncated division by a positive divisor is positive exactly when floor
division is, and then both agree. -/
theorem tdiv_pos_iff (a b : Int) (hb : 0 < b) :
    (0 < a.tdiv b ↔ 0 < a / b) ∧ (0 < a / b → a.tdiv b = a / b) := by
  by_cases ha : 0 ≤ a
  · rw [Int.tdiv_eq_ediv ha (le_of_lt hb)]
    exact ⟨Iff.rfl, fun _ => rfl⟩
  · have hneg : a < 0 := by omega
    have h1 : a.tdiv b ≤ 0 := by
      have := Int.neg_tdiv (-a) b
      rw [Int.neg_neg] at this
      rw [this]
      have := Int.tdiv_nonneg (show 0 ≤ -a by omega) (le_of_lt hb)
      omega
    have h2 : a / b < 0 := Int.ediv_neg' hneg hb
    constructor
    · constructor <;> intro h <;> omega
    · intro h; omega

theorem tdiv_isInt64 (a b : Int) (ha : isInt64 a) (hb : 0 < b) : isInt64 (a.tdiv b) := by
  unfold isInt64 minInt64 maxInt64 at *
  by_cases h0 : 0 ≤ a
  · rw [Int.tdiv_eq_ediv h0 (le_of_lt hb)]
    have h1 : 0 ≤ a / b := Int.ediv_nonneg h0 (le_of_lt hb)
    have h2 : a / b ≤ a := Int.ediv_le_self b h0
    omega
  · have := Int.neg_tdiv (-a) b
    rw [Int.neg_neg] at this
    rw [this, Int.tdiv_eq_ediv (show 0 ≤ -a by omega) (le_of_lt hb)]
    have h1 : 0 ≤ (-a) / b := Int.ediv_nonneg (by omega) (le_of_lt hb)
    have h2 : (-a) / b ≤ -a := Int.ediv_le_self b (by omega)
    omega


/-- One call of `Allow` on a bucket within its bounds, at a clock reading not
before the last refill, when the refill cannot overflow. -/
theorem Allow_keeps_bounds (tb : TockenBucket) (n now t0 : Int)
    (hrate : 0 < tb.rate) (hlo : 0 ≤ tb.tokens) (hhi : tb.tokens ≤ tb.capacity)
    (ht0 : t0 ≤ tb.lastRefill) (hnow : tb.lastRefill ≤ now) (hn : 0 ≤ n)
    (hov : tb.capacity + (now - t0) / tb.rate ≤ maxInt64) :
    ∃ tb1 b, tb.Allow n now = .ok (tb1, b) ∧ tb1.capacity = tb.capacity ∧ tb1.rate = tb.rate ∧
      0 ≤ tb1.tokens ∧ tb1.tokens ≤ tb1.capacity ∧ t0 ≤ tb1.lastRefill ∧ tb1.lastRefill ≤ now := by
  obtain ⟨he0, he1, he2⟩ := timeSub_le now tb.lastRefill hnow
  have hk : (timeSub now tb.lastRefill).tdiv tb.rate = timeSub now tb.lastRefill / tb.rate :=
    Int.tdiv_eq_ediv he0 (le_of_lt hrate)
  have hk0 : 0 ≤ timeSub now tb.lastRefill / tb.rate := Int.ediv_nonneg he0 (le_of_lt hrate)
  have hk1 : timeSub now tb.lastRefill / tb.rate ≤ (now - t0) / tb.rate :=
    Int.ediv_le_ediv hrate (by omega)
  have hk2 : timeSub now tb.lastRefill / tb.rate ≤ timeSub now tb.lastRefill :=
    Int.ediv_le_self _ he0
  have hcap0 : 0 ≤ tb.capacity := by omega
  have hw1 : wrap64 (timeSub now tb.lastRefill / tb.rate) = timeSub now tb.lastRefill / tb.rate :=
    wrap64_of_isInt64 _ ⟨by unfold minInt64; omega, by omega⟩
  have hw2 : wrap64 (tb.tokens + timeSub now tb.lastRefill / tb.rate)
      = tb.tokens + timeSub now tb.lastRefill / tb.rate :=
    wrap64_of_isInt64 _ ⟨by unfold minInt64; omega, by omega⟩
  have hrate0 : tb.rate ≠ 0 := by omega
  have hmax : tb.capacity ≤ maxInt64 := by omega
  simp only [TockenBucket.Allow, hrate0, if_false, hk, hw1, TockenBucket.refill, hw2]
  by_cases hpos : timeSub now tb.lastRefill / tb.rate > 0
  · simp only [hpos, if_true]
    by_cases hgt : tb.tokens + timeSub now tb.lastRefill / tb.rate > tb.capacity
    · simp only [hgt, if_true]
      by_cases hge : tb.capacity ≥ n
      · simp only [hge, if_true]
        have hw3 : wrap64 (tb.capacity - n) = tb.capacity - n :=
          wrap64_of_isInt64 _ ⟨by unfold minInt64; omega, by omega⟩
        refine ⟨_, _, rfl, rfl, rfl, ?_, ?_, ?_, ?_⟩ <;> (try simp only [hw3]) <;> omega
      · simp only [hge, if_false]
        refine ⟨_, _, rfl, rfl, rfl, ?_, ?_, ?_, ?_⟩ <;> (try simp only) <;> omega
    · simp only [hgt, if_false]
      by_cases hge : tb.tokens + timeSub now tb.lastRefill / tb.rate ≥ n
      · simp only [hge, if_true]
        have hw3 : wrap64 (tb.tokens + timeSub now tb.lastRefill / tb.rate - n)
            = tb.tokens + timeSub now tb.lastRefill / tb.rate - n :=
          wrap64_of_isInt64 _ ⟨by unfold minInt64; omega, by omega⟩
        refine ⟨_, _, rfl, rfl, rfl, ?_, ?_, ?_, ?_⟩ <;> (try simp only [hw3]) <;> omega
      · simp only [hge, if_false]
        refine ⟨_, _, rfl, rfl, rfl, ?_, ?_, ?_, ?_⟩ <;> (try simp only) <;> omega
  · simp only [hpos, if_false]
    by_cases hge : tb.tokens ≥ n
    · simp only [hge, if_true]
      have hw3 : wrap64 (tb.tokens - n) = tb.tokens - n :=
        wrap64_of_isInt64 _ ⟨by unfold minInt64; omega, by omega⟩
      refine ⟨_, _, rfl, rfl, rfl, ?_, ?_, ?_, ?_⟩ <;> (try simp only [hw3]) <;> omega
    · simp only [hge, if_false]
      refine ⟨_, _, rfl, rfl, rfl, ?_, ?_, ?_, ?_⟩ <;> omega

/-- A sequence of calls of `Allow` keeps the bucket within its bounds. -/
theorem allowAll_keeps_bounds (calls : List (Int × Int)) (tb : TockenBucket) (t0 tprev : Int)
    (hrate : 0 < tb.rate) (hlo : 0 ≤ tb.tokens) (hhi : tb.tokens ≤ tb.capacity)
    (ht0 : t0 ≤ tb.lastRefill) (hprev : tb.lastRefill ≤ tprev)
    (hn : ∀ c ∈ calls, 0 ≤ c.1)
    (ht : List.Chain (fun a b => a ≤ b) tprev (calls.map Prod.snd))
    (hov : ∀ c ∈ calls, tb.capacity + (c.2 - t0) / tb.rate ≤ maxInt64) :
    ∃ out, tb.allowAll calls = .ok out ∧ out.length = calls.length ∧
      ∀ r ∈ out, 0 ≤ r.1.tokens ∧ r.1.tokens ≤ tb.capacity := by
  induction calls generalizing tb tprev with
  | nil => exact ⟨[], rfl, rfl, by simp⟩
  | cons c rest ih =>
    obtain ⟨n, now⟩ := c
    simp only [List.map_cons, List.chain_cons] at ht
    have hnow : tb.lastRefill ≤ now := le_trans hprev ht.1
    obtain ⟨tb1, b, hA, hcap, hr, h0, h1, h2, h3⟩ :=
      Allow_keeps_bounds tb n now t0 hrate hlo hhi ht0 hnow
        (hn (n, now) (List.mem_cons_self _ _)) (hov (n, now) (List.mem_cons_self _ _))
    obtain ⟨out, hout, hlen, hall⟩ := ih tb1 now (by rw [hr]; exact hrate) h0 h1 h2 h3
      (fun c hc => hn c (List.mem_cons_of_mem _ hc)) ht.2
      (fun c hc => by rw [hcap, hr]; exact hov c (List.mem_cons_of_mem _ hc))
    refine ⟨(tb1, b) :: out, ?_, by simp [hlen], ?_⟩
    · simp only [TockenBucket.allowAll, hA, Outcome.bind, hout]
    · intro r hr'
      rcases List.mem_cons.mp hr' with rfl | hmem
      · exact ⟨h0, by rw [← hcap]; exact h1⟩
      · have := hall r hmem
        rw [hcap] at this
        exact this


/-- A call of `Allow` less than one refill period after the last refill adds
no token. -/
theorem Allow_within_period (tb : TockenBucket) (n t : Int) (hrate : 0 < tb.rate)
    (h0 : tb.lastRefill ≤ t) (h1 : t < tb.lastRefill + tb.rate) :
    tb.Allow n t = if tb.tokens ≥ n then .ok ({ tb with tokens := wrap64 (tb.tokens - n) }, true)
                   else .ok (tb, false) := by
  obtain ⟨he0, he1, _⟩ := timeSub_le t tb.lastRefill h0
  have hk : (timeSub t tb.lastRefill).tdiv tb.rate = 0 := by
    rw [Int.tdiv_eq_ediv he0 (le_of_lt hrate)]
    exact Int.ediv_eq_zero_of_lt he0 (by omega)
  have hrate0 : tb.rate ≠ 0 := by omega
  have hw : wrap64 0 = 0 := by decide
  simp [TockenBucket.Allow, hrate0, hk, hw, TockenBucket.refill]

/-- A call `Allow(1)` on an empty bucket of capacity at least one, made one
refill period or more after the last refill, returns true. -/
theorem Allow_after_period (tb : TockenBucket) (t : Int) (hrate : 0 < tb.rate)
    (hrate64 : tb.rate ≤ maxInt64) (hcap : 1 ≤ tb.capacity) (htok : tb.tokens = 0)
    (h : tb.lastRefill + tb.rate ≤ t) :
    ∃ tb1, tb.Allow 1 t = .ok (tb1, true) := by
  have he : tb.rate ≤ timeSub t tb.lastRefill ∧ timeSub t tb.lastRefill ≤ maxInt64 := by
    unfold timeSub minInt64
    split
    · exact ⟨hrate64, le_refl _⟩
    · split <;> constructor <;> omega
  have he0 : 0 ≤ timeSub t tb.lastRefill := by omega
  have hk : (timeSub t tb.lastRefill).tdiv tb.rate = timeSub t tb.lastRefill / tb.rate :=
    Int.tdiv_eq_ediv he0 (le_of_lt hrate)
  have hk1 : 1 ≤ timeSub t tb.lastRefill / tb.rate :=
    Int.le_ediv_of_mul_le hrate (by omega)
  have hk2 : timeSub t tb.lastRefill / tb.rate ≤ timeSub t tb.lastRefill :=
    Int.ediv_le_self _ he0
  have hw1 : wrap64 (timeSub t tb.lastRefill / tb.rate) = timeSub t tb.lastRefill / tb.rate :=
    wrap64_of_isInt64 _ ⟨by unfold minInt64; omega, by omega⟩
  have hrate0 : tb.rate ≠ 0 := by omega
  have hpos : timeSub t tb.lastRefill / tb.rate > 0 := by omega
  simp only [TockenBucket.Allow, hrate0, if_false, hk, hw1, TockenBucket.refill, hpos, if_true,
    htok, zero_add]
  by_cases hgt : timeSub t tb.lastRefill / tb.rate > tb.capacity
  · have hge : tb.capacity ≥ 1 := hcap
    simp only [hgt, if_true, hge]
    exact ⟨_, rfl⟩
  · have hge : timeSub t tb.lastRefill / tb.rate ≥ 1 := hk1
    simp only [hgt, if_false, hge, if_true]
    exact ⟨_, rfl⟩

/-- A burst that empties the bucket within the first refill period, one more
call in that period, and one call after it. -/
theorem burst_denied_then_refilled (burst : List Int) (tb : TockenBucket) (tExtra tLate : Int)
    (hrate : 0 < tb.rate) (hrate64 : tb.rate ≤ maxInt64) (hcap : 1 ≤ tb.capacity)
    (htok : tb.tokens = (burst.length : Int)) (htok64 : tb.tokens ≤ maxInt64)
    (hburst : ∀ t ∈ burst, tb.lastRefill ≤ t ∧ t < tb.lastRefill + tb.rate)
    (hextra : tb.lastRefill ≤ tExtra ∧ tExtra < tb.lastRefill + tb.rate)
    (hlate : tb.lastRefill + tb.rate ≤ tLate) :
    ∃ out, tb.allowAll ((burst ++ [tExtra, tLate]).map fun t => (1, t)) = .ok out ∧
      out.map Prod.snd = List.replicate burst.length true ++ [false, true] := by
  induction burst generalizing tb with
  | nil =>
    simp only [List.length_nil, Nat.cast_zero] at htok
    have h1 := Allow_within_period tb 1 tExtra hrate hextra.1 hextra.2
    simp only [htok, ge_iff_le, show ¬ ((1 : Int) ≤ 0) by omega, if_false] at h1
    obtain ⟨tb1, h2⟩ := Allow_after_period tb tLate hrate hrate64 hcap htok hlate
    refine ⟨[(tb, false), (tb1, true)], ?_, by simp⟩
    simp [TockenBucket.allowAll, h1, h2, Outcome.bind]
  | cons t rest ih =>
    simp only [List.length_cons, Nat.cast_add, Nat.cast_one] at htok
    have ht := hburst t (List.mem_cons_self _ _)
    have h1 := Allow_within_period tb 1 t hrate ht.1 ht.2
    have hge : tb.tokens ≥ 1 := by omega
    have hw : wrap64 (tb.tokens - 1) = tb.tokens - 1 :=
      wrap64_of_isInt64 _ ⟨by unfold minInt64; omega, by omega⟩
    simp only [hge, if_true, hw] at h1
    obtain ⟨out, hout, hmap⟩ := ih { tb with tokens := tb.tokens - 1 } hrate hrate64 hcap
      (by simp only; omega) (by simp only; omega)
      (fun u hu => hburst u (List.mem_cons_of_mem _ hu)) hextra hlate
    refine ⟨({ tb with tokens := tb.tokens - 1 }, true) :: out, ?_, ?_⟩
    · simp only [List.cons_append, List.map_cons, TockenBucket.allowAll, h1, Outcome.bind]
      simp only [List.map_append, List.map_cons, List.map_nil] at hout
      simp [hout]
    · simp [hmap, List.replicate_succ]


/-- The pre-fill loop on an open channel with room for every token. -/
theorem fill_spec (k : Nat) (c : Chan Unit) (hopen : c.closed = false)
    (hroom : c.buf.length + k ≤ c.cap) :
    NewRateLimiter.fill k c = .ok { c with buf := c.buf ++ List.replicate k () } := by
  induction k generalizing c with
  | zero => simp [NewRateLimiter.fill]
  | succ k ih =>
    have hlt : c.buf.length < c.cap := by omega
    simp only [NewRateLimiter.fill, Chan.send, hopen, hlt, if_true, Outcome.bind,
      Bool.false_eq_true, if_false]
    rw [ih { buf := c.buf ++ [()], cap := c.cap, closed := false } rfl
      (by simp only [List.length_append, List.length_singleton]; omega)]
    simp [List.replicate_succ, hopen]

/-- What a successful construction returns. -/
theorem NewRateLimiter_ok (r : Int) (rl : RateLimiter) (h : NewRateLimiter r = .ok rl) :
    0 < r ∧ rl.tokens = { buf := List.replicate r.toNat (), cap := r.toNat, closed := false } := by
  unfold NewRateLimiter at h
  by_cases h0 : r = 0
  · simp [h0] at h
  · simp only [h0, if_false] at h
    by_cases hneg : r < 0
    · exfalso
      have h1 : second.tdiv r ≤ 0 := Int.tdiv_nonpos (by decide) (le_of_lt hneg)
      have h2 := tdiv_isInt64 second (-r) (by decide) (by omega)
      rw [Int.tdiv_neg] at h2
      have h3 : isInt64 (second.tdiv r) := by
        unfold isInt64 minInt64 maxInt64 at *
        omega
      rw [wrap64_of_isInt64 _ h3] at h
      simp [NewTicker, h1, Outcome.bind] at h
    · have hpos : 0 < r := by omega
      refine ⟨hpos, ?_⟩
      by_cases hi : wrap64 (second.tdiv r) ≤ 0
      · simp [NewTicker, hi, Outcome.bind] at h
      · have hmk : ¬ r < 0 := hneg
        simp only [NewTicker, hi, if_false, Outcome.bind, Chan.make, hmk] at h
        rw [fill_spec _ _ rfl (by simp)] at h
        simp only [Outcome.ok.injEq] at h
        rw [← h]
        simp

/-- Back-to-back calls of `TryAllow` on an open bucket of `m` tokens: `m` times
true, then false. -/
theorem tryAllowTimes_drains (m : Nat) (rl : RateLimiter) (hopen : rl.tokens.closed = false)
    (hbuf : rl.tokens.buf = List.replicate m ()) :
    ∃ rl1, tryAllowTimes (m + 1) rl = .ok (rl1, List.replicate m true ++ [false]) := by
  induction m generalizing rl with
  | zero =>
    simp only [List.replicate_zero] at hbuf
    refine ⟨rl, ?_⟩
    simp [tryAllowTimes, TryAllow, Chan.recvReady, hbuf, hopen, Outcome.bind]
  | succ m ih =>
    simp only [List.replicate_succ] at hbuf
    obtain ⟨rl1, h1⟩ := ih { rl with tokens := { rl.tokens with buf := List.replicate m () } }
      hopen rfl
    refine ⟨rl1, ?_⟩
    rw [tryAllowTimes]
    simp only [TryAllow, Chan.recvReady, hbuf, Chan.recv, Outcome.bind, List.isEmpty_cons,
      Bool.not_false, Bool.true_or, if_true, h1]
    simp [List.replicate_succ]


end RateLim

namespace RateLim

open GoRt

end RateLim

/-! ## Lemmas on the scrapper -/

namespace WebScrapper

open GoRt

theorem scrapper_live_cons (w : WorkerPc) (ws : List WorkerPc) :
    live (w :: ws) = w.alive + live ws := by
  cases w <;> simp [live, WorkerPc.alive, List.filter_cons] <;> omega

theorem scrapper_live_set (ws : List WorkerPc) (i : Nat) (pc pc' : WorkerPc)
    (h : ws[i]? = some pc) :
    pc.alive + live (ws.set i pc') = pc'.alive + live ws := by
  induction ws generalizing i with
  | nil => simp at h
  | cons w ws ih =>
    cases i with
    | zero =>
      simp at h
      subst h
      simp only [List.set_cons_zero, scrapper_live_cons]
      omega
    | succ j =>
      simp at h
      have := ih j h
      simp only [List.set_cons_succ, scrapper_live_cons]
      omega

theorem scrapper_live_pos (ws : List WorkerPc) (i : Nat) (pc : WorkerPc)
    (h : ws[i]? = some pc) (hpc : pc ≠ .exited) : 0 < live ws := by
  have := scrapper_live_set ws i pc .exited h
  have h1 : pc.alive = 1 := by cases pc <;> simp_all [WorkerPc.alive]
  simp [WorkerPc.alive] at this
  omega

theorem scrapper_all_exited_of_live_zero (ws : List WorkerPc) (h : live ws = 0) :
    ∀ w ∈ ws, w = .exited := by
  intro w hw
  by_contra hne
  obtain ⟨i, hi⟩ := List.mem_iff_getElem?.mp hw
  have := scrapper_live_pos ws i w hi hne
  omega

theorem scrapper_live_replicate_waiting (k : Nat) : live (List.replicate k WorkerPc.waiting) = k := by
  induction k with
  | zero => simp [live]
  | succ k ih => simp [List.replicate_succ, scrapper_live_cons, ih, WorkerPc.alive]; omega

theorem scrapper_Start_loop_spec (k : Nat) (s : Sys) :
    Start.loop k s = { s with sc := { s.sc with wg := s.sc.wg + k },
                              workers := s.workers ++ List.replicate k .waiting } := by
  induction k generalizing s with
  | zero => simp [Start.loop]
  | succ k ih =>
    simp only [Start.loop, ih]
    simp [List.replicate_succ, Nat.add_assoc, Nat.add_comm 1 k]

theorem scrapper_inv_started (n t r : Int) : Inv (Start (boot (NewScrapper n t r))) := by
  simp only [Start, scrapper_Start_loop_spec, boot, NewScrapper]
  constructor <;> simp [StopFlags, scrapper_live_replicate_waiting]

/-- What a completed step of a worker did to its position and to the
scrapper. -/
theorem scrapper_Worker_step_ok (sc sc1 : Scrapper) (pc pc1 : WorkerPc) (poll : Poll) (w : World)
    (sent : List String) (h : Worker.step sc pc poll w = .ok (sc1, pc1, sent)) :
    (∃ url rest, pc = .waiting ∧ sc.urls.buf = url :: rest ∧
        sc1 = { sc with urls := { sc.urls with buf := rest } } ∧
        pc1 = .publishing (ScrapeURL w url).1) ∨
    (pc ≠ .exited ∧ 0 < sc.wg ∧ sc1 = { sc with wg := sc.wg - 1 } ∧ pc1 = .exited) ∨
    (∃ r, pc = .publishing r ∧ sc.results.closed = false ∧
        sc1 = { sc with results := { sc.results with buf := sc.results.buf ++ [r] } } ∧
        pc1 = .waiting) := by
  cases pc with
  | waiting =>
    by_cases hwg : sc.wg = 0 <;>
    cases hbuf : sc.urls.buf <;>
    cases hc : sc.urls.closed <;> cases hx : sc.cancelled <;> cases poll <;>
    simp [Worker.step, select2, Chan.recvReady, Chan.recv, Outcome.bind, wgDone,
      hwg, hbuf, hc, hx] at h <;>
    obtain ⟨rfl, rfl, rfl⟩ := h <;>
    simp [hwg, hbuf, hc, hx] <;>
    first | omega | exact ⟨_, _, ⟨rfl, rfl⟩, rfl, rfl⟩
  | publishing r =>
    by_cases hwg : sc.wg = 0 <;>
    by_cases hlen : sc.results.buf.length < sc.results.cap <;>
    cases hc : sc.results.closed <;> cases hx : sc.cancelled <;> cases poll <;>
    simp [Worker.step, select2, Chan.sendReady, Chan.send, Outcome.bind, wgDone,
      hwg, hlen, hc, hx] at h <;>
    obtain ⟨rfl, rfl, rfl⟩ := h <;>
    simp [hwg, hlen, hc, hx] <;> omega
  | exited => simp [Worker.step] at h

/-- A worker step panics only on a wait group counter already at zero or on a
send to the closed results channel. -/
theorem scrapper_Worker_step_panic (sc : Scrapper) (pc : WorkerPc) (poll : Poll) (w : World) (p : Panic)
    (h : Worker.step sc pc poll w = .panic p) :
    pc ≠ .exited ∧ (sc.wg = 0 ∨ sc.results.closed = true) := by
  cases pc with
  | waiting =>
    by_cases hwg : sc.wg = 0 <;>
    cases hbuf : sc.urls.buf <;>
    cases hc : sc.urls.closed <;> cases hx : sc.cancelled <;> cases poll <;>
    simp [Worker.step, select2, Chan.recvReady, Chan.recv, Outcome.bind, wgDone,
      hwg, hbuf, hc, hx] at h <;>
    simp [hwg]
  | publishing r =>
    by_cases hwg : sc.wg = 0 <;>
    by_cases hlen : sc.results.buf.length < sc.results.cap <;>
    cases hc : sc.results.closed <;> cases hx : sc.cancelled <;> cases poll <;>
    simp [Worker.step, select2, Chan.sendReady, Chan.send, Outcome.bind, wgDone,
      hwg, hlen, hc, hx] at h <;>
    simp [hwg]
  | exited => simp [Worker.step] at h


theorem scrapper_StopFlags_results_closed (pc : StopPc) (sc : Scrapper) (h : StopFlags pc sc)
    (hc : sc.results.closed = true) : sc.urls.closed = true ∧ sc.wg = 0 := by
  cases pc <;> simp_all [StopFlags]

theorem StopFlags_cancelled (pc : StopPc) (sc : Scrapper) (h : StopFlags pc sc)
    (hx : sc.cancelled = true) : sc.results.closed = true ∧ pc = .returned := by
  cases pc <;> simp_all [StopFlags]

theorem StopFlags_urls_buf (pc : StopPc) (sc : Scrapper) (buf : List String)
    (h : StopFlags pc sc) : StopFlags pc { sc with urls := { sc.urls with buf := buf } } := by
  cases pc <;> simpa [StopFlags] using h

theorem scrapper_StopFlags_results_buf (pc : StopPc) (sc : Scrapper) (buf : List ScrapperResult)
    (h : StopFlags pc sc) :
    StopFlags pc { sc with results := { sc.results with buf := buf } } := by
  cases pc <;> simpa [StopFlags] using h

theorem scrapper_StopFlags_wg_pred (pc : StopPc) (sc : Scrapper) (h : StopFlags pc sc)
    (hwg : 0 < sc.wg) : StopFlags pc { sc with wg := sc.wg - 1 } := by
  cases pc <;> simp [StopFlags] at h ⊢ <;> first | exact h | omega

theorem Submit_ok (sc sc1 : Scrapper) (url : String) (poll : Poll) (e : Option String)
    (h : Submit sc url poll = .ok (sc1, e)) :
    sc1 = sc ∨ sc1 = { sc with urls := { sc.urls with buf := sc.urls.buf ++ [url] } } := by
  by_cases hlen : sc.urls.buf.length < sc.urls.cap <;>
  cases hc : sc.urls.closed <;> cases hx : sc.cancelled <;> cases poll <;>
  simp [Submit, select2, Chan.sendReady, Chan.send, Outcome.bind, hlen, hc, hx] at h <;>
  obtain ⟨rfl, rfl⟩ := h <;>
  simp [hc, hx]

theorem scrapper_Submit_panic (sc : Scrapper) (url : String) (poll : Poll) (p : Panic)
    (h : Submit sc url poll = .panic p) : p = .sendOnClosedChannel := by
  by_cases hlen : sc.urls.buf.length < sc.urls.cap <;>
  cases hc : sc.urls.closed <;> cases hx : sc.cancelled <;> cases poll <;>
  simp [Submit, select2, Chan.sendReady, Chan.send, Outcome.bind, hlen, hc, hx] at h <;>
  simp [← h]

theorem scrapper_inv_step (s : Sys) (a : Action) (h : Inv s) : Inv (step s a) := by
  unfold step
  split
  · exact h
  · cases a with
    | submit url poll =>
      simp only
      cases hS : Submit s.sc url poll with
      | ok r =>
        obtain ⟨sc1, e⟩ := r
        rcases Submit_ok _ _ _ _ _ hS with rfl | rfl
        · exact h
        · exact ⟨h.wg_live, StopFlags_urls_buf _ _ _ h.flags, h.panics⟩
      | blocked => exact h
      | panic p =>
        have := scrapper_Submit_panic _ _ _ _ hS
        subst this
        exact ⟨h.wg_live, h.flags, Or.inr rfl⟩
    | worker i poll w =>
      simp only
      cases hw : s.workers[i]? with
      | none => exact h
      | some pc =>
        simp only
        cases hS : Worker.step s.sc pc poll w with
        | ok r =>
          obtain ⟨sc1, pc1, sent⟩ := r
          simp only
          rcases scrapper_Worker_step_ok _ _ _ _ _ _ _ hS with
            ⟨url, rest, rfl, hbuf, rfl, rfl⟩ | ⟨hne, hwg, rfl, rfl⟩ | ⟨r, rfl, hcl, rfl, rfl⟩
          · have hl := scrapper_live_set s.workers i .waiting (.publishing (ScrapeURL w url).1) hw
            simp only [WorkerPc.alive] at hl
            refine ⟨?_, StopFlags_urls_buf _ _ _ h.flags, h.panics⟩
            have := h.wg_live
            simp only
            omega
          · have hl := scrapper_live_set s.workers i pc .exited hw
            have h1 : pc.alive = 1 := by cases pc <;> simp_all [WorkerPc.alive]
            simp only [WorkerPc.alive, h1] at hl
            refine ⟨?_, scrapper_StopFlags_wg_pred _ _ h.flags hwg, h.panics⟩
            have := h.wg_live
            simp only
            omega
          · have hl := scrapper_live_set s.workers i (.publishing r) .waiting hw
            simp only [WorkerPc.alive] at hl
            refine ⟨?_, scrapper_StopFlags_results_buf _ _ _ h.flags, h.panics⟩
            have := h.wg_live
            simp only
            omega
        | blocked => exact h
        | panic p =>
          exfalso
          obtain ⟨hne, hor⟩ := scrapper_Worker_step_panic _ _ _ _ _ hS
          have hpos := scrapper_live_pos s.workers i pc hw hne
          have hwl := h.wg_live
          rcases hor with hwg | hcl
          · omega
          · have := (scrapper_StopFlags_results_closed _ _ h.flags hcl).2
            omega
    | stop =>
      simp only
      have hf := h.flags
      cases hpc : s.stopPc with
      | notCalled =>
        simp only [hpc, StopFlags] at hf
        simp only [Stop.step, closeUrls, Chan.close, hf.1, Outcome.bind, Bool.false_eq_true,
          if_false]
        exact ⟨h.wg_live, by simp [StopFlags, hf], h.panics⟩
      | afterCloseUrls =>
        simp only [hpc, StopFlags] at hf
        simp only [Stop.step, wgWait]
        by_cases hwg : s.sc.wg = 0
        · simp only [hwg, if_true, Outcome.bind]
          exact ⟨h.wg_live, by simp [StopFlags, hf, hwg], h.panics⟩
        · simp only [hwg, if_false, Outcome.bind]
          exact h
      | afterWait =>
        simp only [hpc, StopFlags] at hf
        simp only [Stop.step, closeResults, Chan.close, hf.2.1, Outcome.bind,
          Bool.false_eq_true, if_false]
        exact ⟨h.wg_live, by simp [StopFlags, hf], h.panics⟩
      | afterCloseResults =>
        simp only [hpc, StopFlags] at hf
        simp only [Stop.step, cancel]
        exact ⟨h.wg_live, by simp [StopFlags, hf], h.panics⟩
      | returned =>
        simp only [Stop.step]
        exact h
    | consume =>
      simp only
      split
      · exact h
      · cases hbuf : s.sc.results.buf with
        | nil =>
          cases hcl : s.sc.results.closed with
          | false =>
            simp only [Chan.recv, hbuf, hcl]
            exact h
          | true =>
            simp only [Chan.recv, hbuf, hcl, if_true]
            exact ⟨h.wg_live, h.flags, h.panics⟩
        | cons r rest =>
          simp only [Chan.recv, hbuf]
          exact ⟨h.wg_live, scrapper_StopFlags_results_buf _ _ _ h.flags, h.panics⟩

theorem scrapper_inv_run (n t r : Int) (trace : List Action) :
    Inv (run (NewScrapper n t r) trace) := by
  unfold run exec
  generalize Start (boot (NewScrapper n t r)) = s0, scrapper_inv_started n t r = h0
  induction trace generalizing s0 with
  | nil => exact h0
  | cons a rest ih => exact ih (step s0 a) (scrapper_inv_step s0 a h0)


end WebScrapper

/-! ## Lemmas on tokens -/

namespace Auth

open GoRt

theorem map_ofNat_toNat (l : List Char) : (l.map Char.toNat).map Char.ofNat = l := by
  induction l with
  | nil => rfl
  | cons c rest ih =>
    simp only [List.map_cons, Char.ofNat_toNat, ih]

theorem truncated_seconds (d : Option Int) (h : ∀ e, d = some e → e % 1000000000 = 0) :
    (d.map (· / 1000000000)).map (· * 1000000000) = d := by
  cases d with
  | none => rfl
  | some e =>
    have := h e rfl
    simp only [Option.map_some', Option.some.injEq]
    omega

theorem sampleDecode_sampleCode (c : Claims) (key : String) (hc : c.lossless) :
    sampleDecode (sampleCode c key) = some (c, key) := by
  unfold sampleDecode sampleCode
  rw [Encodable.encodek]
  simp only [Option.map_some', map_ofNat_toNat, truncated_seconds _ hc.2.1,
    truncated_seconds _ hc.2.2]

/-- The sample library drops what is below a second, as `jwt/v5` does: claims
with an expiry of 1.5 s come back with an expiry of 1 s. -/
theorem sampleLib_truncates (key : String) :
    sampleDecode (sampleCode halfSecondClaims key)
      = some ({ halfSecondClaims with ExpiresAt := some 1000000000 }, key) := by
  unfold sampleDecode sampleCode
  rw [Encodable.encodek]
  simp only [halfSecondClaims, Option.map_some', Option.map_none', map_ofNat_toNat]
  rfl

theorem sampleLib_lawful : sampleLib.Lawful := by
  constructor
  · intro c key _
    exact ⟨_, rfl⟩
  · intro c key t hc ht
    have ht' : t = String.mk (List.replicate (sampleCode c key) 'x') := by
      simp only [sampleLib, Except.ok.injEq] at ht
      exact ht.symm
    have hlen : t.length = sampleCode c key := by
      rw [ht']; simp
    constructor
    · simp [sampleLib, hlen, sampleDecode_sampleCode c key hc]
    · intro now hnow
      simp only [sampleLib, hlen, sampleDecode_sampleCode c key hc]
      cases he : c.ExpiresAt with
      | none => simp
      | some e => simp [hnow e he]

theorem NewNumericDate_seconds (t : Int) : NewNumericDate t % 1000000000 = 0 := by
  unfold NewNumericDate
  omega

theorem NewNumericDate_le (t : Int) : NewNumericDate t ≤ t ∧ t < NewNumericDate t + 1000000000 := by
  unfold NewNumericDate
  omega

end Auth

/-! ## Lemmas on the handlers and the task list -/

namespace Handlers

open GoRt Models

theorem lookup_append_new {κ ν : Type} [DecidableEq κ] (m : List (κ × ν)) (k : κ) (v : ν)
    (hnew : m.lookup k = none) : (m ++ [(k, v)]).lookup k = some v := by
  induction m with
  | nil => simp [List.lookup]
  | cons e rest ih =>
    obtain ⟨k', v'⟩ := e
    by_cases hk : k = k'
    · subst hk
      simp [List.lookup] at hnew
    · have hb : (k == k') = false := by simpa using hk
      simp only [List.lookup, hb, List.cons_append] at hnew ⊢
      exact ih hnew

theorem lookup_append_other {κ ν : Type} [DecidableEq κ] (m : List (κ × ν)) (k k' : κ) (v : ν)
    (hne : k' ≠ k) : (m ++ [(k, v)]).lookup k' = m.lookup k' := by
  induction m with
  | nil =>
    have hb : (k' == k) = false := by simpa using hne
    simp [List.lookup, hb]
  | cons e rest ih =>
    obtain ⟨k'', v''⟩ := e
    by_cases hk : k' = k''
    · subst hk
      simp [List.lookup]
    · have hb : (k' == k'') = false := by simpa using hk
      simp only [List.lookup, hb, List.cons_append]
      exact ih

theorem keepUser_noFilter (user : User) : keepUser noFilter user = true := by
  simp [keepUser, noFilter]

end Handlers

namespace Tasks

theorem mark_none (id : Int) (tasks : List Task) (hno : ∀ t ∈ tasks, t.ID ≠ id) :
    CompletedTask.mark id tasks = none := by
  induction tasks with
  | nil => rfl
  | cons t rest ih =>
    have ht : t.ID ≠ id := hno t (List.mem_cons_self _ _)
    have hrest := ih fun u hu => hno u (List.mem_cons_of_mem _ hu)
    simp [CompletedTask.mark, ht, hrest]

theorem mark_some (id : Int) (tasks : List Task) (hsome : ∃ t ∈ tasks, t.ID = id) :
    ∃ pre t post, tasks = pre ++ t :: post ∧ (∀ u ∈ pre, u.ID ≠ id) ∧ t.ID = id ∧
      CompletedTask.mark id tasks = some (pre ++ { t with Completed := true } :: post) := by
  induction tasks with
  | nil =>
    obtain ⟨t, ht, _⟩ := hsome
    cases ht
  | cons t rest ih =>
    by_cases ht : t.ID = id
    · exact ⟨[], t, rest, rfl, by simp, ht, by simp [CompletedTask.mark, ht]⟩
    · have hrest : ∃ u ∈ rest, u.ID = id := by
        obtain ⟨u, hu, hid⟩ := hsome
        rcases List.mem_cons.mp hu with rfl | hu
        · exact absurd hid ht
        · exact ⟨u, hu, hid⟩
      obtain ⟨pre, u, post, hsplit, hpre, hu, hmark⟩ := ih hrest
      refine ⟨t :: pre, u, post, by simp [hsplit], ?_, hu, ?_⟩
      · intro w hw
        rcases List.mem_cons.mp hw with rfl | hw
        · exact ht
        · exact hpre w hw
      · simp [CompletedTask.mark, ht, hmark]

end Tasks

/-! ## Lemmas on the search helper and the page count -/

namespace Handlers

open GoRt Models

theorem strContains_loop_iff (s substr : List UInt8) (remaining i : Nat) :
    strContains.loop s substr i remaining = true ↔
      ∃ k, k < remaining ∧ (s.drop (i + k)).take substr.length = substr := by
  induction remaining generalizing i with
  | zero => simp [strContains.loop]
  | succ n ih =>
    unfold strContains.loop
    by_cases hhere : (s.drop i).take substr.length = substr
    · simp only [hhere, if_true, true_iff]
      exact ⟨0, by omega, by simpa using hhere⟩
    · simp only [hhere, if_false, ih]
      constructor
      · rintro ⟨k, hk, hmatch⟩
        exact ⟨k + 1, by omega, by rw [← hmatch]; congr 2; omega⟩
      · rintro ⟨k, hk, hmatch⟩
        cases k with
        | zero => exact absurd (by simpa using hmatch) hhere
        | succ k => exact ⟨k, by omega, by rw [← hmatch]; congr 2; omega⟩

end Handlers

namespace Models

open GoRt

theorem wrap64_sub_one (x : Int) : wrap64 (wrap64 x - 1) = wrap64 (x - 1) := by
  unfold wrap64
  omega

end Models

/-! ## Lemmas on the users map -/

namespace Handlers

open GoRt Models

theorem mem_mapSet {κ ν : Type} [DecidableEq κ] (m : List (κ × ν)) (k : κ) (v : ν) (e : κ × ν)
    (he : e ∈ mapSet m k v) : e = (k, v) ∨ e ∈ m := by
  unfold mapSet at he
  split at he
  · obtain ⟨e0, he0, rfl⟩ := List.mem_map.mp he
    by_cases hk : e0.1 = k
    · simp [hk]
    · simp [hk, he0]
  · rcases List.mem_append.mp he with h | h
    · exact Or.inr h
    · exact Or.inl (by simpa using h)

theorem mem_mapDelete {κ ν : Type} [DecidableEq κ] (m : List (κ × ν)) (k : κ) (e : κ × ν)
    (he : e ∈ mapDelete m k) : e ∈ m ∧ e.1 ≠ k := by
  unfold mapDelete at he
  obtain ⟨h1, h2⟩ := List.mem_filter.mp he
  exact ⟨h1, by simpa using h2⟩

theorem mem_of_lookup {κ ν : Type} [DecidableEq κ] (m : List (κ × ν)) (k : κ) (v : ν)
    (h : m.lookup k = some v) : (k, v) ∈ m := by
  induction m with
  | nil => simp at h
  | cons e rest ih =>
    obtain ⟨k1, v1⟩ := e
    by_cases hk : k = k1
    · subst hk
      simp [List.lookup_cons] at h
      simp [h]
    · have hb : (k == k1) = false := by simpa using hk
      simp only [List.lookup_cons, hb] at h
      exact List.mem_cons_of_mem _ (ih h)

theorem lookup_map_replace {κ ν : Type} [DecidableEq κ] (m : List (κ × ν)) (k : κ) (v : ν)
    (hin : (m.lookup k).isSome = true) :
    (m.map fun e => if e.1 = k then (k, v) else e).lookup k = some v := by
  induction m with
  | nil => simp at hin
  | cons e rest ih =>
    obtain ⟨k1, v1⟩ := e
    by_cases hk : k1 = k
    · subst hk
      simp [List.lookup_cons]
    · have hb : (k == k1) = false := by simpa using fun h : k = k1 => hk h.symm
      simp only [List.lookup_cons, hb] at hin
      simp [List.lookup_cons, hk, hb, ih hin]

theorem lookup_mapSet_self {κ ν : Type} [DecidableEq κ] (m : List (κ × ν)) (k : κ) (v : ν) :
    (mapSet m k v).lookup k = some v := by
  unfold mapSet
  split
  · rename_i hin
    exact lookup_map_replace m k v hin
  · rename_i hout
    apply lookup_append_new m k v
    cases hl : m.lookup k with
    | none => rfl
    | some old => simp [hl] at hout

theorem lookup_map_replace_other {κ ν : Type} [DecidableEq κ] (m : List (κ × ν)) (k k1 : κ)
    (v : ν) (hne : k1 ≠ k) :
    (m.map fun e => if e.1 = k then (k, v) else e).lookup k1 = m.lookup k1 := by
  induction m with
  | nil => rfl
  | cons e rest ih =>
    obtain ⟨k2, v2⟩ := e
    by_cases hk2 : k2 = k
    · subst hk2
      have hb : (k1 == k2) = false := by simpa using hne
      simp [List.lookup_cons, hb, ih]
    · cases hb : (k1 == k2) <;> simp [List.lookup_cons, hk2, hb, ih]

theorem lookup_mapSet_other {κ ν : Type} [DecidableEq κ] (m : List (κ × ν)) (k k1 : κ) (v : ν)
    (hne : k1 ≠ k) : (mapSet m k v).lookup k1 = m.lookup k1 := by
  unfold mapSet
  split
  · exact lookup_map_replace_other m k k1 v hne
  · exact lookup_append_other m k k1 v hne

theorem users_inv_handle (h : UserHandler) (a : UserAction) (bound : Int)
    (hinv : h.Inv bound) (hfit : bound < maxInt64) :
    (h.handle a).1.Inv (bound + 1) ∧ h.nextID ≤ (h.handle a).1.nextID ∧
    (∀ b u, a = .create b → (h.handle a).2 = .user 201 u →
      u.ID = h.nextID ∧ h.nextID < (h.handle a).1.nextID) := by
  obtain ⟨h1, h2, h3⟩ := hinv
  have hw : wrap64 (h.nextID + 1) = h.nextID + 1 := by
    apply RateLim.wrap64_of_isInt64
    unfold isInt64 minInt64 maxInt64
    unfold maxInt64 at hfit
    constructor <;> omega
  cases a with
  | create b =>
    cases b with
    | error e =>
      refine ⟨⟨h1, by simp only [UserHandler.handle, UserHandler.CreateUser]; omega, h3⟩,
        le_refl _, ?_⟩
      intro b u _ hr
      simp [UserHandler.handle, UserHandler.CreateUser] at hr
    | ok body =>
      refine ⟨⟨?_, ?_, ?_⟩, ?_, ?_⟩
      · simp only [UserHandler.handle, UserHandler.CreateUser, hw]
        omega
      · simp only [UserHandler.handle, UserHandler.CreateUser, hw]
        omega
      · intro k u hmem
        simp only [UserHandler.handle, UserHandler.CreateUser, hw] at hmem ⊢
        rcases mem_mapSet _ _ _ _ hmem with heq | hold
        · simp only [Prod.mk.injEq] at heq
          obtain ⟨rfl, rfl⟩ := heq
          exact ⟨rfl, h1, by omega⟩
        · obtain ⟨ha, hb, hc⟩ := h3 k u hold
          exact ⟨ha, hb, by omega⟩
      · simp only [UserHandler.handle, UserHandler.CreateUser, hw]
        omega
      · intro b u _ hr
        simp only [UserHandler.handle, UserHandler.CreateUser, UserReply.user.injEq,
          true_and] at hr
        subst hr
        simp only [UserHandler.handle, UserHandler.CreateUser, hw]
        exact ⟨trivial, by omega⟩
  | update id b =>
    refine ⟨?_, ?_, by intro b1 u hcontra; cases hcontra⟩
    · cases id with
      | none => exact ⟨h1, by simp only [UserHandler.handle, UserHandler.UpdateUser]; omega, h3⟩
      | some id =>
        simp only [UserHandler.handle, UserHandler.UpdateUser]
        cases hl : h.users.lookup id with
        | none => exact ⟨h1, by simp only [Option.isNone_none, if_true]; omega, h3⟩
        | some old =>
          have hmemold : (id, old) ∈ h.users := mem_of_lookup _ _ _ hl
          simp only [Option.isNone_some, Bool.false_eq_true, if_false]
          cases b with
          | error e => exact ⟨h1, by show h.nextID ≤ bound + 1; omega, h3⟩
          | ok body =>
            refine ⟨h1, by show h.nextID ≤ bound + 1; omega, ?_⟩
            intro k u hmem
            rcases mem_mapSet _ _ _ _ hmem with heq | hold
            · simp only [Prod.mk.injEq] at heq
              obtain ⟨rfl, rfl⟩ := heq
              obtain ⟨_, hb, hc⟩ := h3 k old hmemold
              exact ⟨rfl, hb, hc⟩
            · exact h3 k u hold
    · cases id with
      | none => exact le_refl _
      | some id =>
        simp only [UserHandler.handle, UserHandler.UpdateUser]
        split
        · exact le_refl _
        · cases b <;> exact le_refl _
  | delete id =>
    refine ⟨?_, ?_, by intro b1 u hcontra; cases hcontra⟩
    · cases id with
      | none => exact ⟨h1, by simp only [UserHandler.handle, UserHandler.DeleteUser]; omega, h3⟩
      | some id =>
        simp only [UserHandler.handle, UserHandler.DeleteUser]
        split
        · exact ⟨h1, by show h.nextID ≤ bound + 1; omega, h3⟩
        · refine ⟨h1, by show h.nextID ≤ bound + 1; omega, ?_⟩
          intro k u hmem
          exact h3 k u (mem_mapDelete _ _ _ hmem).1
    · cases id with
      | none => exact le_refl _
      | some id =>
        simp only [UserHandler.handle, UserHandler.DeleteUser]
        split <;> exact le_refl _

theorem users_inv_run (trace : List UserAction) (h : UserHandler) (bound : Int)
    (hinv : h.Inv bound) (hfit : bound + trace.length ≤ maxInt64) :
    (h.run trace).Inv (bound + trace.length) ∧
    (h.createdIDs trace).Pairwise (· < ·) ∧
    (∀ x ∈ h.createdIDs trace, h.nextID ≤ x) := by
  induction trace generalizing h bound with
  | nil => exact ⟨by simpa [UserHandler.run] using hinv, by simp [UserHandler.createdIDs],
      by simp [UserHandler.createdIDs]⟩
  | cons a rest ih =>
    simp only [List.length_cons, Nat.cast_add, Nat.cast_one] at hfit
    obtain ⟨hstep, hmono, hcreate⟩ := users_inv_handle h a bound hinv (by omega)
    obtain ⟨hrun, hpair, hlow⟩ := ih (h.handle a).1 (bound + 1) hstep (by omega)
    refine ⟨?_, ?_, ?_⟩
    · simp only [UserHandler.run, List.length_cons, Nat.cast_add, Nat.cast_one]
      have : bound + ((rest.length : Int) + 1) = bound + 1 + rest.length := by ring
      rw [this]
      exact hrun
    · unfold UserHandler.createdIDs
      split
      · rename_i b u hreply
        obtain ⟨hid, hlt⟩ := hcreate b u rfl hreply
        rw [List.pairwise_cons]
        refine ⟨?_, hpair⟩
        intro x hx
        have := hlow x hx
        omega
      · exact hpair
    · intro x hx
      unfold UserHandler.createdIDs at hx
      split at hx
      · rename_i b u hreply
        obtain ⟨hid, hlt⟩ := hcreate b u rfl hreply
        rcases List.mem_cons.mp hx with rfl | hx
        · omega
        · have := hlow x hx
          omega
      · have := hlow x hx
        omega

end Handlers

/-! ## Lemmas on the rate-limit middleware -/

namespace Middleware

open GoRt Handlers

theorem timeSub_le_window (t last window : Int) (h0 : last ≤ t) (hw : t - last ≤ window) :
    ¬ timeSub t last > window := by
  unfold timeSub maxInt64 minInt64
  split
  · omega
  · split <;> omega

theorem lookup_filter_keep {ν : Type} (m : List (String × ν)) (p : String × ν → Bool)
    (k : String) (v : ν) (hlook : m.lookup k = some v) (hkeep : p (k, v) = true) :
    (m.filter p).lookup k = some v := by
  induction m with
  | nil => simp at hlook
  | cons e rest ih =>
    obtain ⟨k1, v1⟩ := e
    by_cases hk : k = k1
    · subst hk
      simp only [List.lookup_cons, beq_self_eq_true, Option.some.injEq] at hlook
      subst hlook
      simp [List.filter_cons, hkeep, List.lookup_cons]
    · have hb : (k == k1) = false := by simpa using hk
      simp only [List.lookup_cons, hb] at hlook
      by_cases hp : p (k1, v1) = true
      · simp [List.filter_cons, hp, List.lookup_cons, hb, ih hlook]
      · simp [List.filter_cons, hp, ih hlook]

theorem lookup_filter_none {ν : Type} (m : List (String × ν)) (p : String × ν → Bool)
    (k : String) (hlook : m.lookup k = none) : (m.filter p).lookup k = none := by
  induction m with
  | nil => rfl
  | cons e rest ih =>
    obtain ⟨k1, v1⟩ := e
    by_cases hk : k = k1
    · subst hk
      simp [List.lookup_cons] at hlook
    · have hb : (k == k1) = false := by simpa using hk
      simp only [List.lookup_cons, hb] at hlook
      by_cases hp : p (k1, v1) = true
      · simp [List.filter_cons, hp, List.lookup_cons, hb, ih hlook]
      · simp [List.filter_cons, hp, ih hlook]

theorem Middleware_other (rl : RateLimiter) (ip ip1 : String) (t1 t2 : Int) (hne : ip1 ≠ ip) :
    (rl.Middleware ip1 t1 t2).1.visitors.lookup ip = rl.visitors.lookup ip ∧
    (rl.Middleware ip1 t1 t2).1.limit = rl.limit ∧
    (rl.Middleware ip1 t1 t2).1.window = rl.window := by
  have hne' : ip ≠ ip1 := fun h => hne h.symm
  unfold RateLimiter.Middleware
  split
  · exact ⟨lookup_mapSet_other _ _ _ _ hne', rfl, rfl⟩
  · split
    · exact ⟨lookup_mapSet_other _ _ _ _ hne', rfl, rfl⟩
    · split
      · exact ⟨rfl, rfl, rfl⟩
      · exact ⟨lookup_mapSet_other _ _ _ _ hne', rfl, rfl⟩

theorem Middleware_own (limit window : Int) (ip : String) (rl : RateLimiter) (prev t1 t2 : Int)
    (k : Nat) (hlimit : 1 ≤ limit) (hfit : limit ≤ maxInt64)
    (hinv : LimInv limit window ip rl prev k) (hprev : prev ≤ t1) (ht : t1 ≤ t2)
    (hwin : withinWindow rl ip t1) :
    (rl.Middleware ip t1 t2).2 = expected limit k ∧
    LimInv limit window ip (rl.Middleware ip t1 t2).1 t2 (k + 1) := by
  obtain ⟨hl, hw, hzero, hpos⟩ := hinv
  cases k with
  | zero =>
    have hnone := hzero rfl
    have hM : rl.Middleware ip t1 t2
        = (⟨mapSet rl.visitors ip ⟨t1, 1⟩, rl.limit, rl.window⟩, .next []) := by
      simp only [RateLimiter.Middleware, hnone]
    rw [hM]
    refine ⟨?_, hl, hw, ?_, ?_⟩
    · simp only [expected]
      rw [if_pos (by simpa using hlimit)]
    · intro h
      omega
    · intro _
      refine ⟨{ lastSeen := t1, count := 1 }, lookup_mapSet_self _ _ _, ?_, ht⟩
      simp only [Nat.zero_add, Nat.cast_one]
      omega
  | succ n =>
    obtain ⟨v, hv, hcount, hseen⟩ := hpos (by omega)
    have hwin' : t1 - v.lastSeen ≤ window := by
      unfold withinWindow at hwin
      rw [hv] at hwin
      rw [← hw]
      exact hwin
    have hnot : ¬ timeSub t1 v.lastSeen > rl.window := by
      rw [hw]
      exact timeSub_le_window t1 v.lastSeen window (by omega) hwin'
    by_cases hfull : v.count ≥ rl.limit
    · have hk : ¬ ((n + 1 : Nat) : Int) < limit := by
        rw [hl] at hfull
        omega
      have hM : rl.Middleware ip t1 t2 = (rl, .aborted 429 "Rate Limit exceeded") := by
        simp only [RateLimiter.Middleware, hv, hnot, hfull, if_true, if_false]
      rw [hM]
      refine ⟨?_, hl, hw, ?_, ?_⟩
      · simp only [expected]
        rw [if_neg hk]
      · intro h
        omega
      · intro _
        refine ⟨v, hv, ?_, by omega⟩
        rw [hcount]
        rw [hcount, hl] at hfull
        push_cast at hk hfull ⊢
        omega
    · have hk : ((n + 1 : Nat) : Int) < limit := by
        rw [hl] at hfull
        omega
      have hwrap : wrap64 (v.count + 1) = v.count + 1 := by
        apply RateLim.wrap64_of_isInt64
        unfold isInt64 minInt64 maxInt64
        unfold maxInt64 at hfit
        rw [hl] at hfull
        push_cast at hk hcount
        constructor <;> omega
      have hM : rl.Middleware ip t1 t2
          = (⟨mapSet rl.visitors ip ⟨t2, v.count + 1⟩, rl.limit, rl.window⟩, .next []) := by
        simp only [RateLimiter.Middleware, hv, hnot, hfull, if_false, hwrap]
      rw [hM]
      refine ⟨?_, hl, hw, ?_, ?_⟩
      · simp only [expected]
        rw [if_pos hk]
      · intro h
        omega
      · intro _
        refine ⟨{ lastSeen := t2, count := v.count + 1 }, lookup_mapSet_self _ _ _, ?_,
          le_refl _⟩
        simp only
        rw [hcount]
        push_cast at hk ⊢
        omega

theorem verdicts_nil (ip : String) (trace : List LimAction) (rl : RateLimiter)
    (hnone : requestsOf ip trace = 0) : rl.verdicts ip trace = [] := by
  induction trace generalizing rl with
  | nil => rfl
  | cons a rest ih =>
    cases a with
    | request ip1 t1 t2 =>
      by_cases hip : ip1 = ip
      · simp [requestsOf, hip] at hnone
      · simp only [requestsOf, hip, if_false] at hnone
        simp only [RateLimiter.verdicts, hip, if_false]
        exact ih _ hnone
    | sweep reading =>
      simp only [requestsOf] at hnone
      simp only [RateLimiter.verdicts]
      exact ih _ hnone

theorem verdicts_of_timely (limit window : Int) (ip : String) (hlimit : 1 ≤ limit)
    (hfit : limit ≤ maxInt64) (trace : List LimAction) (rl : RateLimiter) (prev : Int) (k : Nat)
    (hinv : LimInv limit window ip rl prev k) (htimely : Timely ip rl prev trace) :
    rl.verdicts ip trace = (List.range' k (requestsOf ip trace)).map (expected limit) := by
  induction trace generalizing rl prev k with
  | nil => simp [RateLimiter.verdicts, requestsOf]
  | cons a rest ih =>
    cases a with
    | request ip1 t1 t2 =>
      obtain ⟨hprev, ht, hwin, hrest⟩ := htimely
      by_cases hip : ip1 = ip
      · subst hip
        obtain ⟨hverdict, hnext⟩ :=
          Middleware_own limit window ip1 rl prev t1 t2 k hlimit hfit hinv hprev ht (hwin rfl)
        have hv := ih _ t2 (k + 1) hnext hrest
        simp only [RateLimiter.verdicts, requestsOf, if_true, hverdict, hv]
        rw [List.range'_succ, List.map_cons]
      · obtain ⟨hlook, hlim, hwindow⟩ := Middleware_other rl ip ip1 t1 t2 hip
        obtain ⟨hl0, hw0, hzero, hpos⟩ := hinv
        have hnext : LimInv limit window ip (rl.Middleware ip1 t1 t2).1 t2 k := by
          refine ⟨by rw [hlim, hl0], by rw [hwindow, hw0], ?_, ?_⟩
          · intro h0
            rw [hlook]
            exact hzero h0
          · intro hk
            obtain ⟨v, hv, hc, hs⟩ := hpos hk
            exact ⟨v, by rw [hlook, hv], hc, by omega⟩
        have hv := ih _ t2 k hnext hrest
        simp only [RateLimiter.verdicts, requestsOf, hip, if_false, hv]
    | sweep reading =>
      obtain ⟨hprev, hwin, hrest⟩ := htimely
      by_cases hreq : requestsOf ip rest = 0
      · simp only [RateLimiter.verdicts, requestsOf, hreq, List.range'_zero, List.map_nil]
        exact verdicts_nil ip rest _ hreq
      · obtain ⟨hl0, hw0, hzero, hpos⟩ := hinv
        have hnext : LimInv limit window ip (rl.sweep reading) (reading ip) k := by
          refine ⟨hl0, hw0, ?_, ?_⟩
          · intro h0
            exact lookup_filter_none _ _ _ (hzero h0)
          · intro hk
            obtain ⟨v, hv, hc, hs⟩ := hpos hk
            refine ⟨v, ?_, hc, by omega⟩
            apply lookup_filter_keep _ _ _ _ hv
            have hwin' : reading ip - v.lastSeen ≤ rl.window := by
              have hw1 := hwin hreq
              unfold withinWindow at hw1
              rw [hv] at hw1
              exact hw1
            have := timeSub_le_window (reading ip) v.lastSeen rl.window (by omega) hwin'
            simpa using this
        have hv := ih _ (reading ip) k hnext hrest
        simp only [RateLimiter.verdicts, requestsOf, hv]

theorem counts_within_limit (limit : Int) (hlimit : 1 ≤ limit) (hfit : limit ≤ maxInt64)
    (trace : List LimAction) (rl : RateLimiter) (hl : rl.limit = limit)
    (hall : ∀ e ∈ rl.visitors, 1 ≤ e.2.count ∧ e.2.count ≤ limit) :
    ∀ e ∈ (rl.run trace).visitors, 1 ≤ e.2.count ∧ e.2.count ≤ limit := by
  induction trace generalizing rl with
  | nil => exact hall
  | cons a rest ih =>
    simp only [RateLimiter.run]
    cases a with
    | request ip t1 t2 =>
      apply ih
      · simp only [RateLimiter.step, RateLimiter.Middleware]
        split
        · exact hl
        · split
          · exact hl
          · split <;> exact hl
      · intro e he
        simp only [RateLimiter.step, RateLimiter.Middleware] at he
        split at he
        · rcases mem_mapSet _ _ _ _ he with rfl | hold
          · exact ⟨le_refl _, hlimit⟩
          · exact hall e hold
        · rename_i v hv
          split at he
          · rcases mem_mapSet _ _ _ _ he with rfl | hold
            · exact ⟨le_refl _, hlimit⟩
            · exact hall e hold
          · split at he
            · exact hall e he
            · rename_i hfull
              rcases mem_mapSet _ _ _ _ he with rfl | hold
              · have hvin : 1 ≤ v.count ∧ v.count ≤ limit :=
                  hall (ip, v) (mem_of_lookup _ _ _ hv)
                have hwrap : wrap64 (v.count + 1) = v.count + 1 := by
                  apply RateLim.wrap64_of_isInt64
                  unfold isInt64 minInt64 maxInt64
                  unfold maxInt64 at hfit
                  constructor <;> omega
                simp only [hwrap]
                rw [hl] at hfull
                omega
              · exact hall e hold
    | sweep reading =>
      apply ih
      · exact hl
      · intro e he
        simp only [RateLimiter.step, RateLimiter.sweep] at he
        exact hall e (List.mem_filter.mp he).1

end Middleware

/-! ## Lemmas on the task list -/

namespace Tasks

open GoRt

theorem SaveTasks_ok (d d1 : Disk) (tasks : List Task) (h : SaveTasks d tasks = (d1, none)) :
    d1.file = .holds tasks none := by
  unfold SaveTasks at h
  cases hw : d.writeFault with
  | none =>
    rw [hw] at h
    simp only [Prod.mk.injEq, and_true] at h
    rw [← h]
  | some fault =>
    obtain ⟨err, left⟩ := fault
    rw [hw] at h
    simp at h

theorem mark_map_ID (id : Int) (tasks marked : List Task)
    (h : CompletedTask.mark id tasks = some marked) :
    marked.map Task.ID = tasks.map Task.ID ∧ marked.map Task.Title = tasks.map Task.Title := by
  induction tasks generalizing marked with
  | nil => simp [CompletedTask.mark] at h
  | cons t rest ih =>
    by_cases ht : t.ID = id
    · simp only [CompletedTask.mark, ht, if_true, Option.some.injEq] at h
      subst h
      exact ⟨by simp [ht], by simp⟩
    · simp only [CompletedTask.mark, ht, if_false, Option.map_eq_some'] at h
      obtain ⟨done, hdone, rfl⟩ := h
      obtain ⟨h1, h2⟩ := ih done hdone
      simp [h1, h2]

theorem Increasing_of_map_ID (tasks other : List Task)
    (hmap : other.map Task.ID = tasks.map Task.ID) (hinc : Increasing tasks) :
    Increasing other := by
  unfold Increasing at *
  have h1 : (tasks.map Task.ID).Pairwise (· < ·) := List.pairwise_map.mpr hinc
  rw [← hmap] at h1
  exact List.pairwise_map.mp h1

theorem remove_eq_filter (id : Int) (tasks kept : List Task) (hinc : Increasing tasks)
    (h : DeleteTask.remove id tasks = some kept) :
    kept = tasks.filter (fun t => decide (t.ID ≠ id)) ∧ ∃ t ∈ tasks, t.ID = id := by
  induction tasks generalizing kept with
  | nil => simp [DeleteTask.remove] at h
  | cons t rest ih =>
    unfold Increasing at hinc
    obtain ⟨hhead, hrest⟩ := List.pairwise_cons.mp hinc
    by_cases ht : t.ID = id
    · simp only [DeleteTask.remove, ht, if_true, Option.some.injEq] at h
      subst h
      refine ⟨?_, t, List.mem_cons_self _ _, ht⟩
      have hall : ∀ u ∈ rest, decide (u.ID ≠ id) = true := by
        intro u hu
        have := hhead u hu
        simp only [ne_eq, decide_eq_true_eq]
        omega
      rw [List.filter_cons_of_neg (by simp [ht])]
      exact (List.filter_eq_self.mpr hall).symm
    · simp only [DeleteTask.remove, ht, if_false, Option.map_eq_some'] at h
      obtain ⟨kept1, hkept1, rfl⟩ := h
      obtain ⟨hfilter, u, hu, hid⟩ := ih kept1 hrest hkept1
      refine ⟨?_, u, List.mem_cons_of_mem _ hu, hid⟩
      rw [List.filter_cons_of_pos (by simp [ht]), hfilter]

theorem getLast_is_largest (tasks : List Task) (last : Task) (hinc : Increasing tasks)
    (hlast : tasks.getLast? = some last) : ∀ t ∈ tasks, t.ID ≤ last.ID := by
  induction tasks with
  | nil => simp at hlast
  | cons t rest ih =>
    unfold Increasing at hinc
    obtain ⟨hhead, hrest⟩ := List.pairwise_cons.mp hinc
    cases rest with
    | nil =>
      simp only [List.getLast?_singleton, Option.some.injEq] at hlast
      subst hlast
      intro u hu
      simp only [List.mem_singleton] at hu
      subst hu
      exact le_refl _
    | cons r more =>
      have hlast1 : (r :: more).getLast? = some last := by
        simpa [List.getLast?_cons_cons] using hlast
      have hmem : last ∈ r :: more := List.mem_of_getLast?_eq_some hlast1
      intro u hu
      rcases List.mem_cons.mp hu with rfl | hu
      · exact le_of_lt (hhead last hmem)
      · exact ih hrest hlast1 u hu

end Tasks

/-! ## Lemmas on `BuildTree` -/

namespace Trees

open GoRt

theorem modify_at_length {α : Type} (f : α → α) (done : List α) (x : α) (rest : List α) :
    (done ++ x :: rest).modify f done.length = done ++ f x :: rest := by
  induction done with
  | nil => rfl
  | cons d done ih =>
    simp only [List.cons_append, List.length_cons, List.modify_succ_cons, ih]

theorem get_int (vs : List Int) (i : Nat) (hi : i < vs.length) :
    (vs.map Value.int).get? i = some (.int (vs.getD i 0)) := by
  simp [List.getD, List.getElem?_eq_getElem hi]

theorem child_alloc (vs : List Int) (i j : Nat) (left : Bool) (done rest : List TreeNode)
    (x : TreeNode) (queue : List Nat) (hi : i < vs.length) (hj : done.length = j)
    (hlen : (done ++ x :: rest).length = i) :
    BuildTree.child (vs.map Value.int) i (done ++ x :: rest) queue j left
      = .ok (done ++ (if left then { x with Left := some i } else { x with Right := some i })
          :: (rest ++ [bareAt vs i]), queue ++ [i]) := by
  unfold BuildTree.child
  rw [get_int vs i hi]
  simp only [hlen]
  have happ : done ++ x :: rest ++ [{ Val := vs.getD i 0, Left := none, Right := none }]
      = done ++ x :: (rest ++ [bareAt vs i]) := by
    simp [bareAt]
  rw [happ, ← hj, modify_at_length]

theorem child_skip (vs : List Int) (i j : Nat) (left : Bool) (heap : Heap) (queue : List Nat)
    (hi : ¬ i < vs.length) :
    BuildTree.child (vs.map Value.int) i heap queue j left = .ok (heap, queue) := by
  unfold BuildTree.child
  have : (vs.map Value.int).get? i = none := by
    simp only [List.get?_eq_getElem?]
    apply List.getElem?_eq_none
    simp only [List.length_map]
    omega
  rw [this]

theorem bareAt_eq_nodeAt (vs : List Int) (a : Nat) (ha : vs.length ≤ 2 * a + 1) :
    bareAt vs a = nodeAt vs a := by
  have h1 : ¬ 2 * a + 1 < vs.length := by omega
  have h2 : ¬ 2 * a + 2 < vs.length := by omega
  simp [bareAt, nodeAt, childAt, h1, h2]

theorem heapAt_final (vs : List Int) (j : Nat) (hj : j ≤ vs.length)
    (hend : vs.length ≤ 2 * j + 1) : heapAt vs j = treeOf vs := by
  unfold heapAt treeOf
  have hmin : min vs.length (2 * j + 1) = vs.length := Nat.min_eq_left hend
  rw [hmin]
  have hbare : (List.range' j (vs.length - j)).map (bareAt vs)
      = (List.range' j (vs.length - j)).map (nodeAt vs) := by
    apply List.map_congr_left
    intro a ha
    have := (List.mem_range'_1.mp ha).1
    exact bareAt_eq_nodeAt vs a (by omega)
  rw [hbare, ← List.map_append, List.range_eq_range']
  congr 1
  have := List.range'_append 0 j (vs.length - j) 1
  simp only [Nat.zero_add, Nat.one_mul] at this
  rw [this, List.range_eq_range', Nat.sub_add_cancel hj]

theorem heapAt_open (vs : List Int) (j : Nat) (hmore : 2 * j + 1 < vs.length) :
    heapAt vs j = (List.range j).map (nodeAt vs) ++
      bareAt vs j :: (List.range' (j + 1) j).map (bareAt vs) := by
  unfold heapAt
  have hmin : min vs.length (2 * j + 1) - j = j + 1 := by omega
  rw [hmin]
  rw [List.range'_succ, List.map_cons]

theorem heapAt_length (vs : List Int) (j : Nat) (hj : j < vs.length) :
    (heapAt vs j).length = min vs.length (2 * j + 1) := by
  unfold heapAt
  simp only [List.length_append, List.length_map, List.length_range, List.length_range']
  omega

theorem heapAt_step_both (vs : List Int) (j : Nat) (hmore : 2 * j + 2 < vs.length) :
    (List.range j).map (nodeAt vs) ++
        { Val := vs.getD j 0, Left := some (2 * j + 1), Right := some (2 * j + 1 + 1) } ::
          ((List.range' (j + 1) j).map (bareAt vs) ++ [bareAt vs (2 * j + 1)] ++
            [bareAt vs (2 * j + 1 + 1)])
      = heapAt vs (j + 1) := by
  unfold heapAt
  have hmin : min vs.length (2 * (j + 1) + 1) - (j + 1) = j + 1 + 1 := by
    rw [Nat.min_eq_right (by omega)]
    omega
  have hnode : nodeAt vs j
      = { Val := vs.getD j 0, Left := some (2 * j + 1), Right := some (2 * j + 1 + 1) } := by
    have h1 : 2 * j + 1 < vs.length := by omega
    simp [nodeAt, childAt, h1, hmore]
  rw [hmin, List.range_succ, List.map_append, List.map_singleton, hnode, List.range'_concat,
    List.range'_concat, List.map_append, List.map_append]
  simp only [List.append_assoc, List.singleton_append, List.map_singleton, Nat.one_mul]
  congr 4
  · congr 1
    omega
  · congr 2
    omega

theorem heapAt_step_left (vs : List Int) (j : Nat) (hmore : 2 * j + 1 < vs.length)
    (hlast : ¬ 2 * j + 1 + 1 < vs.length) :
    (List.range j).map (nodeAt vs) ++
        { Val := vs.getD j 0, Left := some (2 * j + 1), Right := none } ::
          ((List.range' (j + 1) j).map (bareAt vs) ++ [bareAt vs (2 * j + 1)])
      = heapAt vs (j + 1) := by
  unfold heapAt
  have hmin : min vs.length (2 * (j + 1) + 1) - (j + 1) = j + 1 := by
    rw [Nat.min_eq_left (by omega)]
    omega
  have hnode : nodeAt vs j
      = { Val := vs.getD j 0, Left := some (2 * j + 1), Right := none } := by
    have h2 : ¬ 2 * j + 2 < vs.length := by omega
    simp [nodeAt, childAt, hmore, h2]
  rw [hmin, List.range_succ, List.map_append, List.map_singleton, hnode, List.range'_concat,
    List.map_append]
  simp only [List.append_assoc, List.singleton_append, List.map_singleton, Nat.one_mul]
  congr 4
  congr 1
  omega

theorem loop_exit (values : List Value) (fuel : Nat) (heap : Heap) (node : Nat)
    (queue : List Nat) (i : Nat) (hend : ¬ i < values.length) :
    BuildTree.loop values fuel heap (node :: queue) i = some (.ok heap) := by
  cases fuel <;> simp [BuildTree.loop, hend]

theorem loop_round (values : List Value) (fuel : Nat) (heap heap1 heap2 : Heap) (node : Nat)
    (queue queue1 queue2 : List Nat) (i : Nat) (hmore : i < values.length)
    (hleft : BuildTree.child values i heap queue node true = .ok (heap1, queue1))
    (hright : BuildTree.child values (i + 1) heap1 queue1 node false = .ok (heap2, queue2)) :
    BuildTree.loop values (fuel + 1) heap (node :: queue) i
      = BuildTree.loop values fuel heap2 queue2 (i + 1 + 1) := by
  simp [BuildTree.loop, hmore, hleft, hright]

theorem loop_spec (vs : List Int) (fuel : Nat) : ∀ j : Nat, j < vs.length →
    vs.length ≤ 2 * j + 1 + 2 * fuel →
    BuildTree.loop (vs.map Value.int) fuel (heapAt vs j)
        (List.range' j (min vs.length (2 * j + 1) - j)) (2 * j + 1)
      = some (.ok (treeOf vs)) := by
  induction fuel with
  | zero =>
    intro j hj hfuel
    have hq : min vs.length (2 * j + 1) - j = (vs.length - j - 1) + 1 := by
      rw [Nat.min_eq_left (by omega)]
      omega
    rw [hq, List.range'_succ, loop_exit _ _ _ _ _ _ (by simp only [List.length_map]; omega),
      heapAt_final vs j (by omega) (by omega)]
  | succ fuel ih =>
    intro j hj hfuel
    by_cases hmore : 2 * j + 1 < vs.length
    · have hq : min vs.length (2 * j + 1) - j = j + 1 := by
        rw [Nat.min_eq_right (by omega)]
        omega
      have hlen0 : ((List.range j).map (nodeAt vs)).length = j := by simp
      have hleft := child_alloc vs (2 * j + 1) j true ((List.range j).map (nodeAt vs))
        ((List.range' (j + 1) j).map (bareAt vs)) (bareAt vs j) (List.range' (j + 1) j) hmore
        hlen0 (by simp; omega)
      rw [hq, List.range'_succ, heapAt_open vs j hmore]
      by_cases hboth : 2 * j + 1 + 1 < vs.length
      · have hright := child_alloc vs (2 * j + 1 + 1) j false ((List.range j).map (nodeAt vs))
          ((List.range' (j + 1) j).map (bareAt vs) ++ [bareAt vs (2 * j + 1)])
          { Val := vs.getD j 0, Left := some (2 * j + 1), Right := none }
          (List.range' (j + 1) j ++ [2 * j + 1]) hboth hlen0 (by simp; omega)
        refine (loop_round _ fuel _ _ _ _ _ _ _ _ (by simp only [List.length_map]; omega)
          hleft hright).trans ?_
        have hqueue : List.range' (j + 1) j ++ [2 * j + 1] ++ [2 * j + 1 + 1]
            = List.range' (j + 1) (min vs.length (2 * (j + 1) + 1) - (j + 1)) := by
          rw [Nat.min_eq_right (by omega)]
          have : 2 * (j + 1) + 1 - (j + 1) = j + 1 + 1 := by omega
          have e1 : j + 1 + 1 * j = 2 * j + 1 := by omega
          have e2 : j + 1 + 1 * (j + 1) = 2 * j + 1 + 1 := by omega
          rw [this, List.range'_concat, List.range'_concat, e1, e2]
        have key := ih (j + 1) (by omega) (by omega)
        rw [← hqueue, ← heapAt_step_both vs j (by omega)] at key
        exact key
      · have hright := child_skip vs (2 * j + 1 + 1) j false
          ((List.range j).map (nodeAt vs) ++
            { Val := vs.getD j 0, Left := some (2 * j + 1), Right := none } ::
              ((List.range' (j + 1) j).map (bareAt vs) ++ [bareAt vs (2 * j + 1)]))
          (List.range' (j + 1) j ++ [2 * j + 1]) hboth
        refine (loop_round _ fuel _ _ _ _ _ _ _ _ (by simp only [List.length_map]; omega)
          hleft hright).trans ?_
        have hqueue : List.range' (j + 1) j ++ [2 * j + 1]
            = List.range' (j + 1) (min vs.length (2 * (j + 1) + 1) - (j + 1)) := by
          rw [Nat.min_eq_left (by omega)]
          have : vs.length - (j + 1) = j + 1 := by omega
          have e1 : j + 1 + 1 * j = 2 * j + 1 := by omega
          rw [this, List.range'_concat, e1]
        have key := ih (j + 1) (by omega) (by omega)
        rw [← hqueue, ← heapAt_step_left vs j hmore hboth] at key
        exact key
    · have hq : min vs.length (2 * j + 1) - j = (vs.length - j - 1) + 1 := by
        rw [Nat.min_eq_left (by omega)]
        omega
      rw [hq, List.range'_succ, loop_exit _ _ _ _ _ _ (by simp only [List.length_map]; omega),
        heapAt_final vs j (by omega) (by omega)]

theorem treeOf_get (vs : List Int) (k : Nat) (hk : k < vs.length) :
    (treeOf vs).get? k = some (nodeAt vs k) := by
  unfold treeOf
  simp [List.getElem?_map, List.getElem?_range hk]

theorem queue_next (vs : List Int) (k : Nat) :
    List.range' (k + 1) (min vs.length (2 * k + 1) - k - 1) ++
        (childAt vs.length (2 * k + 1)).toList ++ (childAt vs.length (2 * k + 2)).toList
      = List.range' (k + 1) (min vs.length (2 * (k + 1) + 1) - (k + 1)) := by
  unfold childAt
  by_cases h1 : 2 * k + 1 < vs.length
  · by_cases h2 : 2 * k + 2 < vs.length
    · have ha : min vs.length (2 * k + 1) - k - 1 = k := by
        rw [Nat.min_eq_right (by omega)]
        omega
      have hb : min vs.length (2 * (k + 1) + 1) - (k + 1) = k + 1 + 1 := by
        rw [Nat.min_eq_right (by omega)]
        omega
      have e1 : k + 1 + 1 * k = 2 * k + 1 := by omega
      have e2 : k + 1 + 1 * (k + 1) = 2 * k + 2 := by omega
      rw [ha, hb, List.range'_concat, List.range'_concat, e1, e2]
      simp [h1, h2]
    · have ha : min vs.length (2 * k + 1) - k - 1 = k := by
        rw [Nat.min_eq_right (by omega)]
        omega
      have hb : min vs.length (2 * (k + 1) + 1) - (k + 1) = k + 1 := by
        rw [Nat.min_eq_left (by omega)]
        omega
      have e1 : k + 1 + 1 * k = 2 * k + 1 := by omega
      rw [ha, hb, List.range'_concat, e1]
      simp [h1, h2]
  · have h2 : ¬ 2 * k + 2 < vs.length := by omega
    have ha : min vs.length (2 * k + 1) - k - 1 = vs.length - (k + 1) := by
      rw [Nat.min_eq_left (by omega)]
      omega
    have hb : min vs.length (2 * (k + 1) + 1) - (k + 1) = vs.length - (k + 1) := by
      rw [Nat.min_eq_left (by omega)]
    rw [ha, hb]
    simp [h1, h2]

theorem levelOrder_go_spec (vs : List Int) (fuel : Nat) : ∀ k : Nat, k ≤ vs.length →
    vs.length - k ≤ fuel →
    levelOrder.go (treeOf vs) fuel (List.range' k (min vs.length (2 * k + 1) - k))
      = vs.drop k := by
  induction fuel with
  | zero =>
    intro k hk hfuel
    have : k = vs.length := by omega
    subst this
    simp [levelOrder.go]
  | succ fuel ih =>
    intro k hk hfuel
    by_cases hlt : k < vs.length
    · have hq : min vs.length (2 * k + 1) - k = (min vs.length (2 * k + 1) - k - 1) + 1 := by
        have : k + 1 ≤ min vs.length (2 * k + 1) := by
          rw [Nat.le_min]
          omega
        omega
      rw [hq, List.range'_succ]
      simp only [levelOrder.go, treeOf_get vs k hlt]
      have hq2 := queue_next vs k
      simp only [nodeAt] at hq2 ⊢
      rw [hq2, ih (k + 1) (by omega) (by omega)]
      have hval : vs.getD k 0 = vs[k] := by
        simp [List.getD, List.getElem?_eq_getElem hlt]
      rw [hval]
      exact (List.drop_eq_getElem_cons hlt).symm
    · have : k = vs.length := by omega
      subst this
      simp [levelOrder.go]

end Trees

/-! ## Claims on `WorkerPool` -/

namespace ProdPool

open GoRt

theorem inv_run (n q : Int) (wp : WorkerPool) (trace : List Action)
    (h : NewWorkerPool n q = .ok wp) : Inv (run wp trace) :=
  inv_exec _ trace (inv_started n q wp h)

theorem cancel_of_cancelled (wp : WorkerPool) (h : wp.cancelled = true) : cancel wp = wp := by
  cases wp
  simp_all [cancel]

/-- C1 as stated fails: on the pool of `main`, after `Stop()` has run to its
end with all three workers gone, a second `Stop()` panics with "close of closed
channel". -/
theorem second_Stop_panics_on_main_pool :
    NewWorkerPool 3 10 = .ok pool3x10 ∧
    (run pool3x10 shutdown3).stopPc = .returned ∧
    (run pool3x10 shutdown3).panicked = none ∧
    Stop (run pool3x10 shutdown3).wp = .panic .closeOfClosedChannel := by
  decide

/-- C1 amended: `Stop()` is call-once.  After a first `Stop()` has returned, a
second call fires the cancellation again without effect and then panics at
`close(wp.jobs)`; it never reaches `close(wp.results)`, so no channel is closed
a second time. -/
theorem second_Stop_panics_at_close_jobs (n q : Int) (wp : WorkerPool) (trace : List Action)
    (hnew : NewWorkerPool n q = .ok wp) (hret : (run wp trace).stopPc = .returned) :
    cancel (run wp trace).wp = (run wp trace).wp ∧
    closeJobs (cancel (run wp trace).wp) = .panic .closeOfClosedChannel ∧
    Stop (run wp trace).wp = .panic .closeOfClosedChannel := by
  have hf := (inv_run n q wp trace hnew).flags
  rw [hret] at hf
  simp only [StopFlags] at hf
  have hc := cancel_of_cancelled _ hf.1
  refine ⟨hc, ?_, ?_⟩
  · rw [hc]
    simp [closeJobs, Chan.close, hf.2.1, Outcome.bind]
  · unfold Stop
    rw [hc]
    simp [closeJobs, Chan.close, hf.2.1, Outcome.bind]

/-- Witness for `second_Stop_panics_at_close_jobs`: the pool of `main` after a
complete shutdown. -/
theorem second_Stop_panics_at_close_jobs_witness :
    NewWorkerPool 3 10 = .ok pool3x10 ∧ (run pool3x10 shutdown3).stopPc = .returned ∧
    (cancel (run pool3x10 shutdown3).wp = (run pool3x10 shutdown3).wp ∧
     closeJobs (cancel (run pool3x10 shutdown3).wp) = .panic .closeOfClosedChannel ∧
     Stop (run pool3x10 shutdown3).wp = .panic .closeOfClosedChannel) :=
  ⟨by decide, by decide,
    second_Stop_panics_at_close_jobs 3 10 pool3x10 shutdown3 (by decide) (by decide)⟩

/-- C2 fails on the code: on the pool of `main` after `Stop()` has returned,
`Submit` panics with "send on closed channel" when its `select` polls the send
clause first, and returns the shutting-down error when it polls the
cancellation clause first. -/
theorem Submit_after_Stop_panics_or_fails :
    (run pool3x10 shutdown3).stopPc = .returned ∧
    Submit (run pool3x10 shutdown3).wp job1 .commFirst = .panic .sendOnClosedChannel ∧
    Submit (run pool3x10 shutdown3).wp job1 .doneFirst
      = .ok ((run pool3x10 shutdown3).wp, some errShuttingDown) := by
  decide

/-- C3 as stated fails when `Start()` is called after `Stop()`: on
`NewWorkerPool(1, 1)` one job is queued and `Stop()` runs to its end, closing
the results channel; the worker that `Start()` then launches takes the job,
stands at its inner `select` with the results channel closed, and panics with
"send on closed channel" when it polls the send clause first. -/
theorem late_Start_worker_sends_on_closed_results :
    NewWorkerPool 1 1 = .ok pool1x1 ∧
    (exec (boot pool1x1) queuedThenStopped).stopPc = .returned ∧
    (exec (boot pool1x1) queuedThenStopped).wp.results.closed = true ∧
    (runAfter pool1x1 queuedThenStopped [.worker 0 .commFirst]).workers
      = [.publishing (ProcessJob job1)] ∧
    (runAfter pool1x1 queuedThenStopped [.worker 0 .commFirst]).wp.results.closed = true ∧
    (runAfter pool1x1 queuedThenStopped [.worker 0 .commFirst, .worker 0 .commFirst]).panicked
      = some (.worker 0, .sendOnClosedChannel) := by
  decide

/-- C3 amended: in every execution in which `Stop()` has not been called when
`Start()` is called, whatever was submitted before and whatever the schedule
afterwards, each statement of the one `Stop()` call does what C3 says, in that
order: it fires the cancellation, then closes the jobs channel, then stays
parked until every worker has returned, then closes the results channel.  So
the flags follow the position of the call, the results channel is closed only
with the cancellation fired, the jobs channel closed and every worker returned,
a worker that is about to send finds the results channel open, and neither a
worker nor `Stop()` ever panics.  On the new pool `Stop()` as a whole returns
with the cancellation fired and both channels closed. -/
theorem Stop_order_keeps_results_open_for_workers (n q : Int) (wp : WorkerPool)
    (before after : List Action) (hnew : NewWorkerPool n q = .ok wp)
    (hbefore : (exec (boot wp) before).stopPc = .notCalled) :
    ((runAfter wp before after).panicked = none →
      step (runAfter wp before after) .stop = stopEffect (runAfter wp before after)) ∧
    StopFlags (runAfter wp before after).stopPc (runAfter wp before after).wp ∧
    (runAfter wp before after).wp.wg = live (runAfter wp before after).workers ∧
    ((runAfter wp before after).wp.jobs.closed = true →
      (runAfter wp before after).wp.cancelled = true) ∧
    ((runAfter wp before after).wp.results.closed = true →
      (runAfter wp before after).wp.jobs.closed = true ∧
      (runAfter wp before after).wp.cancelled = true ∧
      ∀ w ∈ (runAfter wp before after).workers, w = .exited) ∧
    (∀ r, WorkerPc.publishing r ∈ (runAfter wp before after).workers →
      (runAfter wp before after).wp.results.closed = false) ∧
    (∀ i p, (runAfter wp before after).panicked ≠ some (.worker i, p)) ∧
    (∀ p, (runAfter wp before after).panicked ≠ some (.stopper, p)) ∧
    Stop wp = .ok { wp with cancelled := true, jobs := { wp.jobs with closed := true },
                            results := { wp.results with closed := true } } := by
  have hinv := inv_runAfter n q wp before after hnew hbefore
  have hf := hinv.flags
  have hjobs : (runAfter wp before after).wp.jobs.closed = true →
      (runAfter wp before after).wp.cancelled = true := by
    intro hc
    cases hpc : (runAfter wp before after).stopPc <;> rw [hpc] at hf <;> simp_all [StopFlags]
  have hres : (runAfter wp before after).wp.results.closed = true →
      (runAfter wp before after).wp.jobs.closed = true ∧
      (runAfter wp before after).wp.cancelled = true ∧
      ∀ w ∈ (runAfter wp before after).workers, w = .exited := by
    intro hc
    obtain ⟨hpc, hwg⟩ := StopFlags_results_closed _ _ hf hc
    rw [hpc] at hf
    refine ⟨hf.2.1, hf.1, all_exited_of_live_zero _ ?_⟩
    rw [← hinv.wg_live, hwg]
  refine ⟨fun hp => step_stop_eq _ hinv hp, hf, hinv.wg_live, hjobs, hres, ?_, ?_, ?_, ?_⟩
  · intro r hr
    cases hc : (runAfter wp before after).wp.results.closed with
    | false => rfl
    | true =>
      have := (hres hc).2.2 _ hr
      cases this
  · intro i p hp
    rcases hinv.panics with h | h <;> rw [h] at hp <;> simp at hp
  · intro p hp
    rcases hinv.panics with h | h <;> rw [h] at hp <;> simp at hp
  · obtain ⟨_, rfl⟩ := NewWorkerPool_ok n q wp hnew
    simp [Stop, cancel, closeJobs, wgWait, closeResults, Chan.close, Outcome.bind]

/-- Witness for `Stop_order_keeps_results_open_for_workers`: on the pool of
`main` a job is queued before `Start()`; it is served, and `Stop()` runs to its
end: the cancellation has fired, both channels are closed, the three workers
have returned and nothing panicked.  The first statement of `Stop()` on the
started pool fires the cancellation. -/
theorem Stop_order_keeps_results_open_for_workers_witness :
    NewWorkerPool 3 10 = .ok pool3x10 ∧
    (exec (boot pool3x10) [.submit job1 .commFirst]).stopPc = .notCalled ∧
    ((runAfter pool3x10 [.submit job1 .commFirst] serveThenShutdown).stopPc = .returned ∧
      (runAfter pool3x10 [.submit job1 .commFirst] serveThenShutdown).wp.cancelled = true ∧
      (runAfter pool3x10 [.submit job1 .commFirst] serveThenShutdown).wp.jobs.closed = true ∧
      (runAfter pool3x10 [.submit job1 .commFirst] serveThenShutdown).wp.results.closed = true ∧
      (runAfter pool3x10 [.submit job1 .commFirst] serveThenShutdown).workers
        = [.exited, .exited, .exited] ∧
      (runAfter pool3x10 [.submit job1 .commFirst] serveThenShutdown).delivered
        = [ProcessJob job1] ∧
      (runAfter pool3x10 [.submit job1 .commFirst] serveThenShutdown).panicked = none) ∧
    (step (runAfter pool3x10 [.submit job1 .commFirst] []) .stop
        = stopEffect (runAfter pool3x10 [.submit job1 .commFirst] []) ∧
      (step (runAfter pool3x10 [.submit job1 .commFirst] []) .stop).wp.cancelled = true ∧
      (step (runAfter pool3x10 [.submit job1 .commFirst] []) .stop).stopPc = .afterCancel) ∧
    ((runAfter pool3x10 [.submit job1 .commFirst] serveThenShutdown).wp.jobs.closed = true ∧
      (runAfter pool3x10 [.submit job1 .commFirst] serveThenShutdown).wp.cancelled = true ∧
      ∀ w ∈ (runAfter pool3x10 [.submit job1 .commFirst] serveThenShutdown).workers,
        w = .exited) :=
  ⟨by decide, by decide, by decide,
   ⟨(Stop_order_keeps_results_open_for_workers 3 10 pool3x10 [.submit job1 .commFirst] []
      (by decide) (by decide)).1 (by decide), by decide, by decide⟩,
   (Stop_order_keeps_results_open_for_workers 3 10 pool3x10 [.submit job1 .commFirst]
      serveThenShutdown (by decide) (by decide)).2.2.2.2.1 (by decide)⟩

end ProdPool

namespace ProdPool

open GoRt

/-- C4 as stated fails: with one job queued on `NewWorkerPool(1, 1)` and the
cancellation fired by `Stop()`, the worker at its outer `select` dequeues and
processes the job when the `select` polls the jobs clause first. -/
theorem worker_dequeues_after_cancel :
    (run pool1x1 [.submit job1 .commFirst, .stop]).wp.cancelled = true ∧
    (run pool1x1 [.submit job1 .commFirst, .stop]).wp.jobs.buf = [job1] ∧
    (run pool1x1 [.submit job1 .commFirst, .stop]).workers = [.waiting] ∧
    (run pool1x1 [.submit job1 .commFirst, .stop, .worker 0 .commFirst]).workers
      = [.publishing (ProcessJob job1)] ∧
    (run pool1x1 [.submit job1 .commFirst, .stop, .worker 0 .commFirst]).wp.jobs.buf = [] := by
  decide

/-- C4 amended: once the cancellation has fired, a worker at its outer `select`
never parks.  When no job is buffered it returns under every poll order, and
with jobs buffered it returns whenever the `select` takes the cancellation
clause (as it does when it polls that clause first); in both cases the queue
stays as it is.  But with a job buffered, a `select` that polls the jobs
clause first dequeues and processes that job. -/
theorem worker_after_cancel (wp : WorkerPool) (poll : Poll)
    (hx : wp.cancelled = true) (hwg : 0 < wp.wg) :
    Worker.step wp .waiting poll ≠ .blocked ∧
    (wp.jobs.buf = [] →
      ∃ ev, Worker.step wp .waiting poll = .ok ({ wp with wg := wp.wg - 1 }, .exited, ev)) ∧
    Worker.step wp .waiting .doneFirst
      = .ok ({ wp with wg := wp.wg - 1 }, .exited, .sawCancelAtWait) ∧
    (∀ job rest, wp.jobs.buf = job :: rest →
      Worker.step wp .waiting .commFirst
        = .ok ({ wp with jobs := { wp.jobs with buf := rest } },
               .publishing (ProcessJob job), .dequeued job)) := by
  have hwg0 : ¬ wp.wg = 0 := by omega
  refine ⟨?_, ?_, ?_, ?_⟩
  · cases hbuf : wp.jobs.buf <;> cases hc : wp.jobs.closed <;> cases poll <;>
      simp [Worker.step, select2, Chan.recvReady, Chan.recv, Outcome.bind, wgDone,
        hwg0, hbuf, hc, hx]
  · intro hbuf
    cases hc : wp.jobs.closed <;> cases poll <;>
      simp [Worker.step, select2, Chan.recvReady, Chan.recv, Outcome.bind, wgDone,
        hwg0, hbuf, hc, hx]
  · simp [Worker.step, select2, Outcome.bind, wgDone, hwg0, hx]
  · intro job rest hbuf
    simp [Worker.step, select2, Chan.recvReady, Chan.recv, Outcome.bind, hbuf]

/-- Witness for `worker_after_cancel`: the pool of `main` right after the first
statement of `Stop()`. -/
theorem worker_after_cancel_witness :
    (run pool3x10 [.stop]).wp.cancelled = true ∧ 0 < (run pool3x10 [.stop]).wp.wg ∧
    (Worker.step (run pool3x10 [.stop]).wp .waiting .commFirst ≠ .blocked ∧
    ((run pool3x10 [.stop]).wp.jobs.buf = [] →
      ∃ ev, Worker.step (run pool3x10 [.stop]).wp .waiting .commFirst
        = .ok ({ (run pool3x10 [.stop]).wp with wg := (run pool3x10 [.stop]).wp.wg - 1 },
               .exited, ev)) ∧
    Worker.step (run pool3x10 [.stop]).wp .waiting .doneFirst
      = .ok ({ (run pool3x10 [.stop]).wp with wg := (run pool3x10 [.stop]).wp.wg - 1 },
             .exited, .sawCancelAtWait) ∧
    (∀ job rest, (run pool3x10 [.stop]).wp.jobs.buf = job :: rest →
      Worker.step (run pool3x10 [.stop]).wp .waiting .commFirst
        = .ok ({ (run pool3x10 [.stop]).wp with
                   jobs := { (run pool3x10 [.stop]).wp.jobs with buf := rest } },
               .publishing (ProcessJob job), .dequeued job))) :=
  ⟨by decide, by decide,
    worker_after_cancel (run pool3x10 [.stop]).wp .commFirst (by decide) (by decide)⟩

/-- C5 as stated fails: on `NewWorkerPool(1, 1)` one job is accepted, `Stop()`
is called while it waits in the queue, and the results channel closes after
delivering no result at all. -/
theorem accepted_job_lost_on_Stop :
    NewWorkerPool 1 1 = .ok pool1x1 ∧
    (run pool1x1 lostJob).accepted = [job1] ∧
    (run pool1x1 lostJob).consumerDone = true ∧
    (run pool1x1 lostJob).delivered = [] ∧
    (run pool1x1 lostJob).panicked = none := by
  decide

/-- C5 amended: in every schedule of a started pool, the results of the
accepted jobs are, each exactly once, the results delivered so far, those
buffered in the results channel, those held by a worker, those of the jobs
still queued and those a worker dropped; nothing is dropped before the
cancellation fires.  Once the results channel has closed and the range loop has
ended, the delivered results are those of the accepted jobs without the jobs
left in the queue and the dropped results, so exactly one result per accepted
job is delivered when no job was left and no result dropped, and fewer
otherwise. -/
theorem results_account_for_accepted_jobs (n q : Int) (wp : WorkerPool) (trace : List Action)
    (hnew : NewWorkerPool n q = .ok wp) :
    List.Perm ((run wp trace).accepted.map ProcessJob)
      ((run wp trace).delivered ++ ((run wp trace).wp.results.buf
        ++ inflight (run wp trace).workers
        ++ (run wp trace).wp.jobs.buf.map ProcessJob ++ (run wp trace).discarded)) ∧
    ((run wp trace).wp.cancelled = false → (run wp trace).discarded = []) ∧
    ((run wp trace).consumerDone = true →
      (run wp trace).wp.results.closed = true ∧
      List.Perm ((run wp trace).accepted.map ProcessJob)
        ((run wp trace).delivered
          ++ ((run wp trace).wp.jobs.buf.map ProcessJob ++ (run wp trace).discarded)) ∧
      (run wp trace).delivered.length + (run wp trace).wp.jobs.buf.length
        + (run wp trace).discarded.length = (run wp trace).accepted.length ∧
      ((run wp trace).wp.jobs.buf = [] → (run wp trace).discarded = [] →
        List.Perm ((run wp trace).accepted.map ProcessJob) (run wp trace).delivered)) := by
  have hinv := inv_run n q wp trace hnew
  have hcons := hinv.conserve
  have hall : List.Perm ((run wp trace).accepted.map ProcessJob)
      ((run wp trace).delivered ++ ((run wp trace).wp.results.buf
        ++ inflight (run wp trace).workers
        ++ (run wp trace).wp.jobs.buf.map ProcessJob ++ (run wp trace).discarded)) := by
    rw [← Multiset.coe_eq_coe, hcons]
    simp only [← Multiset.coe_add]
    abel
  refine ⟨hall, hinv.no_drop, ?_⟩
  intro hd
  obtain ⟨hclosed, hbuf⟩ := hinv.drained hd
  obtain ⟨_, hwg⟩ := StopFlags_results_closed _ _ hinv.flags hclosed
  have hex := all_exited_of_live_zero (run wp trace).workers (by rw [← hinv.wg_live, hwg])
  have hfl : inflight (run wp trace).workers = [] := by
    unfold inflight
    rw [List.filterMap_eq_nil_iff]
    intro w hw
    rw [hex w hw]
  have hdone : List.Perm ((run wp trace).accepted.map ProcessJob)
      ((run wp trace).delivered
        ++ ((run wp trace).wp.jobs.buf.map ProcessJob ++ (run wp trace).discarded)) := by
    simpa [hbuf, hfl] using hall
  refine ⟨hclosed, hdone, ?_, ?_⟩
  · have := hdone.length_eq
    simp only [List.length_map, List.length_append] at this
    omega
  · intro hq hx
    simpa [hq, hx] using hdone

/-- Witness for `results_account_for_accepted_jobs`: on `NewWorkerPool(1, 1)`
one job is accepted, processed and delivered before `Stop()`. -/
theorem results_account_for_accepted_jobs_witness :
    NewWorkerPool 1 1 = .ok pool1x1 ∧
    (run pool1x1 servedJob).consumerDone = true ∧
    (run pool1x1 servedJob).wp.jobs.buf = [] ∧
    (run pool1x1 servedJob).discarded = [] ∧
    List.Perm ((run pool1x1 servedJob).accepted.map ProcessJob) (run pool1x1 servedJob).delivered :=
  ⟨by decide, by decide, by decide, by decide,
    (results_account_for_accepted_jobs 1 1 pool1x1 servedJob (by decide)).2.2
      (by decide) |>.2.2.2 (by decide) (by decide)⟩

/-- C6 fails on the code: on `NewWorkerPool(1, 1)` with one job queued and
`Stop()` past `close(wp.jobs)`, a `Submit` whose `select` polls the send clause
first neither returns `nil` nor returns the error: it panics with "send on
closed channel". -/
theorem Submit_has_a_third_outcome :
    (run pool1x1 [.submit job1 .commFirst, .stop, .stop]).stopPc = .afterCloseJobs ∧
    (run pool1x1 [.submit job1 .commFirst, .stop, .stop]).wp.jobs.buf = [job1] ∧
    Submit (run pool1x1 [.submit job1 .commFirst, .stop, .stop]).wp job2 .commFirst
      = .panic .sendOnClosedChannel ∧
    (run pool1x1 [.submit job1 .commFirst, .stop, .stop, .submit job2 .commFirst]).panicked
      = some (.submitter, .sendOnClosedChannel) := by
  decide

end ProdPool

/-! ## Claims on the rate limiters -/

namespace RateLim

open GoRt

/-- C7 as stated fails: a bucket of capacity `2^63 - 1` with a refill period of
one nanosecond, asked `Allow(0)` one nanosecond after its creation, ends with a
negative token count, because `tb.tokens += tokensToAdd` wraps around. -/
theorem tokens_negative_after_overflow :
    0 ≤ bucketMax.capacity ∧ 0 < bucketMax.rate ∧ bucketMax.lastRefill ≤ 1 ∧
    bucketMax.allowAll [(0, 1)]
      = .ok [({ capacity := maxInt64, tokens := minInt64, rate := 1, lastRefill := 1 }, false)] ∧
    minInt64 < 0 := by
  decide

/-- C7 amended: for a bucket built by `NewTockenBucket(capacity, refillRate)`
with `capacity ≥ 0` and `refillRate > 0`, and calls `Allow(n)` with `n ≥ 0` at
non-decreasing clock readings, each early enough that `capacity` plus the
number of refill periods since the creation fits in a 64-bit `int`, every call
returns and leaves `0 ≤ tokens ≤ capacity`. -/
theorem tokens_within_capacity (capacity refillRate t0 : Int) (calls : List (Int × Int))
    (hcap : 0 ≤ capacity) (hrate : 0 < refillRate)
    (hn : ∀ c ∈ calls, 0 ≤ c.1)
    (ht : List.Chain (fun a b => a ≤ b) t0 (calls.map Prod.snd))
    (hov : ∀ c ∈ calls, capacity + (c.2 - t0) / refillRate ≤ maxInt64) :
    ∃ out, (NewTockenBucket capacity refillRate t0).allowAll calls = .ok out ∧
      out.length = calls.length ∧
      ∀ r ∈ out, 0 ≤ r.1.tokens ∧ r.1.tokens ≤ capacity :=
  allowAll_keeps_bounds calls (NewTockenBucket capacity refillRate t0) t0 t0 hrate hcap
    (le_refl _) (le_refl _) (le_refl _) hn ht hov

/-- Witness for `tokens_within_capacity`: the bucket of `example4` with a burst
of three calls and one call half a second later. -/
theorem tokens_within_capacity_witness :
    ∃ out, (NewTockenBucket 10 (100 * millisecond) 0).allowAll
        [(1, 0), (1, 5), (1, 5), (1, 500 * millisecond)] = .ok out ∧
      out.length = [((1 : Int), (0 : Int)), (1, 5), (1, 5), (1, 500 * millisecond)].length ∧
      ∀ r ∈ out, 0 ≤ r.1.tokens ∧ r.1.tokens ≤ 10 :=
  tokens_within_capacity 10 (100 * millisecond) 0
    [(1, 0), (1, 5), (1, 5), (1, 500 * millisecond)]
    (by decide) (by decide) (by decide) (by simp [millisecond]) (by decide)

/-- C8 as stated fails where the 64-bit arithmetic wraps around.  On a bucket
of capacity `2^63 - 1` holding `2^63 - 1` tokens, with a refill period of one
nanosecond, `Allow(0)` one nanosecond after the last refill has `k = 1` and
`r = 2^63 - 1 ≥ 0`, yet it returns false and leaves `-2^63` tokens.  On the
bucket of `example4` emptied by its burst, `Allow(-2^63)` has `r = 0 ≥ n` and
returns true, yet it leaves `-2^63` tokens, not `r - n = 2^63`. -/
theorem Allow_departs_from_r_on_overflow :
    (0 < bucketMax.rate ∧ specTokensToAdd bucketMax 1 = 1 ∧
      specRefilled bucketMax 1 = maxInt64 ∧ (0 : Int) ≤ specRefilled bucketMax 1 ∧
      bucketMax.Allow 0 1
        = .ok ({ capacity := maxInt64, tokens := minInt64, rate := 1, lastRefill := 1 }, false)) ∧
    (specRefilled { bucket4 with tokens := 0 } 0 = 0 ∧
      specRefilled { bucket4 with tokens := 0 } 0 - minInt64 = 9223372036854775808 ∧
      ({ bucket4 with tokens := 0 } : TockenBucket).Allow minInt64 0
        = .ok ({ capacity := 10, tokens := minInt64, rate := 100 * millisecond,
                 lastRefill := 0 }, true)) := by
  decide

/-- C8 amended: for a bucket with `refillRate > 0` whose token count is a
64-bit `int`, when the time since the last refill is representable as a
`time.Duration` (as it is between two monotonic clock readings) and neither
`tokens + k` nor `r - n` exceeds the largest `int`, `Allow(n)` at clock reading
`now` computes `k = floor((now - lastRefill) / refillRate)` and `r = min(capacity,
tokens + k)` if `k > 0`, else `r = tokens`; it returns true iff `r ≥ n`; the
token count becomes `r - n` when it returns true and `r` when it returns
false. -/
theorem Allow_refills_then_consumes (tb : TockenBucket) (n now : Int)
    (hrate : 0 < tb.rate) (htok : isInt64 tb.tokens)
    (hel : isInt64 (now - tb.lastRefill))
    (hadd : 0 < specTokensToAdd tb now → tb.tokens + specTokensToAdd tb now ≤ maxInt64)
    (hsub : n ≤ specRefilled tb now → specRefilled tb now - n ≤ maxInt64) :
    ∃ tb1, tb.Allow n now = .ok (tb1, decide (n ≤ specRefilled tb now)) ∧
      tb1.tokens = (if n ≤ specRefilled tb now then specRefilled tb now - n
                    else specRefilled tb now) ∧
      tb1.capacity = tb.capacity ∧ tb1.rate = tb.rate := by
  have hrate0 : tb.rate ≠ 0 := by omega
  have hts := timeSub_of_isInt64 now tb.lastRefill hel
  have hw1 := wrap64_of_isInt64 _ (tdiv_isInt64 (now - tb.lastRefill) tb.rate hel hrate)
  obtain ⟨hiff, heq⟩ := tdiv_pos_iff (now - tb.lastRefill) tb.rate hrate
  unfold specRefilled at hsub ⊢
  unfold specTokensToAdd at hadd hsub ⊢
  simp only [TockenBucket.Allow, hrate0, if_false, hts, hw1, TockenBucket.refill]
  by_cases hpos : 0 < (now - tb.lastRefill) / tb.rate
  · have hk := heq hpos
    have hw2 : wrap64 (tb.tokens + (now - tb.lastRefill) / tb.rate)
        = tb.tokens + (now - tb.lastRefill) / tb.rate :=
      wrap64_of_isInt64 _ ⟨by have := htok.1; omega, hadd hpos⟩
    simp only [hk, gt_iff_lt, hpos, if_true, hw2] at hsub ⊢
    by_cases hgt : tb.capacity < tb.tokens + (now - tb.lastRefill) / tb.rate
    · have hmin : min tb.capacity (tb.tokens + (now - tb.lastRefill) / tb.rate) = tb.capacity :=
        min_eq_left (le_of_lt hgt)
      simp only [hmin, hgt, if_true, ge_iff_le] at hsub ⊢
      by_cases hge : n ≤ tb.capacity
      · have hw3 : wrap64 (tb.capacity - n) = tb.capacity - n :=
          wrap64_of_isInt64 _ ⟨by unfold minInt64; omega, hsub hge⟩
        simp only [hge, if_true, hw3, decide_True]
        exact ⟨_, rfl, rfl, rfl, rfl⟩
      · simp only [hge, if_false, decide_False]
        exact ⟨_, rfl, rfl, rfl, rfl⟩
    · have hmin : min tb.capacity (tb.tokens + (now - tb.lastRefill) / tb.rate)
          = tb.tokens + (now - tb.lastRefill) / tb.rate :=
        min_eq_right (by omega)
      simp only [hmin, hgt, if_false, ge_iff_le] at hsub ⊢
      by_cases hge : n ≤ tb.tokens + (now - tb.lastRefill) / tb.rate
      · have hw3 : wrap64 (tb.tokens + (now - tb.lastRefill) / tb.rate - n)
            = tb.tokens + (now - tb.lastRefill) / tb.rate - n :=
          wrap64_of_isInt64 _ ⟨by unfold minInt64; omega, hsub hge⟩
        simp only [hge, if_true, hw3, decide_True]
        exact ⟨_, rfl, rfl, rfl, rfl⟩
      · simp only [hge, if_false, decide_False]
        exact ⟨_, rfl, rfl, rfl, rfl⟩
  · have hnp : ¬ 0 < (now - tb.lastRefill).tdiv tb.rate := fun h => hpos (hiff.mp h)
    simp only [gt_iff_lt, hpos, hnp, if_false, ge_iff_le] at hsub ⊢
    by_cases hge : n ≤ tb.tokens
    · have hw3 : wrap64 (tb.tokens - n) = tb.tokens - n :=
        wrap64_of_isInt64 _ ⟨by unfold minInt64; omega, hsub hge⟩
      simp only [hge, if_true, hw3, decide_True]
      exact ⟨_, rfl, rfl, rfl, rfl⟩
    · simp only [hge, if_false, decide_False]
      exact ⟨_, rfl, rfl, rfl, rfl⟩

/-- Witness for `Allow_refills_then_consumes`: the bucket of `example4` after
its burst, asked `Allow(1)` half a second after its creation. -/
theorem Allow_refills_then_consumes_witness :
    ∃ tb1, ({ bucket4 with tokens := 0 } : TockenBucket).Allow 1 (500 * millisecond)
        = .ok (tb1, decide ((1 : Int) ≤ specRefilled { bucket4 with tokens := 0 } (500 * millisecond))) ∧
      tb1.tokens = (if (1 : Int) ≤ specRefilled { bucket4 with tokens := 0 } (500 * millisecond)
                    then specRefilled { bucket4 with tokens := 0 } (500 * millisecond) - 1
                    else specRefilled { bucket4 with tokens := 0 } (500 * millisecond)) ∧
      tb1.capacity = ({ bucket4 with tokens := 0 } : TockenBucket).capacity ∧
      tb1.rate = ({ bucket4 with tokens := 0 } : TockenBucket).rate :=
  Allow_refills_then_consumes { bucket4 with tokens := 0 } 1 (500 * millisecond)
    (by decide) (by decide) (by decide) (by decide) (by decide)

end RateLim

namespace RateLim

open GoRt

/-- C9 as stated fails for `C = 0`: on `NewTockenBucket(0, 100ms)` the call
`Allow(1)` made one refill period after the creation returns false, since the
refill is clamped to the capacity 0. -/
theorem empty_bucket_never_admits :
    (NewTockenBucket 0 (100 * millisecond) 0).allowAll [(1, 0), (1, 100 * millisecond)]
      = .ok [({ capacity := 0, tokens := 0, rate := 100 * millisecond, lastRefill := 0 }, false),
             ({ capacity := 0, tokens := 0, rate := 100 * millisecond,
                lastRefill := 100 * millisecond }, false)] := by
  decide

/-- C9 amended: for a fresh bucket `NewTockenBucket(C, d)` with `C ≥ 1` and
`d > 0` (both within the 64-bit range of their types) created at clock reading
`t0`: `C` calls `Allow(1)` at readings in `[t0, t0 + d)` all return true, one
more `Allow(1)` in that interval returns false, and an `Allow(1)` at any
reading `≥ t0 + d` after that returns true. -/
theorem burst_admitted_then_refilled (C d t0 : Int) (burst : List Int) (tExtra tLate : Int)
    (hC : 1 ≤ C) (hC64 : C ≤ maxInt64) (hd : 0 < d) (hd64 : d ≤ maxInt64)
    (hlen : (burst.length : Int) = C)
    (hburst : ∀ t ∈ burst, t0 ≤ t ∧ t < t0 + d)
    (hextra : t0 ≤ tExtra ∧ tExtra < t0 + d) (hlate : t0 + d ≤ tLate) :
    ∃ out, (NewTockenBucket C d t0).allowAll ((burst ++ [tExtra, tLate]).map fun t => (1, t))
        = .ok out ∧
      out.map Prod.snd = List.replicate burst.length true ++ [false, true] :=
  burst_denied_then_refilled burst (NewTockenBucket C d t0) tExtra tLate hd hd64 hC
    hlen.symm hC64 hburst hextra hlate

/-- Witness for `burst_admitted_then_refilled`: `example4`, a bucket of 10
tokens refilled every 100 ms, a burst of 10 calls, and a call after the 500 ms
sleep. -/
theorem burst_admitted_then_refilled_witness :
    ∃ out, (NewTockenBucket 10 (100 * millisecond) 0).allowAll
        ((List.replicate 10 (0 : Int) ++ [0, 500 * millisecond]).map fun t => (1, t)) = .ok out ∧
      out.map Prod.snd
        = List.replicate (List.replicate 10 (0 : Int)).length true ++ [false, true] :=
  burst_admitted_then_refilled 10 (100 * millisecond) 0 (List.replicate 10 0) 0
    (500 * millisecond) (by decide) (by decide) (by decide) (by decide) (by decide)
    (by decide) (by decide) (by decide)

/-- C10: for `r ≥ 1`, a limiter just built by `NewRateLimiter(r)` answers
`r + 1` back-to-back calls of `TryAllow()`, with no tick in between, with `r`
times true and then false; every call returns (none parks).  The constructor
returns a limiter for every `r` from 1 to `10^9`. -/
theorem TryAllow_burst_one_false (r : Int) (hr : 1 ≤ r) :
    (r ≤ 1000000000 → ∃ rl, NewRateLimiter r = .ok rl) ∧
    ∀ rl, NewRateLimiter r = .ok rl →
      ∃ rl1, tryAllowTimes (r.toNat + 1) rl
        = .ok (rl1, List.replicate r.toNat true ++ [false]) := by
  constructor
  · intro hle
    have hr0 : r ≠ 0 := by omega
    have hk : second.tdiv r = second / r := Int.tdiv_eq_ediv (by decide) (by omega)
    have hk1 : 1 ≤ second / r := Int.le_ediv_of_mul_le (by omega) (by unfold second; omega)
    have hk2 : second / r ≤ 1000000000 := Int.ediv_le_self _ (by decide)
    have hw : wrap64 (second / r) = second / r :=
      wrap64_of_isInt64 _ ⟨by unfold minInt64; omega, by unfold maxInt64; omega⟩
    have hi : ¬ second / r ≤ 0 := by omega
    have hneg : ¬ r < 0 := by omega
    unfold NewRateLimiter
    simp only [hr0, if_false, hk, hw, NewTicker, hi, Outcome.bind, Chan.make, hneg]
    rw [fill_spec _ _ rfl (by simp)]
    exact ⟨_, rfl⟩
  · intro rl hnew
    obtain ⟨_, htok⟩ := NewRateLimiter_ok r rl hnew
    exact tryAllowTimes_drains r.toNat rl (by rw [htok]) (by rw [htok])

/-- Witness for `TryAllow_burst_one_false`: the limiter of `example3`,
`NewRateLimiter(3)`, answers four calls with true, true, true, false. -/
theorem TryAllow_burst_one_false_witness :
    (1 : Int) ≤ 3 ∧
    ∃ rl, NewRateLimiter 3 = .ok rl ∧
      ∃ rl1, tryAllowTimes ((3 : Int).toNat + 1) rl
        = .ok (rl1, List.replicate (3 : Int).toNat true ++ [false]) :=
  ⟨by decide,
    (TryAllow_burst_one_false 3 (by decide)).1 (by decide) |>.elim fun rl h =>
      ⟨rl, h, (TryAllow_burst_one_false 3 (by decide)).2 rl h⟩⟩

end RateLim

namespace RateLim

open GoRt

/-- C11 fails on the code: `NewRateLimiter(3)` returns the limiter of
`example3`; after three calls of `TryAllow()` have emptied the bucket and
`Stop()` has run to its end, the bucket holds no token, yet `TryAllow()` returns
true and removes nothing, because the receive from the closed token channel
proceeds with the zero value. -/
theorem TryAllow_true_on_empty_bucket_after_Stop :
    NewRateLimiter 3 = .ok limiter3 ∧
    (exec (boot limiter3) drainThenStop).stopPc = .returned ∧
    (exec (boot limiter3) drainThenStop).panicked = none ∧
    (exec (boot limiter3) drainThenStop).rl.count = 0 ∧
    (exec (boot limiter3) drainThenStop).rl.tokens.closed = true ∧
    TryAllow (exec (boot limiter3) drainThenStop).rl
      = .ok ((exec (boot limiter3) drainThenStop).rl, true) := by
  decide

/-- C15: for every `requestPerSecond ≤ 0` the constructor panics and returns
no limiter: zero panics with "integer divide by zero" when the period
`time.Second / requestPerSecond` is computed; a negative value gives a period
that is not positive, so `time.NewTicker` panics, and its channel capacity is
negative, which `make` would reject had the construction come that far. -/
theorem NewRateLimiter_rejects_nonpositive (r : Int) (hr : r ≤ 0) :
    (∀ rl, NewRateLimiter r ≠ .ok rl) ∧
    (r = 0 → NewRateLimiter r = .panic .integerDivideByZero) ∧
    (r < 0 → wrap64 (second.tdiv r) ≤ 0 ∧
      NewRateLimiter r = .panic .nonPositiveTickerInterval ∧
      (Chan.make r : Outcome (Chan Unit)) = .panic .makechanSizeOutOfRange) := by
  have hzero : r = 0 → NewRateLimiter r = .panic .integerDivideByZero := by
    intro h0
    simp [NewRateLimiter, h0]
  have hneg : r < 0 → wrap64 (second.tdiv r) ≤ 0 ∧
      NewRateLimiter r = .panic .nonPositiveTickerInterval ∧
      (Chan.make r : Outcome (Chan Unit)) = .panic .makechanSizeOutOfRange := by
    intro hlt
    have h1 : second.tdiv r ≤ 0 := Int.tdiv_nonpos (by decide) (le_of_lt hlt)
    have h2 := tdiv_isInt64 second (-r) (by decide) (by omega)
    rw [Int.tdiv_neg] at h2
    have h3 : isInt64 (second.tdiv r) := by
      unfold isInt64 minInt64 maxInt64 at *
      omega
    have hw := wrap64_of_isInt64 _ h3
    have hr0 : r ≠ 0 := by omega
    refine ⟨by rw [hw]; exact h1, ?_, ?_⟩
    · simp [NewRateLimiter, hr0, hw, NewTicker, h1, Outcome.bind]
    · simp [Chan.make, hlt]
  refine ⟨?_, hzero, hneg⟩
  intro rl hok
  rcases lt_or_eq_of_le hr with hlt | h0
  · rw [(hneg hlt).2.1] at hok
    cases hok
  · rw [hzero h0] at hok
    cases hok

/-- Witness for `NewRateLimiter_rejects_nonpositive`: `NewRateLimiter(0)`. -/
theorem NewRateLimiter_rejects_nonpositive_witness :
    (0 : Int) ≤ 0 ∧
    ((∀ rl, NewRateLimiter 0 ≠ .ok rl) ∧
    ((0 : Int) = 0 → NewRateLimiter 0 = .panic .integerDivideByZero) ∧
    ((0 : Int) < 0 → wrap64 (second.tdiv 0) ≤ 0 ∧
      NewRateLimiter 0 = .panic .nonPositiveTickerInterval ∧
      (Chan.make 0 : Outcome (Chan Unit)) = .panic .makechanSizeOutOfRange)) :=
  ⟨by decide, NewRateLimiter_rejects_nonpositive 0 (by decide)⟩

end RateLim

/-! ## Claims on the scrapper -/

namespace WebScrapper

open GoRt

/-- C13 fails on the code: `ScrapeURL` drops the value of
`sc.limiter.Wait(sc.ctx)`, so in every world it sends the GET request and
returns the same result as when the wait succeeds.  On `NewScrapper(1, 60s, 1)`
with the context cancelled and one URL queued, a worker that takes the URL has
its wait cancelled, yet it sends the request and holds a `ScrapperResult` for
the URL at its inner `select`. -/
theorem worker_fetches_after_cancelled_wait :
    (∀ w url, (ScrapeURL w url).2 = [url] ∧
      ScrapeURL w url = ScrapeURL { w with waitErr := none } url) ∧
    stoppedThenStarted.sc.cancelled = true ∧
    stoppedThenStarted.sc.urls.buf = [url0] ∧
    stoppedThenStarted.workers = [.waiting] ∧
    cancelledWait.waitErr = some "context canceled" ∧
    (step stoppedThenStarted (.worker 0 .commFirst cancelledWait)).requests = [url0] ∧
    (step stoppedThenStarted (.worker 0 .commFirst cancelledWait)).workers
      = [.publishing { URL := url0, StatusCode := 200, BodyLength := 5, Duration := 1000000,
                       Error := none }] := by
  refine ⟨?_, by decide, by decide, by decide, by decide, by decide, by decide⟩
  intro w url
  cases hf : w.fetch <;> simp [ScrapeURL, hf]

/-- C14 as stated fails: on the scrapper of `main`, after the first statement
of `Stop()` the URL channel is closed and the cancellation has not fired. -/
theorem Stop_closes_urls_before_cancel :
    (run scrapper50 [.stop]).stopPc = .afterCloseUrls ∧
    (run scrapper50 [.stop]).sc.urls.closed = true ∧
    (run scrapper50 [.stop]).sc.cancelled = false := by
  decide

/-- C14 amended: `Scrapper.Stop` closes the URL channel first, then waits for
every worker to return, then closes the results channel, and fires the
cancellation last.  In every schedule of a started scrapper with its one
`Stop()` call the flags follow that order: the results channel is closed only
with the URL channel closed and every worker returned, the context is cancelled
only with the results channel closed, and neither a worker nor `Stop()`
panics. -/
theorem Stop_drains_then_cancels (n t r : Int) (trace : List Action) :
    StopFlags (run (NewScrapper n t r) trace).stopPc (run (NewScrapper n t r) trace).sc ∧
    ((run (NewScrapper n t r) trace).sc.results.closed = true →
      (run (NewScrapper n t r) trace).sc.urls.closed = true ∧
      ∀ w ∈ (run (NewScrapper n t r) trace).workers, w = .exited) ∧
    ((run (NewScrapper n t r) trace).sc.cancelled = true →
      (run (NewScrapper n t r) trace).sc.results.closed = true ∧
      (run (NewScrapper n t r) trace).stopPc = .returned) ∧
    (∀ i p, (run (NewScrapper n t r) trace).panicked ≠ some (.worker i, p)) ∧
    (∀ p, (run (NewScrapper n t r) trace).panicked ≠ some (.stopper, p)) := by
  have hinv := scrapper_inv_run n t r trace
  refine ⟨hinv.flags, ?_, ?_, ?_, ?_⟩
  · intro hc
    obtain ⟨hu, hwg⟩ := scrapper_StopFlags_results_closed _ _ hinv.flags hc
    exact ⟨hu, scrapper_all_exited_of_live_zero _ (by rw [← hinv.wg_live, hwg])⟩
  · intro hx
    exact StopFlags_cancelled _ _ hinv.flags hx
  · intro i p hp
    rcases hinv.panics with h | h <;> rw [h] at hp <;> simp at hp
  · intro p hp
    rcases hinv.panics with h | h <;> rw [h] at hp <;> simp at hp

/-- Witness for `Stop_drains_then_cancels`: on `NewScrapper(1, 60s, 1)`, after
one URL was scraped and `Stop()` ran to its end, the context is cancelled, both
channels are closed and the worker has returned. -/
theorem Stop_drains_then_cancels_witness :
    (run (NewScrapper 1 60000000000 1) scrapeThenStop).sc.cancelled = true ∧
    ((run (NewScrapper 1 60000000000 1) scrapeThenStop).sc.results.closed = true ∧
      (run (NewScrapper 1 60000000000 1) scrapeThenStop).stopPc = .returned) ∧
    ((run (NewScrapper 1 60000000000 1) scrapeThenStop).sc.urls.closed = true ∧
      ∀ w ∈ (run (NewScrapper 1 60000000000 1) scrapeThenStop).workers, w = .exited) :=
  ⟨by decide,
   (Stop_drains_then_cancels 1 60000000000 1 scrapeThenStop).2.2.1 (by decide),
   (Stop_drains_then_cancels 1 60000000000 1 scrapeThenStop).2.1 (by decide)⟩

end WebScrapper

/-! ## Claims on tokens and the authentication middleware -/

namespace Auth

open GoRt

/-- C16: with a library that keeps the contract of `jwt/v5` and a non-empty
`JWT_SECRET`, for every `userID` (a 64-bit `int`) and `email`, `GenerateToken`
returns a token, and `ValidateToken` applied to it before its expiry (as it is
when applied to the token just returned) succeeds with claims whose `UserID`
and `Email` are the inputs and whose expiry is the clock reading of the
generation plus 24 hours, cut to the second, which lies after the generation. -/
theorem ValidateToken_accepts_generated (lib : JwtLib) (envSecret email : String)
    (userID nowExp nowIat nowV : Int) (hlib : lib.Lawful) (hsecret : envSecret ≠ "")
    (huser : isInt64 userID) (hv : nowV < NewNumericDate (nowExp + 24 * hour)) :
    ∃ token claims,
      GenerateToken lib envSecret userID email nowExp nowIat = .ok token ∧
      ValidateToken lib envSecret token nowV = .ok claims ∧
      claims.UserID = userID ∧ claims.Email = email ∧
      claims.ExpiresAt = some (NewNumericDate (nowExp + 24 * hour)) ∧
      claims.IssuedAt = some (NewNumericDate nowIat) ∧
      nowExp < NewNumericDate (nowExp + 24 * hour) := by
  obtain ⟨hsign, hparse⟩ := hlib
  obtain ⟨t, ht⟩ := hsign
    { UserID := userID, Email := email,
      ExpiresAt := some (NewNumericDate (nowExp + 24 * hour)),
      IssuedAt := some (NewNumericDate nowIat) } envSecret hsecret
  have hsec : Claims.lossless
      { UserID := userID, Email := email,
        ExpiresAt := some (NewNumericDate (nowExp + 24 * hour)),
        IssuedAt := some (NewNumericDate nowIat) } := by
    refine ⟨huser, ?_, ?_⟩
    · intro e he
      simp only [Option.some.injEq] at he
      rw [← he]
      exact NewNumericDate_seconds _
    · intro i hi
      simp only [Option.some.injEq] at hi
      rw [← hi]
      exact NewNumericDate_seconds _
  obtain ⟨hwell, hver⟩ := hparse _ _ _ hsec ht
  have hver' := hver nowV (by
    intro e he
    simp only [Option.some.injEq] at he
    rw [← he]; exact hv)
  refine ⟨t, ⟨userID, email, some (NewNumericDate (nowExp + 24 * hour)),
      some (NewNumericDate nowIat)⟩, ?_, ?_, rfl, rfl, rfl, rfl, ?_⟩
  · simp [GenerateToken, GetJWTSecret, hsecret, ht]
  · simp [ValidateToken, GetJWTSecret, hsecret, hwell, hver']
  · have := (NewNumericDate_le (nowExp + 24 * hour)).2
    unfold hour at this ⊢
    omega

/-- Witness for `ValidateToken_accepts_generated`: the pairs of the tests,
`(123, test@example.com)` and `(0, zero@example.com)`, with the secret
`test-secret` and the sample library, which writes dates in seconds as `jwt/v5`
does; the token generated at 0.5 s is validated at that clock reading, and its
expiry is 24 hours after the second 0. -/
theorem ValidateToken_accepts_generated_witness :
    sampleLib.Lawful ∧
    (∃ token claims,
      GenerateToken sampleLib "test-secret" 123 "test@example.com" 500000000 500000000
        = .ok token ∧
      ValidateToken sampleLib "test-secret" token 500000000 = .ok claims ∧
      claims.UserID = 123 ∧ claims.Email = "test@example.com" ∧
      claims.ExpiresAt = some (NewNumericDate (500000000 + 24 * hour)) ∧
      claims.IssuedAt = some (NewNumericDate 500000000) ∧
      (500000000 : Int) < NewNumericDate (500000000 + 24 * hour)) ∧
    NewNumericDate (500000000 + 24 * hour) = 86400000000000 ∧
    (∃ token claims,
      GenerateToken sampleLib "test-secret" 0 "zero@example.com" 0 0 = .ok token ∧
      ValidateToken sampleLib "test-secret" token 0 = .ok claims ∧
      claims.UserID = 0 ∧ claims.Email = "zero@example.com" ∧
      claims.ExpiresAt = some (NewNumericDate (0 + 24 * hour)) ∧
      claims.IssuedAt = some (NewNumericDate 0) ∧
      (0 : Int) < NewNumericDate (0 + 24 * hour)) :=
  ⟨sampleLib_lawful,
   ValidateToken_accepts_generated sampleLib "test-secret" "test@example.com" 123 500000000
      500000000 500000000 sampleLib_lawful (by decide) (by decide) (by decide),
   by decide,
   ValidateToken_accepts_generated sampleLib "test-secret" "zero@example.com" 0 0 0 0
      sampleLib_lawful (by decide) (by decide) (by decide)⟩

end Auth

namespace Middleware

open GoRt

/-- C17: the handler of `AuthRequired` calls the next handler, with `userID`
and `email` set from the claims, if and only if the `Authorization` header
splits on single spaces into exactly two parts, the first `Bearer` and the
second a token that `ValidateToken` accepts; for a missing header, any other
shape of the header, or a token that `ValidateToken` rejects it answers 401 and
aborts, so the next handler is not called. -/
theorem AuthRequired_passes_iff (lib : Auth.JwtLib) (envSecret authHeader : String) (now : Int) :
    (∀ keys, AuthRequired lib envSecret now authHeader = .next keys ↔
      ∃ tokenString claims, stringsSplitSpace authHeader = ["Bearer", tokenString] ∧
        Auth.ValidateToken lib envSecret tokenString now = .ok claims ∧
        keys = [("userID", .int claims.UserID), ("email", .str claims.Email)]) ∧
    (authHeader = "" →
      AuthRequired lib envSecret now authHeader = .aborted 401 "Authorization header required") ∧
    (authHeader ≠ "" → (∀ tokenString, stringsSplitSpace authHeader ≠ ["Bearer", tokenString]) →
      AuthRequired lib envSecret now authHeader
        = .aborted 401 "Invalid authorization header format") ∧
    (∀ tokenString e, stringsSplitSpace authHeader = ["Bearer", tokenString] →
      Auth.ValidateToken lib envSecret tokenString now = .err e →
      AuthRequired lib envSecret now authHeader = .aborted 401 "Invalid or expired token") := by
  have hempty : stringsSplitSpace "" = [""] := by decide
  by_cases h0 : authHeader = ""
  · subst h0
    refine ⟨?_, ?_, ?_, ?_⟩
    · intro keys
      simp [AuthRequired, hempty]
    · intro _
      simp [AuthRequired]
    · intro h
      exact absurd rfl h
    · intro tokenString e hs
      rw [hempty] at hs
      simp at hs
  · refine ⟨?_, fun h => absurd h h0, ?_, ?_⟩
    · intro keys
      simp only [AuthRequired, h0, if_false]
      split
      · rename_i scheme tokenString hs
        by_cases hb : scheme = "Bearer"
        · subst hb
          simp only [ne_eq, not_true_eq_false, if_false]
          cases hv : Auth.ValidateToken lib envSecret tokenString now with
          | ok claims =>
            simp only [Verdict.next.injEq]
            constructor
            · intro hk
              exact ⟨tokenString, claims, hs, hv, hk.symm⟩
            · rintro ⟨tok, c, hs', hv', hk⟩
              rw [hs] at hs'
              simp only [List.cons.injEq, true_and, and_true] at hs'
              subst hs'
              rw [hv] at hv'
              simp only [Res.ok.injEq] at hv'
              subst hv'
              exact hk.symm
          | err e =>
            constructor
            · intro hk
              cases hk
            · rintro ⟨tok, c, hs', hv', _⟩
              rw [hs] at hs'
              simp only [List.cons.injEq, true_and, and_true] at hs'
              subst hs'
              rw [hv] at hv'
              cases hv'
          | panic msg =>
            constructor
            · intro hk
              cases hk
            · rintro ⟨tok, c, hs', hv', _⟩
              rw [hs] at hs'
              simp only [List.cons.injEq, true_and, and_true] at hs'
              subst hs'
              rw [hv] at hv'
              cases hv'
        · simp only [ne_eq, hb, not_false_eq_true, if_true]
          constructor
          · intro hk
            cases hk
          · rintro ⟨tok, c, hs', _, _⟩
            rw [hs] at hs'
            simp only [List.cons.injEq, and_true] at hs'
            exact absurd hs'.1 hb
      · rename_i hne
        constructor
        · intro hk
          cases hk
        · rintro ⟨tok, c, hs', _, _⟩
          exact absurd hs' (hne "Bearer" tok)
    · intro _ hshape
      simp only [AuthRequired, h0, if_false]
      split
      · rename_i scheme tokenString hs
        by_cases hb : scheme = "Bearer"
        · subst hb
          exact absurd hs (hshape tokenString)
        · simp [hb]
      · rfl
    · intro tokenString e hs hv
      simp [AuthRequired, h0, hs, hv]

/-- Witness for `AuthRequired_passes_iff`: the headers of the test cases, with
a library that knows one token: the valid token passes with the keys of its
claims; the missing header, the header `invalidToken format` and the token
`invalid.token.here` are answered 401. -/
theorem AuthRequired_passes_iff_witness :
    AuthRequired Auth.oneTokenLib "test-secret" 0 "Bearer header.payload.signature"
      = .next [("userID", .int 1), ("email", .str "test@example.com")] ∧
    AuthRequired Auth.oneTokenLib "test-secret" 0 ""
      = .aborted 401 "Authorization header required" ∧
    AuthRequired Auth.oneTokenLib "test-secret" 0 "invalidToken format"
      = .aborted 401 "Invalid authorization header format" ∧
    AuthRequired Auth.oneTokenLib "test-secret" 0 "Bearer invalid.token.here"
      = .aborted 401 "Invalid or expired token" :=
  ⟨((AuthRequired_passes_iff Auth.oneTokenLib "test-secret"
        "Bearer header.payload.signature" 0).1 _).2
      ⟨"header.payload.signature",
        ⟨1, "test@example.com", none, none⟩, by decide, by decide, rfl⟩,
   (AuthRequired_passes_iff Auth.oneTokenLib "test-secret" "" 0).2.1 rfl,
   (AuthRequired_passes_iff Auth.oneTokenLib "test-secret" "invalidToken format" 0).2.2.1
      (by decide) (by
        intro tokenString
        rw [show stringsSplitSpace "invalidToken format" = ["invalidToken", "format"] by decide]
        simp),
   (AuthRequired_passes_iff Auth.oneTokenLib "test-secret" "Bearer invalid.token.here" 0).2.2.2
      "invalid.token.here" "token is malformed" (by decide) (by decide)⟩

end Middleware

/-! ## Claims on the handlers -/

namespace Handlers

open GoRt Models

/-- C18 as stated fails: on a new handler, with hashing that succeeds, the
request of the test case `successful registration` is not answered 201 when
`JWT_SECRET` is not set: `GenerateToken` panics. -/
theorem Register_panics_without_secret :
    NewAuthHandler.users.lookup aliceRequest.Email = none ∧
    (NewAuthHandler.Register Auth.oneTokenLib "" sampleHash 0 0 (.ok aliceRequest)).2
      = .panicked "JWT_SECRET environement variable not set" := by
  decide

/-- C18, amended: `Register` with a request that passed the binding and whose
email is already registered answers 409 with the message `User already exists`
and leaves the stored users and `nextID` unchanged; with a request whose email
is not yet registered, when hashing the password succeeds and `GenerateToken`
returns a token, it answers 201 with that token and the user, and stores under
that email a user with the name and email of the request, the former `nextID`
as ID and the hashed password, leaves the other users as they are, and
increases `nextID` by one. -/
theorem Register_conflict_or_created (h : AuthHandler) (lib : Auth.JwtLib)
    (envSecret : String) (hashPassword : String → Except String String) (nowExp nowIat : Int)
    (req : RegisterRequest) :
    ((h.users.lookup req.Email).isSome = true →
      h.Register lib envSecret hashPassword nowExp nowIat (.ok req)
        = (h, .answered 409 [("error", .str "User already exists")])) ∧
    (h.users.lookup req.Email = none →
      ∀ hashed token, hashPassword req.Password = .ok hashed →
      Auth.GenerateToken lib envSecret h.nextID req.Email nowExp nowIat = .ok token →
      ∃ user after,
        h.Register lib envSecret hashPassword nowExp nowIat (.ok req)
          = (after, .answered 201 [("token", .str token), ("user", .user user)]) ∧
        user = { ID := h.nextID, Name := req.Name, Email := req.Email, Password := hashed,
                 Age := req.Age } ∧
        after.users.lookup req.Email = some user ∧
        (∀ email, email ≠ req.Email → after.users.lookup email = h.users.lookup email) ∧
        after.nextID = wrap64 (h.nextID + 1)) := by
  constructor
  · intro hdup
    simp [AuthHandler.Register, hdup]
  · intro hnew hashed token hhash hgen
    refine ⟨⟨h.nextID, req.Name, req.Email, hashed, req.Age⟩,
      ⟨h.users ++ [(req.Email, ⟨h.nextID, req.Name, req.Email, hashed, req.Age⟩)],
        wrap64 (h.nextID + 1)⟩, ?_, rfl, ?_, ?_, rfl⟩
    · simp only [AuthHandler.Register, mapSet, hnew, Option.isSome_none, Bool.false_eq_true,
        if_false, hhash, hgen]
    · exact lookup_append_new _ _ _ hnew
    · intro email hne
      exact lookup_append_other _ _ _ _ hne

/-- Witness for `Register_conflict_or_created`: the two test cases in turn,
with the secret `test-secret` and a library that signs: Alice is created on a
new handler with the ID 1, then Bob with the email of Alice is refused. -/
theorem Register_conflict_or_created_witness :
    (∃ user after,
      NewAuthHandler.Register Auth.oneTokenLib "test-secret" sampleHash 0 0 (.ok aliceRequest)
        = (after, .answered 201 [("token", .str "header.payload.signature"),
                                 ("user", .user user)]) ∧
      user = { ID := NewAuthHandler.nextID, Name := aliceRequest.Name,
               Email := aliceRequest.Email, Password := "hashed:password123",
               Age := aliceRequest.Age } ∧
      after.users.lookup aliceRequest.Email = some user ∧
      (∀ email, email ≠ aliceRequest.Email →
        after.users.lookup email = NewAuthHandler.users.lookup email) ∧
      after.nextID = wrap64 (NewAuthHandler.nextID + 1)) ∧
    AuthHandler.Register { users := [("alice@example.com", aliceUser)], nextID := 2 }
        Auth.oneTokenLib "test-secret" sampleHash 0 0 (.ok bobRequest)
      = ({ users := [("alice@example.com", aliceUser)], nextID := 2 },
         .answered 409 [("error", .str "User already exists")]) :=
  ⟨(Register_conflict_or_created NewAuthHandler Auth.oneTokenLib "test-secret" sampleHash 0 0
      aliceRequest).2 (by decide) "hashed:password123" "header.payload.signature" rfl
      (by decide),
   (Register_conflict_or_created { users := [("alice@example.com", aliceUser)], nextID := 2 }
      Auth.oneTokenLib "test-secret" sampleHash 0 0 bobRequest).1 (by decide)⟩

/-- C19: for every `UserHandler`, in whatever order the map is visited,
`GET /users` without query parameters answers 200 with the JSON object of a
`PaginatedResponse`: its fields are `data`, `page`, `page_size`, `total_items`
and `total_pages`, with the first ten users under `data` and their number under
`total_items`; it has no field `count` and no field `users`.  For the handler
holding Alice, Bob and Charlie the body is exactly the one given. -/
theorem GetAllUsers_body_has_no_count :
    (∀ (h : UserHandler) (visit : List (Int × User) → List (Int × User))
        (sortSlice : (User → User → Bool) → List User → List User),
      ∃ body, h.GetAllUsers visit sortSlice (.ok noPagination) (.ok noFilter)
          = .answered 200 body ∧
        body.map Prod.fst = ["data", "page", "page_size", "total_items", "total_pages"] ∧
        body.lookup "count" = none ∧ body.lookup "users" = none ∧
        body.lookup "total_items" = some (.num (visit h.users).length) ∧
        body.lookup "data" = some (.users (((visit h.users).map Prod.snd).take 10))) ∧
    (∀ sortSlice : (User → User → Bool) → List User → List User,
      threeUsers.GetAllUsers id sortSlice (.ok noPagination) (.ok noFilter)
        = .answered 200
            [("data", .users (threeUsers.users.map Prod.snd)), ("page", .num 1),
             ("page_size", .num 10), ("total_items", .num 3), ("total_pages", .num 1)]) := by
  have hgen : ∀ (h : UserHandler) (visit : List (Int × User) → List (Int × User))
      (sortSlice : (User → User → Bool) → List User → List User),
      h.GetAllUsers visit sortSlice (.ok noPagination) (.ok noFilter)
        = .answered 200
            [("data", .users (((visit h.users).map Prod.snd).take 10)), ("page", .num 1),
             ("page_size", .num 10), ("total_items", .num (visit h.users).length),
             ("total_pages", .num (wrap64 (Int.tdiv
                (wrap64 (wrap64 (((visit h.users).length : Int) + 10) - 1)) 10)))] := by
    intro h visit sortSlice
    have hkeep : ((visit h.users).map Prod.snd).filter (keepUser noFilter)
        = (visit h.users).map Prod.snd := by
      apply List.filter_eq_self.mpr
      intro u _
      exact keepUser_noFilter u
    have hoff : PaginationParams.GetOffset { Page := 1, PageSize := 10 } = 0 := by decide
    have hstop : wrap64 10 = 10 := by decide
    have hn0 : ¬ (((visit h.users).length : Int) < 0) := by omega
    have hsort : noFilter.SortBy = "" := rfl
    by_cases hlen : (visit h.users).length < 10
    · have htake : ((visit h.users).map Prod.snd).take (visit h.users).length
          = (visit h.users).map Prod.snd := by
        apply List.take_of_length_le
        simp
      have htake10 : ((visit h.users).map Prod.snd).take 10 = (visit h.users).map Prod.snd := by
        apply List.take_of_length_le
        simp only [List.length_map]
        omega
      simp [UserHandler.GetAllUsers, noPagination, hkeep, hsort, hoff, hstop, hlen, hn0, sliceOf,
        NewPaginatedResponse, PaginatedResponse.json, htake, htake10]
    · have hle : 10 ≤ (visit h.users).length := by omega
      simp [UserHandler.GetAllUsers, noPagination, hkeep, hsort, hoff, hstop, hlen, hn0, sliceOf,
        NewPaginatedResponse, PaginatedResponse.json, hle]
  constructor
  · intro h visit sortSlice
    refine ⟨_, hgen h visit sortSlice, ?_, ?_, ?_, ?_, ?_⟩ <;> simp [List.lookup]
  · intro sortSlice
    rw [hgen]
    decide

end Handlers

/-! ## Claims on the task list -/

namespace Tasks

open GoRt

/-- C20: `CompletedTask(id)` on a task list that `LoadTasks` reads without
error: if some task has the ID `id`, the list handed to `os.WriteFile` is the
stored list with `Completed` set on the first such task and every other task
and field as it was, in the same order, and the result is nil when the write
succeeds and the error of the write otherwise; if no task has that ID, it
returns the error `task with ID <id> not found` and nothing is written. -/
theorem CompletedTask_marks_first_match (d : Disk) (id : Int) (tasks : List Task)
    (hload : LoadTasks d = (tasks, none)) :
    ((∃ t ∈ tasks, t.ID = id) →
      ∃ pre t post, tasks = pre ++ t :: post ∧ (∀ u ∈ pre, u.ID ≠ id) ∧ t.ID = id ∧
        CompletedTask d id =
          match d.writeFault with
          | none =>
            (⟨.holds (pre ++ { ID := t.ID, Title := t.Title, Completed := true } :: post) none,
              d.writeFault⟩, none)
          | some (err, left) => (⟨left, d.writeFault⟩, some err)) ∧
    ((∀ t ∈ tasks, t.ID ≠ id) →
      CompletedTask d id = (d, some ("task with ID " ++ toString id ++ " not found"))) := by
  constructor
  · intro hsome
    obtain ⟨pre, t, post, hsplit, hpre, ht, hmark⟩ := mark_some id tasks hsome
    refine ⟨pre, t, post, hsplit, hpre, ht, ?_⟩
    simp only [CompletedTask, hload, hmark, SaveTasks]
  · intro hno
    simp only [CompletedTask, hload, mark_none id tasks hno]

/-- Witness for `CompletedTask_marks_first_match`: on `sampleDisk`, whose list
has the ID 2 twice, `CompletedTask(2)` marks a task of the ID 2 that no task of
that ID precedes, and `CompletedTask(7)` reports that the task is not found. -/
theorem CompletedTask_marks_first_match_witness :
    LoadTasks sampleDisk = (sampleTasks, none) ∧
    (∃ pre t post, sampleTasks = pre ++ t :: post ∧ (∀ u ∈ pre, u.ID ≠ 2) ∧ t.ID = 2 ∧
      CompletedTask sampleDisk 2 =
        match sampleDisk.writeFault with
        | none =>
          (⟨.holds (pre ++ { ID := t.ID, Title := t.Title, Completed := true } :: post) none,
            sampleDisk.writeFault⟩, none)
        | some (err, left) => (⟨left, sampleDisk.writeFault⟩, some err)) ∧
    CompletedTask sampleDisk 7 = (sampleDisk, some ("task with ID " ++ toString (7 : Int)
      ++ " not found")) :=
  ⟨rfl,
   (CompletedTask_marks_first_match sampleDisk 2 sampleTasks rfl).1
      ⟨{ ID := 2, Title := "b", Completed := false }, by decide, rfl⟩,
   (CompletedTask_marks_first_match sampleDisk 7 sampleTasks rfl).2 (by decide)⟩

end Tasks

/-! ## Claims on the refill time and on requests of negative size -/

namespace RateLim

open GoRt

/-- C21 fails on the code: whenever `Allow` adds tokens it sets `lastRefill`
to `now`, in every bucket.  On the bucket of `example4`, emptied by ten calls
`Allow(1)` at time 0, the call `Allow(1)` at 150ms adds one token (`k = 1`) and
leaves `lastRefill` at 150ms, not at 0 + 1 * 100ms; the 50ms that were left over
are lost, so the call `Allow(1)` at 200ms, two refill periods after the
creation, finds `k = 0` and is denied. -/
theorem Allow_sets_lastRefill_to_now :
    (∀ (tb : TockenBucket) (k now : Int),
      (tb.refill k now).lastRefill = if k > 0 then now else tb.lastRefill) ∧
    (bucket4.allowAll (List.replicate 10 (1, 0))).bind (fun calls => .ok calls.getLast?)
      = .ok (some (emptied4, true)) ∧
    wrap64 (Int.tdiv (timeSub (150 * millisecond) emptied4.lastRefill) emptied4.rate) = 1 ∧
    emptied4.Allow 1 (150 * millisecond)
      = .ok ({ emptied4 with lastRefill := 150 * millisecond }, true) ∧
    emptied4.lastRefill + 1 * emptied4.rate = 100 * millisecond ∧
    TockenBucket.Allow { emptied4 with lastRefill := 150 * millisecond } 1 (200 * millisecond)
      = .ok ({ emptied4 with lastRefill := 150 * millisecond }, false) ∧
    TockenBucket.Allow { emptied4 with lastRefill := 100 * millisecond } 1 (200 * millisecond)
      = .ok ({ emptied4 with lastRefill := 200 * millisecond }, true) := by
  refine ⟨?_, by decide, by decide, by decide, by decide, by decide, by decide⟩
  intro tb k now
  by_cases hk : k > 0 <;> simp [TockenBucket.refill, hk]

end RateLim

/-! ## Claims on the search, the pages and the failures of `Register` -/

namespace Handlers

open GoRt Models

/-- C22 fails on the code: `contains(str, substr)` is true exactly when
`substr` is not longer than `str` and is empty, or equal to `str`, or occurs in
`str` at a position before `len(str) - len(substr)`; the loop of `strContains`
stops one position early, so an occurrence at the very end of a longer `str` is
missed.  `contains("alice@example.com", "com")` is false although `com` is
the end of the string, and the search `com` drops the user Alice. -/
theorem contains_misses_occurrence_at_end :
    (∀ str substr : List UInt8, contains str substr = true ↔
      substr.length ≤ str.length ∧
        (str = substr ∨ substr = [] ∨
          ∃ i, i < str.length - substr.length ∧ (str.drop i).take substr.length = substr)) ∧
    (goBytes "alice@example.com").drop 14 = goBytes "com" ∧
    contains (goBytes "alice@example.com") (goBytes "com") = false ∧
    contains (goBytes "Alice") (goBytes "com") = false ∧
    keepUser searchCom alice = false := by
  refine ⟨?_, by decide, by decide, by decide, by decide⟩
  intro str substr
  simp only [contains, strContains, Bool.and_eq_true, Bool.or_eq_true, decide_eq_true_eq,
    strContains_loop_iff, Nat.zero_add, ge_iff_le, List.length_eq_zero]
  tauto

/-- C23 fails on the code: with `page = 2^63 - 1` and `page_size = 100`, which
pass the binding rules, `(page - 1) * pageSize` wraps around to -200 and the end
to -100; neither is clamped, so for every handler and every filter the slice
expression `usersList[offset:end]` panics. -/
theorem GetAllUsers_slice_out_of_bounds :
    1 ≤ hugePage.Page ∧ 1 ≤ hugePage.PageSize ∧ hugePage.PageSize ≤ 100 ∧
    hugePage.GetOffset = -200 ∧
    wrap64 (hugePage.GetOffset + hugePage.PageSize) = -100 ∧
    (∀ (h : UserHandler) (visit : List (Int × User) → List (Int × User))
        (sortSlice : (User → User → Bool) → List User → List User) (filter : UserFilter),
      h.GetAllUsers visit sortSlice (.ok hugePage) (.ok filter)
        = .panicked "runtime error: slice bounds out of range") := by
  refine ⟨by decide, by decide, by decide, by decide, by decide, ?_⟩
  intro h visit sortSlice filter
  have hoff : PaginationParams.GetOffset { Page := 9223372036854775807, PageSize := 100 }
      = -200 := by decide
  have hstop : wrap64 (-200 + 100) = -100 := by decide
  simp only [UserHandler.GetAllUsers, hugePage]
  simp only [show ((9223372036854775807 : Int) = 0) = False by decide,
    show ((100 : Int) = 0) = False by decide, if_false, hoff, hstop]
  generalize (if filter.SortBy ≠ "" then _ else _ : List User) = usersList
  have h1 : ¬ ((-200 : Int) > (usersList.length : Int)) := by omega
  have h2 : ¬ ((-100 : Int) > (usersList.length : Int)) := by omega
  simp [h1, h2, sliceOf]

/-- C24 fails on the code: `Register` stores the user and increases `nextID`
before it generates the token.  On a new handler, with a library whose signing
fails, the request of Alice is answered 500 and Alice is stored with
`nextID = 2`; the same request sent again is answered 409.  With `JWT_SECRET`
not set the handler panics at the same place, after storing. -/
theorem Register_500_after_storing :
    NewAuthHandler.Register Auth.noSignLib "test-secret" sampleHash 0 0 (.ok aliceRequest)
      = ({ users := [("alice@example.com", aliceUser)], nextID := 2 },
         .answered 500 [("error", .str "Failed to generate token"),
                        ("message", .str "key is of invalid type")]) ∧
    NewAuthHandler ≠ { users := [("alice@example.com", aliceUser)], nextID := 2 } ∧
    AuthHandler.Register { users := [("alice@example.com", aliceUser)], nextID := 2 }
        Auth.noSignLib "test-secret" sampleHash 0 0 (.ok aliceRequest)
      = ({ users := [("alice@example.com", aliceUser)], nextID := 2 },
         .answered 409 [("error", .str "User already exists")]) ∧
    NewAuthHandler.Register Auth.noSignLib "" sampleHash 0 0 (.ok aliceRequest)
      = ({ users := [("alice@example.com", aliceUser)], nextID := 2 },
         .panicked "JWT_SECRET environement variable not set") := by
  decide

end Handlers

namespace Middleware

open GoRt

/-- C25: for a limiter built with `1 ≤ limit` (a 64-bit `int`), and every
sequence of requests and sweeps in which the clock readings do not decrease and
every request of the IP (and every sweep before one) reads the clock no later
than `window` after the time recorded at the previous allowed request of that
IP, the requests of the IP are answered in order: the first `limit` are passed
on and every later one is rejected; every visitor count stays within
`[1, limit]`; and a request that is rejected is rejected with 429 and leaves
the limiter, so the count and `lastSeen` of the visitor, as it was. -/
theorem first_limit_requests_pass (limit window t0 : Int) (ip : String)
    (trace : List LimAction) (hlimit : 1 ≤ limit) (hfit : limit ≤ maxInt64)
    (htimely : Timely ip (NewRateLimiter limit window) t0 trace) :
    (NewRateLimiter limit window).verdicts ip trace
      = (List.range (requestsOf ip trace)).map (expected limit) ∧
    (∀ e ∈ ((NewRateLimiter limit window).run trace).visitors,
      1 ≤ e.2.count ∧ e.2.count ≤ limit) ∧
    (∀ (rl : RateLimiter) (ip1 : String) (t1 t2 : Int) (status : Nat) (msg : String),
      (rl.Middleware ip1 t1 t2).2 = .aborted status msg →
      status = 429 ∧ (rl.Middleware ip1 t1 t2).1 = rl) := by
  have h0 : LimInv limit window ip (NewRateLimiter limit window) t0 0 :=
    ⟨rfl, rfl, fun _ => rfl, fun h => absurd h (by omega)⟩
  have hverdicts := verdicts_of_timely limit window ip hlimit hfit trace _ t0 0 h0 htimely
  refine ⟨?_, ?_, ?_⟩
  · rw [hverdicts, List.range_eq_range']
  · exact counts_within_limit limit hlimit hfit trace _ rfl (by simp [NewRateLimiter])
  · intro rl ip1 t1 t2 status msg hreply
    unfold RateLimiter.Middleware at hreply ⊢
    split at hreply
    · cases hreply
    · split at hreply
      · cases hreply
      · split at hreply
        · simp only [Verdict.aborted.injEq] at hreply
          rename_i v hv hnot hfull
          simp only [hv, hnot, hfull, if_true, if_false]
          exact ⟨hreply.1.symm, trivial⟩
        · cases hreply

/-- Witness for `first_limit_requests_pass`: with a limit of 2 in a minute, of
three requests of `10.0.0.1` within nine nanoseconds the first two are passed
on and the third is rejected with 429; on the limiter after the three requests
a further request is rejected and leaves the limiter as it was. -/
theorem first_limit_requests_pass_witness :
    (NewRateLimiter 2 minute).verdicts "10.0.0.1" threeRequestsSwept
      = [.next [], .next [], .aborted 429 "Rate Limit exceeded"] ∧
    (NewRateLimiter 2 minute).verdicts "10.0.0.1" threeRequestsSwept
      = (List.range (requestsOf "10.0.0.1" threeRequestsSwept)).map (expected 2) ∧
    (∀ e ∈ ((NewRateLimiter 2 minute).run threeRequestsSwept).visitors,
      1 ≤ e.2.count ∧ e.2.count ≤ 2) ∧
    ((429 : Nat) = 429 ∧
      (((NewRateLimiter 2 minute).run threeRequests).Middleware "10.0.0.1" 9 10).1
        = (NewRateLimiter 2 minute).run threeRequests) :=
  ⟨by decide,
   (first_limit_requests_pass 2 minute 0 "10.0.0.1" threeRequestsSwept (by decide) (by decide)
      (by decide)).1,
   (first_limit_requests_pass 2 minute 0 "10.0.0.1" threeRequestsSwept (by decide) (by decide)
      (by decide)).2.1,
   (first_limit_requests_pass 2 minute 0 "10.0.0.1" threeRequestsSwept (by decide) (by decide)
      (by decide)).2.2 ((NewRateLimiter 2 minute).run threeRequests) "10.0.0.1" 9 10 429
      "Rate Limit exceeded" (by decide)⟩

end Middleware

namespace RateLim

open GoRt

/-- C26 fails on the code: `Allow(n)` has no check of the sign of `n`.  On the
new bucket of `example4`, which holds 10 tokens of a capacity of 10, the call
`Allow(-5)` returns true and leaves 15 tokens, more than the capacity; a call
`Allow(0)` leaves the 10 tokens. -/
theorem Allow_negative_exceeds_capacity :
    0 ≤ bucket4.tokens ∧ bucket4.tokens ≤ bucket4.capacity ∧
    bucket4.Allow (-5) 0 = .ok ({ bucket4 with tokens := 15 }, true) ∧
    bucket4.capacity = 10 ∧
    bucket4.Allow 0 0 = .ok (bucket4, true) := by
  decide

end RateLim

/-! ## Claims on the IDs of tasks and users -/

namespace Tasks

open GoRt

/-- C27 as stated fails: on a list with strictly increasing IDs whose last ID
is the largest `int`, `AddTask` succeeds and gives the new task the ID
`-2^63`, which the first task already has; the saved list is not increasing. -/
theorem AddTask_wraps_after_largest_ID :
    Increasing [{ ID := minInt64, Title := "a", Completed := false },
                { ID := maxInt64, Title := "b", Completed := false }] ∧
    AddTask extremeDisk "c"
      = ({ file := .holds [{ ID := minInt64, Title := "a", Completed := false },
                           { ID := maxInt64, Title := "b", Completed := false },
                           { ID := minInt64, Title := "c", Completed := false }] none,
           writeFault := none }, none) ∧
    ¬ Increasing [{ ID := minInt64, Title := "a", Completed := false },
                  { ID := maxInt64, Title := "b", Completed := false },
                  { ID := minInt64, Title := "c", Completed := false }] := by
  decide

/-- C27, amended: on a stored list with strictly increasing IDs, every
successful `AddTask`, `CompletedTask` and `DeleteTask` saves a list with
strictly increasing IDs, for `AddTask` when the last ID, a 64-bit `int`, is
below the largest `int`.  `AddTask` appends a task with the given title, `Completed = false` and an
ID that no task of the list has, leaving the other tasks as they are;
`CompletedTask` leaves every ID and title in place; `DeleteTask` saves the
tasks whose ID is not the given one, in their order, and one task had it. -/
theorem task_IDs_stay_increasing (d d1 : Disk) (tasks : List Task)
    (hload : LoadTasks d = (tasks, none)) (hinc : Increasing tasks) :
    (∀ title, AddTask d title = (d1, none) →
      (∀ last, tasks.getLast? = some last → minInt64 ≤ last.ID ∧ last.ID < maxInt64) →
      ∃ newID, d1.file = .holds (tasks ++ [{ ID := newID, Title := title, Completed := false }])
          none ∧
        (∀ t ∈ tasks, t.ID ≠ newID) ∧
        Increasing (tasks ++ [{ ID := newID, Title := title, Completed := false }])) ∧
    (∀ id, CompletedTask d id = (d1, none) →
      ∃ marked, d1.file = .holds marked none ∧
        marked.map Task.ID = tasks.map Task.ID ∧ marked.map Task.Title = tasks.map Task.Title ∧
        Increasing marked) ∧
    (∀ id, DeleteTask d id = (d1, none) →
      d1.file = .holds (tasks.filter fun t => decide (t.ID ≠ id)) none ∧
      (∃ t ∈ tasks, t.ID = id) ∧
      Increasing (tasks.filter fun t => decide (t.ID ≠ id))) := by
  refine ⟨?_, ?_, ?_⟩
  · intro title hadd hfit
    simp only [AddTask, hload] at hadd
    have hfile := SaveTasks_ok _ _ _ hadd
    refine ⟨_, hfile, ?_, ?_⟩
    · cases hl : tasks.getLast? with
      | none =>
        have hnil : tasks = [] := List.getLast?_eq_none_iff.mp hl
        subst hnil
        simp
      | some last =>
        have hbig := getLast_is_largest tasks last hinc hl
        obtain ⟨hge, hlt⟩ := hfit last hl
        intro t ht
        have hle := hbig t ht
        simp only
        unfold minInt64 at hge
        unfold maxInt64 at hlt
        unfold wrap64
        omega
    · unfold Increasing at *
      rw [List.pairwise_append]
      refine ⟨hinc, by simp, ?_⟩
      intro t ht u hu
      simp only [List.mem_singleton] at hu
      subst hu
      cases hl : tasks.getLast? with
      | none =>
        have hnil : tasks = [] := List.getLast?_eq_none_iff.mp hl
        subst hnil
        simp at ht
      | some last =>
        have hbig := getLast_is_largest tasks last hinc hl t ht
        obtain ⟨hge, hlt⟩ := hfit last hl
        simp only
        unfold minInt64 at hge
        unfold maxInt64 at hlt
        unfold wrap64
        omega
  · intro id hdone
    simp only [CompletedTask, hload] at hdone
    cases hm : CompletedTask.mark id tasks with
    | none =>
      rw [hm] at hdone
      simp at hdone
    | some marked =>
      rw [hm] at hdone
      have hfile := SaveTasks_ok _ _ _ hdone
      obtain ⟨hid, htitle⟩ := mark_map_ID id tasks marked hm
      exact ⟨marked, hfile, hid, htitle, Increasing_of_map_ID tasks marked hid hinc⟩
  · intro id hdel
    simp only [DeleteTask, hload] at hdel
    cases hr : DeleteTask.remove id tasks with
    | none =>
      rw [hr] at hdel
      simp at hdel
    | some kept =>
      rw [hr] at hdel
      have hfile := SaveTasks_ok _ _ _ hdel
      obtain ⟨hkept, hex⟩ := remove_eq_filter id tasks kept hinc hr
      subst hkept
      exact ⟨hfile, hex, List.Pairwise.filter _ hinc⟩

/-- Witness for `task_IDs_stay_increasing`: on the list with the IDs 1, 2 and
4, `AddTask` appends a task with an ID that is new, `CompletedTask(2)` keeps
the IDs and titles, and `DeleteTask(2)` leaves the tasks 1 and 4. -/
theorem task_IDs_stay_increasing_witness :
    (∃ newID, (AddTask gapDisk "d").1.file
        = .holds (gapTasks ++ [{ ID := newID, Title := "d", Completed := false }]) none ∧
      (∀ t ∈ gapTasks, t.ID ≠ newID) ∧
      Increasing (gapTasks ++ [{ ID := newID, Title := "d", Completed := false }])) ∧
    (∃ marked, (CompletedTask gapDisk 2).1.file = .holds marked none ∧
      marked.map Task.ID = gapTasks.map Task.ID ∧
      marked.map Task.Title = gapTasks.map Task.Title ∧ Increasing marked) ∧
    ((DeleteTask gapDisk 2).1.file
        = .holds (gapTasks.filter fun t => decide (t.ID ≠ 2)) none ∧
      (∃ t ∈ gapTasks, t.ID = 2) ∧
      Increasing (gapTasks.filter fun t => decide (t.ID ≠ 2))) :=
  ⟨(task_IDs_stay_increasing gapDisk (AddTask gapDisk "d").1 gapTasks rfl (by decide)).1 "d"
      (by decide) (by decide),
   (task_IDs_stay_increasing gapDisk (CompletedTask gapDisk 2).1 gapTasks rfl (by decide)).2.1 2
      (by decide),
   (task_IDs_stay_increasing gapDisk (DeleteTask gapDisk 2).1 gapTasks rfl (by decide)).2.2 2
      (by decide)⟩

end Tasks

namespace Handlers

open GoRt Models

/-- C28: in every state reached from `NewUserHandler()` by fewer than
`2^63 - 1` requests to `CreateUser`, `UpdateUser` and `DeleteUser` (so that
`nextID` has not wrapped around), every stored user sits under the key equal to
its own ID and every stored ID lies in `[1, nextID)`; the IDs that the calls of
`CreateUser` returned are strictly increasing in call order, so none is
returned twice, also after a delete; and `UpdateUser` on a stored ID answers
200 and stores the body under the path ID with the ID of the path, whatever ID
the body carries. -/
theorem UserHandler_IDs_stay_consistent (trace : List UserAction)
    (hlen : (trace.length : Int) < maxInt64) :
    (∀ k u, (k, u) ∈ (NewUserHandler.run trace).users →
      u.ID = k ∧ 1 ≤ k ∧ k < (NewUserHandler.run trace).nextID) ∧
    (NewUserHandler.createdIDs trace).Pairwise (· < ·) ∧
    (NewUserHandler.createdIDs trace).Nodup ∧
    (∀ id body old, (NewUserHandler.run trace).users.lookup id = some old →
      ((NewUserHandler.run trace).UpdateUser (some id) (.ok body)).2
        = .user 200 { body with ID := id } ∧
      ((NewUserHandler.run trace).UpdateUser (some id) (.ok body)).1.users.lookup id
        = some { body with ID := id } ∧
      ((NewUserHandler.run trace).UpdateUser (some id) (.ok body)).1.nextID
        = (NewUserHandler.run trace).nextID) := by
  have h0 : NewUserHandler.Inv 1 := by
    refine ⟨by decide, by decide, ?_⟩
    intro k u hmem
    simp [NewUserHandler] at hmem
  obtain ⟨hinv, hpair, _⟩ := users_inv_run trace NewUserHandler 1 h0 (by omega)
  refine ⟨hinv.2.2, hpair, ?_, ?_⟩
  · exact hpair.imp (fun hlt => ne_of_lt hlt)
  · intro id body old hold
    simp only [UserHandler.UpdateUser, hold, Option.isNone_some, Bool.false_eq_true, if_false]
    exact ⟨trivial, lookup_mapSet_self _ _ _, trivial⟩

/-- Witness for `UserHandler_IDs_stay_consistent`: Alice and Bob are created,
Alice is deleted, the user 2 is updated with a body that carries the ID 99, and
a third user is created and gets the ID 3, not the ID 1 that was freed. -/
theorem UserHandler_IDs_stay_consistent_witness :
    NewUserHandler.createdIDs sampleRequests = [1, 2, 3] ∧
    (∀ k u, (k, u) ∈ (NewUserHandler.run sampleRequests).users →
      u.ID = k ∧ 1 ≤ k ∧ k < (NewUserHandler.run sampleRequests).nextID) ∧
    (NewUserHandler.createdIDs sampleRequests).Nodup ∧
    (((NewUserHandler.run sampleRequests).UpdateUser (some 2) (.ok bobBody)).2
        = .user 200 { bobBody with ID := 2 } ∧
      ((NewUserHandler.run sampleRequests).UpdateUser (some 2) (.ok bobBody)).1.users.lookup 2
        = some { bobBody with ID := 2 } ∧
      ((NewUserHandler.run sampleRequests).UpdateUser (some 2) (.ok bobBody)).1.nextID
        = (NewUserHandler.run sampleRequests).nextID) :=
  ⟨by decide,
   (UserHandler_IDs_stay_consistent sampleRequests (by decide)).1,
   (UserHandler_IDs_stay_consistent sampleRequests (by decide)).2.2.1,
   (UserHandler_IDs_stay_consistent sampleRequests (by decide)).2.2.2 2 bobBody
      { alice with ID := 2 } (by decide)⟩

end Handlers

/-! ## Claim on `BuildTree` -/

namespace Trees

open GoRt

/-- C29: for every non-empty list of ints, `BuildTree` returns within
`len(values)` rounds of its loop; the node built from position `i` is at the
address `i`, holds the entry at `i`, and has as left and right child the nodes
built from the positions `2i+1` and `2i+2` when those positions exist, and no
child otherwise; the level-order traversal of the tree from the root is the
input list. -/
theorem BuildTree_level_order_is_input (vs : List Int) (hne : vs ≠ []) :
    BuildTree (vs.map Value.int) = some (.ok (treeOf vs, some 0)) ∧
    (treeOf vs).length = vs.length ∧
    (∀ i (hi : i < vs.length), (treeOf vs).get? i
      = some { Val := vs[i],
               Left := if 2 * i + 1 < vs.length then some (2 * i + 1) else none,
               Right := if 2 * i + 2 < vs.length then some (2 * i + 2) else none }) ∧
    levelOrder (treeOf vs) (some 0) = vs := by
  have hpos : 0 < vs.length := List.length_pos.mpr hne
  refine ⟨?_, by simp [treeOf], ?_, ?_⟩
  · have hloop := loop_spec vs vs.length 0 hpos (by omega)
    have hheap : heapAt vs 0 = [{ Val := vs.getD 0 0, Left := none, Right := none }] := by
      unfold heapAt
      have : min vs.length (2 * 0 + 1) - 0 = 1 := by
        rw [Nat.min_eq_right (by omega)]
      rw [this]
      rfl
    have hqueue : List.range' 0 (min vs.length (2 * 0 + 1) - 0) = [0] := by
      have : min vs.length (2 * 0 + 1) - 0 = 1 := by
        rw [Nat.min_eq_right (by omega)]
      rw [this]
      rfl
    rw [hheap, hqueue] at hloop
    cases vs with
    | nil => exact absurd rfl hne
    | cons v rest =>
      simp only [List.map_cons, BuildTree, List.length_cons, List.length_map]
      simp only [List.map_cons, List.length_cons, List.getD_cons_zero, Nat.mul_zero,
        Nat.zero_add] at hloop
      rw [hloop]
  · intro i hi
    rw [treeOf_get vs i hi]
    simp [nodeAt, childAt, List.getD, List.getElem?_eq_getElem hi]
  · unfold levelOrder
    have h := levelOrder_go_spec vs vs.length 0 (by omega) (by omega)
    have hqueue : List.range' 0 (min vs.length (2 * 0 + 1) - 0) = [0] := by
      have : min vs.length (2 * 0 + 1) - 0 = 1 := by
        rw [Nat.min_eq_right (by omega)]
      rw [this]
      rfl
    rw [hqueue] at h
    have hlen : (treeOf vs).length = vs.length := by simp [treeOf]
    rw [hlen]
    simpa using h

/-- Witness for `BuildTree_level_order_is_input`: the list of `main`,
`[1, 2, 3, 4, 5]`; the root 1 has the children 2 and 3, and the node 2 has the
children 4 and 5. -/
theorem BuildTree_level_order_is_input_witness :
    BuildTree [.int 1, .int 2, .int 3, .int 4, .int 5]
      = some (.ok ([{ Val := 1, Left := some 1, Right := some 2 },
                    { Val := 2, Left := some 3, Right := some 4 },
                    { Val := 3, Left := none, Right := none },
                    { Val := 4, Left := none, Right := none },
                    { Val := 5, Left := none, Right := none }], some 0)) ∧
    (BuildTree ([1, 2, 3, 4, 5].map Value.int) = some (.ok (treeOf [1, 2, 3, 4, 5], some 0)) ∧
    (treeOf [1, 2, 3, 4, 5]).length = [1, 2, 3, 4, 5].length ∧
    (∀ i (hi : i < [1, 2, 3, 4, 5].length), (treeOf [1, 2, 3, 4, 5]).get? i
      = some { Val := [1, 2, 3, 4, 5][i],
               Left := if 2 * i + 1 < [1, 2, 3, 4, 5].length then some (2 * i + 1) else none,
               Right := if 2 * i + 2 < [1, 2, 3, 4, 5].length then some (2 * i + 2) else none }) ∧
    levelOrder (treeOf [1, 2, 3, 4, 5]) (some 0) = [1, 2, 3, 4, 5]) :=
  ⟨by decide, BuildTree_level_order_is_input [1, 2, 3, 4, 5] (by decide)⟩

end Trees

namespace Models

open GoRt

/-- C30: for `pageSize ≥ 1` and `totalItems ≥ 0` with `totalItems + pageSize - 1`
within the 64-bit range, `NewPaginatedResponse` returns a response whose
`TotalPages` is the least `t ≥ 0` with `t * pageSize ≥ totalItems`, and whose
`Data`, `Page`, `PageSize` and `TotalItems` are the arguments. -/
theorem NewPaginatedResponse_TotalPages_is_ceiling (data : List User)
    (page pageSize totalItems : Int) (hsize : 1 ≤ pageSize) (hitems : 0 ≤ totalItems)
    (hfit : totalItems + pageSize - 1 ≤ maxInt64) :
    ∃ p, NewPaginatedResponse data page pageSize totalItems = .ok p ∧
      p.Data = data ∧ p.Page = page ∧ p.PageSize = pageSize ∧ p.TotalItems = totalItems ∧
      0 ≤ p.TotalPages ∧ totalItems ≤ p.TotalPages * pageSize ∧
      ∀ t, 0 ≤ t → totalItems ≤ t * pageSize → p.TotalPages ≤ t := by
  have hne : pageSize ≠ 0 := by omega
  have hnum : wrap64 (wrap64 (totalItems + pageSize) - 1) = totalItems + pageSize - 1 := by
    rw [wrap64_sub_one]
    apply RateLim.wrap64_of_isInt64
    unfold isInt64 minInt64 maxInt64
    unfold maxInt64 at hfit
    constructor <;> omega
  have hnonneg : 0 ≤ totalItems + pageSize - 1 := by omega
  have hdiv : Int.tdiv (totalItems + pageSize - 1) pageSize
      = (totalItems + pageSize - 1) / pageSize :=
    Int.tdiv_eq_ediv hnonneg (by omega)
  have hq0 : 0 ≤ (totalItems + pageSize - 1) / pageSize := Int.ediv_nonneg hnonneg (by omega)
  have hqle : (totalItems + pageSize - 1) / pageSize ≤ totalItems + pageSize - 1 :=
    Int.ediv_le_self _ hnonneg
  have hwrap : wrap64 ((totalItems + pageSize - 1) / pageSize)
      = (totalItems + pageSize - 1) / pageSize := by
    apply RateLim.wrap64_of_isInt64
    unfold isInt64 minInt64 maxInt64
    unfold maxInt64 at hfit
    constructor <;> omega
  have hmod := Int.emod_add_ediv (totalItems + pageSize - 1) pageSize
  have hmod0 := Int.emod_nonneg (totalItems + pageSize - 1) hne
  have hmodlt := Int.emod_lt_of_pos (totalItems + pageSize - 1) (show 0 < pageSize by omega)
  refine ⟨⟨data, page, pageSize, totalItems, (totalItems + pageSize - 1) / pageSize⟩,
    by simp only [NewPaginatedResponse, hne, if_false, hnum, hdiv, hwrap], rfl, rfl, rfl, rfl,
    hq0, ?_, ?_⟩
  · show totalItems ≤ (totalItems + pageSize - 1) / pageSize * pageSize
    nlinarith
  · intro t ht hcover
    show (totalItems + pageSize - 1) / pageSize ≤ t
    by_contra hlt
    have hlt' : t + 1 ≤ (totalItems + pageSize - 1) / pageSize := by omega
    have : (t + 1) * pageSize ≤ (totalItems + pageSize - 1) / pageSize * pageSize :=
      Int.mul_le_mul_of_nonneg_right hlt' (by omega)
    nlinarith

/-- Witness for `NewPaginatedResponse_TotalPages_is_ceiling`: 25 items on pages
of 10 make 3 pages. -/
theorem NewPaginatedResponse_TotalPages_is_ceiling_witness :
    ∃ p, NewPaginatedResponse [] 1 10 25 = .ok p ∧
      p.Data = [] ∧ p.Page = 1 ∧ p.PageSize = 10 ∧ p.TotalItems = 25 ∧
      0 ≤ p.TotalPages ∧ 25 ≤ p.TotalPages * 10 ∧
      ∀ t, 0 ≤ t → 25 ≤ t * 10 → p.TotalPages ≤ t :=
  NewPaginatedResponse_TotalPages_is_ceiling [] 1 10 25 (by decide) (by decide) (by decide)

end Models
